import Mathlib

/-!
# Semantic analyser of the COOL compiler (`semant.cc`)

A shallow embedding of `ClassTable` from `semant.cc`: the class registry
(`install_basic_classes`, `build_inheritance_graph`), the inheritance validator
(`check_inheritance`), the type relation (`is_subtype`, `lub`), the method
resolver (`find_method`), the expression checker (`type_check_expression`), the
class checker (`type_check_class`) and the pass over all classes (`type_check`).

Conventions of the embedding.

* A `Symbol` is an interned identifier; two symbols are equal exactly when their
  strings are, so `Symbol` is `String`.
* `semant.cc` reports an error by writing a message and executing
  `semant_errors++`.  The message is kept as a `SemantError` (its kind and the
  class it is about) appended to `error_stream`; the counter is `semant_errors`.
* Every `while` loop of the source is a function recursing on a `fuel : Nat`
  that bounds the number of iterations; it returns `none` when the bound is
  exceeded and `some r` when the loop exits with `r`.
* The checkers update the syntax tree, the environment and the class table in
  place; here they return the updated values.
-/

namespace Semant

/-! ## Symbols (`initialize_constants`) -/

abbrev Symbol := String

/-- The symbol `Int` of the source (renamed: `Int` is a Lean type). -/
def Int_ : Symbol := "Int"
/-- The symbol `Float` of the source. -/
def Float_ : Symbol := "Float"
/-- The symbol `String` of the source. -/
def String_ : Symbol := "String"
/-- The symbol `Bool` of the source. -/
def Bool_ : Symbol := "Bool"
/-- The symbol naming the input/output class in `install_basic_classes`. -/
def IO_ : Symbol := "IO"
def Object : Symbol := "Object"
def SELF_TYPE : Symbol := "SELF_TYPE"
def No_type : Symbol := "_no_type"
def No_class : Symbol := "_no_class"
def arg : Symbol := "arg"
def arg2 : Symbol := "arg2"
def concat : Symbol := "concat"
def cool_abort : Symbol := "abort"
def copy : Symbol := "copy"
def in_int : Symbol := "in_int"
def in_string : Symbol := "in_string"
def length : Symbol := "length"
def out_int : Symbol := "out_int"
def out_string : Symbol := "out_string"
def prim_slot : Symbol := "_prim_slot"
def str_field : Symbol := "_str_field"
def substr : Symbol := "substr"
def type_name : Symbol := "type_name"
def val : Symbol := "_val"
def self : Symbol := "self"

/-! ## Abstract syntax (`cool-tree.h`, not among the sources) -/

/-- Modelled from the spec: the expression tree of `cool-tree.h`, which is not
among the sources; one constructor per node kind of the expression inventory.
Every node carries its inferred-type slot `type`, `none` while unset
(`get_type() == NULL`). -/
inductive Expression where
  | no_expr (type : Option Symbol)
  | int_const (type : Option Symbol) (token : Symbol)
  | float_const (type : Option Symbol) (token : Symbol)
  | bool_const (type : Option Symbol) (value : Bool)
  | string_const (type : Option Symbol) (token : Symbol)
  | object (type : Option Symbol) (name : Symbol)
  | assign (type : Option Symbol) (name : Symbol) (expr : Expression)
  | dispatch (type : Option Symbol) (expr : Expression) (name : Symbol)
      (actuals : List Expression)
  | static_dispatch (type : Option Symbol) (expr : Expression) (type_name : Symbol)
      (name : Symbol) (actuals : List Expression)
  | cond (type : Option Symbol) (pred then_exp else_exp : Expression)
  | loop (type : Option Symbol) (pred body : Expression)
  | block (type : Option Symbol) (body : List Expression)
  | let_ (type : Option Symbol) (identifier type_decl : Symbol) (init body : Expression)
  | plus (type : Option Symbol) (e1 e2 : Expression)
  | sub (type : Option Symbol) (e1 e2 : Expression)
  | mul (type : Option Symbol) (e1 e2 : Expression)
  | divide (type : Option Symbol) (e1 e2 : Expression)
  | neg (type : Option Symbol) (e1 : Expression)
  | lt (type : Option Symbol) (e1 e2 : Expression)
  | eq (type : Option Symbol) (e1 e2 : Expression)
  | leq (type : Option Symbol) (e1 e2 : Expression)
  | comp (type : Option Symbol) (e1 : Expression)
  | new_ (type : Option Symbol) (type_name : Symbol)
  | isvoid (type : Option Symbol) (e1 : Expression)

namespace Expression

/-- Modelled from the spec: `get_type()`, the inferred-type slot of the node. -/
def get_type : Expression → Option Symbol
  | no_expr t => t
  | int_const t _ => t
  | float_const t _ => t
  | bool_const t _ => t
  | string_const t _ => t
  | object t _ => t
  | assign t _ _ => t
  | dispatch t _ _ _ => t
  | static_dispatch t _ _ _ _ => t
  | cond t _ _ _ => t
  | loop t _ _ => t
  | block t _ => t
  | let_ t _ _ _ _ => t
  | plus t _ _ => t
  | sub t _ _ => t
  | mul t _ _ => t
  | divide t _ _ => t
  | neg t _ => t
  | lt t _ _ => t
  | eq t _ _ => t
  | leq t _ _ => t
  | comp t _ => t
  | new_ t _ => t
  | isvoid t _ => t

end Expression

/-- Modelled from the spec: a formal is a name with a declared type. -/
structure Formal where
  name : Symbol
  type_decl : Symbol

/-- Modelled from the spec: a feature is an attribute or a method. -/
inductive Feature where
  | attr (name type_decl : Symbol) (init : Expression)
  | method (name : Symbol) (formals : List Formal) (return_type : Symbol)
      (expr : Expression)

/-- Modelled from the spec: the method node that `dynamic_cast<method_class*>`
yields, with `get_name`, `get_formals`, `get_return_type` and `get_expr` as
fields. -/
structure method_class where
  name : Symbol
  formals : List Formal
  return_type : Symbol
  expr : Expression

/-- The cast `dynamic_cast<method_class*>(f)`. -/
def Feature.as_method : Feature → Option method_class
  | Feature.attr _ _ _ => none
  | Feature.method name formals return_type expr => some ⟨name, formals, return_type, expr⟩

/-- Modelled from the spec: a class declaration, with `get_name`, `get_parent`
and `get_features` as fields.  The parent of a class without one is the symbol
`No_class`. -/
structure Class_ where
  name : Symbol
  parent : Symbol
  features : List Feature

/-! ## Scoped symbol table (`symtab.h`, not among the sources) -/

/-- Modelled from the spec: the scoped-environment container of `symtab.h`,
which is not among the sources.  A stack of scopes, innermost first; a scope
lists its bindings, newest first. -/
structure SymbolTable (α : Type) where
  scopes : List (List (Symbol × α))

namespace SymbolTable

variable {α : Type}

/-- Modelled from the spec: a table without any scope. -/
def empty : SymbolTable α := ⟨[]⟩

/-- Modelled from the spec: enter scope. -/
def enterscope (t : SymbolTable α) : SymbolTable α := ⟨[] :: t.scopes⟩

/-- Modelled from the spec: exit scope, discarding the innermost bindings. -/
def exitscope (t : SymbolTable α) : SymbolTable α := ⟨t.scopes.tail⟩

/-- Modelled from the spec: bind a name to a value in the innermost scope. -/
def addid (t : SymbolTable α) (s : Symbol) (i : α) : SymbolTable α :=
  match t.scopes with
  | [] => t
  | sc :: rest => ⟨((s, i) :: sc) :: rest⟩

/-- The newest binding of `s` in one scope. -/
def find_in_scope (s : Symbol) : List (Symbol × α) → Option α
  | [] => none
  | (k, v) :: rest => if k = s then some v else find_in_scope s rest

/-- Modelled from the spec: probe only the innermost scope. -/
def probe (t : SymbolTable α) (s : Symbol) : Option α :=
  match t.scopes with
  | [] => none
  | sc :: _ => find_in_scope s sc

/-- Search the scopes from the innermost outwards. -/
def lookup_scopes (s : Symbol) : List (List (Symbol × α)) → Option α
  | [] => none
  | sc :: rest =>
    match find_in_scope s sc with
    | some v => some v
    | none => lookup_scopes s rest

/-- Modelled from the spec: look up a name searching outward. -/
def lookup (t : SymbolTable α) (s : Symbol) : Option α := lookup_scopes s t.scopes

/-- Modelled from the spec: the bindings that `begin()` .. `end()` iterate over
(`it->first`, `it->second`). -/
def entries (t : SymbolTable α) : List (Symbol × α) := t.scopes.flatten

end SymbolTable

/-! ## The class table -/

/-- The kinds of message written by the semantic analyser. -/
inductive ErrorKind where
  /-- "Class C was previously defined." -/
  | previously_defined
  /-- "Class cannot be named SELF_TYPE." -/
  | named_SELF_TYPE
  /-- "Class C cannot inherit from built-in type P." -/
  | inherits_builtin
  /-- "Class C inherits from an undefined class P." -/
  | inherits_undefined
  /-- "Class C, or an ancestor of C, is involved in an inheritance cycle." -/
  | inheritance_cycle
  /-- "Undeclared identifier x." -/
  | undeclared_identifier
  /-- "Assignment to undeclared variable x." -/
  | assign_undeclared
  /-- "Type T of assigned expression does not conform to declared type ..." -/
  | assign_mismatch
  /-- "Dispatch to undefined method m." -/
  | dispatch_undefined
  /-- "Method m called with wrong number of arguments." -/
  | dispatch_arity
  /-- "In call of method m, type T of parameter i does not conform ..." -/
  | dispatch_argument
  /-- "Expression type T does not conform to declared static dispatch type S." -/
  | static_dispatch_mismatch
  /-- "Predicate of 'if' does not have type Bool." -/
  | if_predicate
  /-- "Loop condition does not have type Bool." -/
  | loop_predicate
  /-- "Class T of let-bound identifier x is undefined." -/
  | let_undefined
  /-- "Inferred type T of initialization of x does not conform ..." -/
  | let_init_mismatch
  /-- "non-Int arguments: T1 + T2" -/
  | plus_operands
  /-- "Illegal comparison with a basic type." -/
  | eq_basic
  /-- "'new' used with undefined class T." -/
  | new_undefined
  /-- "Class T of attribute a is undefined." -/
  | attr_undefined
  /-- "Inferred type T of initialization of attribute a does not conform ..." -/
  | attr_init_mismatch
  /-- "Undefined return type T in method m." -/
  | return_undefined
  /-- "Class T of formal parameter x is undefined." -/
  | formal_undefined
  /-- "Formal parameter x is multiply defined." -/
  | formal_redefined
  /-- "Inferred return type T of method m does not conform to declared return
  type ..." -/
  | return_mismatch
  /-- "In redefined method m, parameter number differs from original." -/
  | override_arity
  /-- "In redefined method m, parameter type T differs from original type S." -/
  | override_formal
  /-- "In redefined method m, return type T differs from original return type S." -/
  | override_return
  deriving DecidableEq, Repr

/-- One message: its kind and the class it is about, the class `c` of
`semant_error(c) << ...` or the class being checked when
`semant_error(filename, expr) << ...` is written. -/
structure SemantError where
  kind : ErrorKind
  class_name : Symbol
  deriving DecidableEq, Repr

/-- The state of `class ClassTable` (`semant.h`). -/
structure ClassTable where
  semant_errors : Nat
  error_stream : List SemantError
  class_table : SymbolTable Class_

namespace ClassTable

/-- The statement pair `semant_error(c) << msg; semant_errors++;`. -/
def report (ct : ClassTable) (kind : ErrorKind) (c : Class_) : ClassTable :=
  { ct with
    error_stream := ct.error_stream ++ [⟨kind, c.name⟩]
    semant_errors := ct.semant_errors + 1 }

/-- The statement pair `semant_error(filename, expr) << msg; semant_errors++;`
while the class `current_class` is checked. -/
def report_at (ct : ClassTable) (kind : ErrorKind) (current_class : Symbol) : ClassTable :=
  { ct with
    error_stream := ct.error_stream ++ [⟨kind, current_class⟩]
    semant_errors := ct.semant_errors + 1 }

/-- The member initialisers of the constructor and `new SymbolTable`. -/
def init : ClassTable := ⟨0, [], SymbolTable.empty⟩

end ClassTable

def Object_class : Class_ :=
  ⟨Object, No_class,
    [Feature.method cool_abort [] Object (Expression.no_expr none),
     Feature.method type_name [] String_ (Expression.no_expr none),
     Feature.method copy [] SELF_TYPE (Expression.no_expr none)]⟩

def IO_class : Class_ :=
  ⟨IO_, Object,
    [Feature.method out_string [⟨arg, String_⟩] SELF_TYPE (Expression.no_expr none),
     Feature.method out_int [⟨arg, Int_⟩] SELF_TYPE (Expression.no_expr none),
     Feature.method in_string [] String_ (Expression.no_expr none),
     Feature.method in_int [] Int_ (Expression.no_expr none)]⟩

def Int_class : Class_ :=
  ⟨Int_, Object, [Feature.attr val prim_slot (Expression.no_expr none)]⟩

def Bool_class : Class_ :=
  ⟨Bool_, Object, [Feature.attr val prim_slot (Expression.no_expr none)]⟩

def String_class : Class_ :=
  ⟨String_, Object,
    [Feature.attr val Int_ (Expression.no_expr none),
     Feature.attr str_field prim_slot (Expression.no_expr none),
     Feature.method length [] Int_ (Expression.no_expr none),
     Feature.method concat [⟨arg, String_⟩] String_ (Expression.no_expr none),
     Feature.method substr [⟨arg, Int_⟩, ⟨arg2, Int_⟩] String_ (Expression.no_expr none)]⟩

/-- `ClassTable::install_basic_classes`: one scope holding the five built-ins. -/
def install_basic_classes (ct : ClassTable) : ClassTable :=
  { ct with
    class_table :=
      ((((ct.class_table.enterscope.addid Object Object_class).addid IO_ IO_class).addid
        Int_ Int_class).addid Bool_ Bool_class).addid String_ String_class }

/-- The body of the loop of `ClassTable::build_inheritance_graph` for one class. -/
def register_class (ct : ClassTable) (c : Class_) : ClassTable :=
  if (ct.class_table.probe c.name).isSome then
    ct.report ErrorKind.previously_defined c
  else if c.name = SELF_TYPE then
    ct.report ErrorKind.named_SELF_TYPE c
  else
    { ct with class_table := ct.class_table.addid c.name c }

/-- `ClassTable::build_inheritance_graph`: the user classes in input order. -/
def build_inheritance_graph (ct : ClassTable) : List Class_ → ClassTable
  | [] => ct
  | c :: rest => build_inheritance_graph (register_class ct c) rest

/-- The `while (current != No_class)` loop of `check_inheritance`; `visited` is
the `std::set`.  `some true`: the cycle error is reported; `some false`: the
loop ends without one. -/
def cycle_walk (tbl : SymbolTable Class_) : Nat → List Symbol → Symbol → Option Bool
  | 0, _, _ => none
  | fuel + 1, visited, current =>
    if current = No_class then some false
    else if current ∈ visited then some true
    else
      match tbl.lookup current with
      | none => some false
      | some parent_class => cycle_walk tbl fuel (current :: visited) parent_class.parent

/-- The checks of `check_inheritance` on one class `c`: the kind of the error
reported for it, if any. -/
def inheritance_error (fuel : Nat) (tbl : SymbolTable Class_) (c : Class_) :
    Option (Option ErrorKind) :=
  if c.parent ≠ No_class then
    if c.parent = Int_ ∨ c.parent = Float_ ∨ c.parent = String_ ∨ c.parent = Bool_ then
      some (some ErrorKind.inherits_builtin)
    else if (tbl.lookup c.parent).isNone then
      some (some ErrorKind.inherits_undefined)
    else
      match cycle_walk tbl fuel [c.name] c.parent with
      | none => none
      | some true => some (some ErrorKind.inheritance_cycle)
      | some false => some none
  else some none

/-- The loop `for (Symbol class_name : class_names)` of `check_inheritance`. -/
def check_inheritance_loop (fuel : Nat) : ClassTable → List Symbol → Option ClassTable
  | ct, [] => some ct
  | ct, class_name :: rest =>
    match ct.class_table.lookup class_name with
    | none => check_inheritance_loop fuel ct rest
    | some c =>
      match inheritance_error fuel ct.class_table c with
      | none => none
      | some none => check_inheritance_loop fuel ct rest
      | some (some kind) => check_inheritance_loop fuel (ct.report kind c) rest

/-- `ClassTable::check_inheritance`. -/
def check_inheritance (fuel : Nat) (ct : ClassTable) : Option ClassTable :=
  check_inheritance_loop fuel ct (ct.class_table.entries.map Prod.fst)

/-- The constructor `ClassTable::ClassTable(Classes classes)`. -/
def ClassTable.new (fuel : Nat) (classes : List Class_) : Option ClassTable :=
  check_inheritance fuel
    (build_inheritance_graph (install_basic_classes ClassTable.init) classes)

/-- The `while (current_parent != No_class)` loop of `is_subtype`. -/
def is_subtype_walk (tbl : SymbolTable Class_) (parent : Symbol) : Nat → Symbol → Option Bool
  | 0, _ => none
  | fuel + 1, current_parent =>
    if current_parent = No_class then some false
    else if current_parent = parent then some true
    else
      match tbl.lookup current_parent with
      | none => some false
      | some parent_class => is_subtype_walk tbl parent fuel parent_class.parent

/-- `ClassTable::is_subtype`. -/
def is_subtype (fuel : Nat) (ct : ClassTable) (child parent : Symbol) : Option Bool :=
  if child = SELF_TYPE ∧ parent = SELF_TYPE then some true
  else if child = SELF_TYPE then some true
  else if parent = SELF_TYPE then some false
  else if child = parent then some true
  else
    match ct.class_table.lookup child with
    | none => some false
    | some child_class => is_subtype_walk ct.class_table parent fuel child_class.parent

/-- The first loop of `lub`: the vector `type1_ancestors` before `Object` is
pushed at its end. -/
def lub_ancestors (tbl : SymbolTable Class_) : Nat → Symbol → Option (List Symbol)
  | 0, _ => none
  | fuel + 1, current =>
    if current = No_class then some []
    else
      match tbl.lookup current with
      | none => some [current]
      | some c => (lub_ancestors tbl fuel c.parent).map (fun l => current :: l)

/-- The second loop of `lub`: walk the chain of `type2` until a member of
`type1_ancestors` is met. -/
def lub_search (tbl : SymbolTable Class_) (type1_ancestors : List Symbol) :
    Nat → Symbol → Option Symbol
  | 0, _ => none
  | fuel + 1, current =>
    if current = No_class then some Object
    else
      match type1_ancestors.find? (fun ancestor => decide (current = ancestor)) with
      | some ancestor => some ancestor
      | none =>
        match tbl.lookup current with
        | none => some Object
        | some c => lub_search tbl type1_ancestors fuel c.parent

/-- `ClassTable::lub`. -/
def lub (fuel : Nat) (ct : ClassTable) (type1 type2 : Symbol) : Option Symbol :=
  if type1 = SELF_TYPE ∧ type2 = SELF_TYPE then some SELF_TYPE
  else if type1 = SELF_TYPE ∨ type2 = SELF_TYPE then some Object
  else
    match is_subtype fuel ct type1 type2 with
    | none => none
    | some true => some type2
    | some false =>
      match is_subtype fuel ct type2 type1 with
      | none => none
      | some true => some type1
      | some false =>
        match lub_ancestors ct.class_table fuel type1 with
        | none => none
        | some type1_ancestors =>
          lub_search ct.class_table (type1_ancestors ++ [Object]) fuel type2

/-! ## Method lookup -/

/-- The `for` loop of `find_method` over the features of one class: the first
method of that name. -/
def find_method_in (method_name : Symbol) : List Feature → Option method_class
  | [] => none
  | f :: rest =>
    match f.as_method with
    | some method =>
      if method.name = method_name then some method else find_method_in method_name rest
    | none => find_method_in method_name rest

/-- The `while (current_class != No_class)` loop of `find_method`; `some none`
is the result `NULL`. -/
def find_method_walk (tbl : SymbolTable Class_) (method_name : Symbol) :
    Nat → Symbol → Option (Option method_class)
  | 0, _ => none
  | fuel + 1, current_class =>
    if current_class = No_class then some none
    else
      match tbl.lookup current_class with
      | none => some none
      | some c =>
        match find_method_in method_name c.features with
        | some method => some (some method)
        | none => find_method_walk tbl method_name fuel c.parent

/-- `ClassTable::find_method`. -/
def find_method (fuel : Nat) (ct : ClassTable) (class_name method_name : Symbol) :
    Option (Option method_class) :=
  find_method_walk ct.class_table method_name fuel class_name

/-! ## The expression checker -/

/-- Modelled from the spec: the symbol `Str`, which `type_check_expression`
gives to a string literal but which no source file declares; the spec types a
literal with its corresponding primitive type, here `String`. -/
def Str : Symbol := "String"

/-- What `type_check_expression` leaves behind: the class table with its
messages, the environment, the annotated tree and the returned type. -/
structure Typed where
  ct : ClassTable
  object_env : SymbolTable Symbol
  expr : Expression
  type : Symbol

/-- What a loop over a list of expressions leaves behind. -/
structure TypedList where
  ct : ClassTable
  object_env : SymbolTable Symbol
  exprs : List Expression

mutual

/-- `ClassTable::type_check_expression`.  A node kind without a branch in the
`dynamic_cast` chain falls through: the node is left as it is and `No_type` is
returned. -/
def type_check_expression (fuel : Nat) (current_class : Symbol) :
    ClassTable → SymbolTable Symbol → Expression → Option Typed
  | ct, object_env, Expression.int_const _ token =>
    some ⟨ct, object_env, Expression.int_const (some Int_) token, Int_⟩
  | ct, object_env, Expression.bool_const _ value =>
    some ⟨ct, object_env, Expression.bool_const (some Bool_) value, Bool_⟩
  | ct, object_env, Expression.string_const _ token =>
    some ⟨ct, object_env, Expression.string_const (some Str) token, Str⟩
  | ct, object_env, Expression.object _ var_name =>
    match object_env.lookup var_name with
    | none =>
      some ⟨ct.report_at ErrorKind.undeclared_identifier current_class, object_env,
        Expression.object (some Object) var_name, Object⟩
    | some result_type =>
      some ⟨ct, object_env, Expression.object (some result_type) var_name, result_type⟩
  | ct, object_env, Expression.assign _ var_name rhs =>
    match object_env.lookup var_name with
    | none =>
      some ⟨ct.report_at ErrorKind.assign_undeclared current_class, object_env,
        Expression.assign (some Object) var_name rhs, Object⟩
    | some var_type =>
      match type_check_expression fuel current_class ct object_env rhs with
      | none => none
      | some r =>
        if r.type = SELF_TYPE ∧ var_type = SELF_TYPE then
          some ⟨r.ct, r.object_env, Expression.assign (some r.type) var_name r.expr, r.type⟩
        else
          match is_subtype fuel r.ct r.type var_type with
          | none => none
          | some false =>
            some ⟨r.ct.report_at ErrorKind.assign_mismatch current_class, r.object_env,
              Expression.assign (some var_type) var_name r.expr, var_type⟩
          | some true =>
            some ⟨r.ct, r.object_env, Expression.assign (some var_type) var_name r.expr,
              var_type⟩
  | ct, object_env, Expression.dispatch _ expr_obj name actuals =>
    match type_check_expression fuel current_class ct object_env expr_obj with
    | none => none
    | some r =>
      let original_expr_type := r.type
      let expr_type := if r.type = SELF_TYPE then current_class else r.type
      match find_method fuel r.ct expr_type name with
      | none => none
      | some none =>
        some ⟨r.ct.report_at ErrorKind.dispatch_undefined current_class, r.object_env,
          Expression.dispatch (some Object) r.expr name actuals, Object⟩
      | some (some method) =>
        let result_type :=
          if method.return_type = SELF_TYPE then
            (if original_expr_type = SELF_TYPE then SELF_TYPE else original_expr_type)
          else method.return_type
        if actuals.length ≠ method.formals.length then
          some ⟨r.ct.report_at ErrorKind.dispatch_arity current_class, r.object_env,
            Expression.dispatch (some result_type) r.expr name actuals, result_type⟩
        else
          match check_actuals fuel current_class r.ct r.object_env actuals method.formals with
          | none => none
          | some a =>
            some ⟨a.ct, a.object_env,
              Expression.dispatch (some result_type) r.expr name a.exprs, result_type⟩
  | ct, object_env, Expression.static_dispatch _ expr_obj static_type name actuals =>
    match type_check_expression fuel current_class ct object_env expr_obj with
    | none => none
    | some r =>
      match is_subtype fuel r.ct r.type static_type with
      | none => none
      | some conforms =>
        let ct1 :=
          if conforms then r.ct
          else r.ct.report_at ErrorKind.static_dispatch_mismatch current_class
        match find_method fuel ct1 static_type name with
        | none => none
        | some none =>
          some ⟨ct1.report_at ErrorKind.dispatch_undefined current_class, r.object_env,
            Expression.static_dispatch (some Object) r.expr static_type name actuals, Object⟩
        | some (some method) =>
          let result_type :=
            if method.return_type = SELF_TYPE then static_type else method.return_type
          if actuals.length ≠ method.formals.length then
            some ⟨ct1.report_at ErrorKind.dispatch_arity current_class, r.object_env,
              Expression.static_dispatch (some result_type) r.expr static_type name actuals,
              result_type⟩
          else
            match check_actuals fuel current_class ct1 r.object_env actuals method.formals with
            | none => none
            | some a =>
              some ⟨a.ct, a.object_env,
                Expression.static_dispatch (some result_type) r.expr static_type name a.exprs,
                result_type⟩
  | ct, object_env, Expression.cond _ pred then_exp else_exp =>
    match type_check_expression fuel current_class ct object_env pred with
    | none => none
    | some rp =>
      let ct1 :=
        if rp.type ≠ Bool_ then rp.ct.report_at ErrorKind.if_predicate current_class else rp.ct
      match type_check_expression fuel current_class ct1 rp.object_env then_exp with
      | none => none
      | some rt =>
        match type_check_expression fuel current_class rt.ct rt.object_env else_exp with
        | none => none
        | some re =>
          match lub fuel re.ct rt.type re.type with
          | none => none
          | some result_type =>
            some ⟨re.ct, re.object_env,
              Expression.cond (some result_type) rp.expr rt.expr re.expr, result_type⟩
  | ct, object_env, Expression.loop _ pred body =>
    match type_check_expression fuel current_class ct object_env pred with
    | none => none
    | some rp =>
      let ct1 :=
        if rp.type ≠ Bool_ then rp.ct.report_at ErrorKind.loop_predicate current_class
        else rp.ct
      match type_check_expression fuel current_class ct1 rp.object_env body with
      | none => none
      | some rb =>
        some ⟨rb.ct, rb.object_env, Expression.loop (some Object) rp.expr rb.expr, Object⟩
  | ct, object_env, Expression.block _ body =>
    match check_block fuel current_class ct object_env No_type body with
    | none => none
    | some (b, result_type) =>
      some ⟨b.ct, b.object_env, Expression.block (some result_type) b.exprs, result_type⟩
  | ct, object_env, Expression.let_ _ identifier type_decl init body =>
    let env1 := object_env.enterscope
    let undefined : Bool :=
      decide (type_decl ≠ SELF_TYPE) && (ct.class_table.lookup type_decl).isNone
    let ct1 := if undefined then ct.report_at ErrorKind.let_undefined current_class else ct
    let type_decl1 := if undefined then Object else type_decl
    match init.get_type with
    | none =>
      match type_check_expression fuel current_class ct1
          (env1.addid identifier type_decl1) body with
      | none => none
      | some rb =>
        some ⟨rb.ct, rb.object_env.exitscope,
          Expression.let_ (some rb.type) identifier type_decl init rb.expr, rb.type⟩
    | some _ =>
      match type_check_expression fuel current_class ct1 env1 init with
      | none => none
      | some ri =>
        match is_subtype fuel ri.ct ri.type type_decl1 with
        | none => none
        | some conforms =>
          let ct2 :=
            if conforms then ri.ct
            else ri.ct.report_at ErrorKind.let_init_mismatch current_class
          match type_check_expression fuel current_class ct2
              (ri.object_env.addid identifier type_decl1) body with
          | none => none
          | some rb =>
            some ⟨rb.ct, rb.object_env.exitscope,
              Expression.let_ (some rb.type) identifier type_decl ri.expr rb.expr, rb.type⟩
  | ct, object_env, Expression.plus _ e1 e2 =>
    match type_check_expression fuel current_class ct object_env e1 with
    | none => none
    | some r1 =>
      match type_check_expression fuel current_class r1.ct r1.object_env e2 with
      | none => none
      | some r2 =>
        let ct1 :=
          if r1.type ≠ Int_ ∨ r2.type ≠ Int_ then
            r2.ct.report_at ErrorKind.plus_operands current_class
          else r2.ct
        some ⟨ct1, r2.object_env, Expression.plus (some Int_) r1.expr r2.expr, Int_⟩
  | ct, object_env, Expression.eq _ e1 e2 =>
    match type_check_expression fuel current_class ct object_env e1 with
    | none => none
    | some r1 =>
      match type_check_expression fuel current_class r1.ct r1.object_env e2 with
      | none => none
      | some r2 =>
        let ct1 :=
          if (r1.type = Int_ ∨ r1.type = String_ ∨ r1.type = Bool_) ∧ r1.type ≠ r2.type then
            r2.ct.report_at ErrorKind.eq_basic current_class
          else r2.ct
        some ⟨ct1, r2.object_env, Expression.eq (some Bool_) r1.expr r2.expr, Bool_⟩
  | ct, object_env, Expression.new_ _ type_name =>
    if type_name ≠ SELF_TYPE ∧ (ct.class_table.lookup type_name).isNone then
      some ⟨ct.report_at ErrorKind.new_undefined current_class, object_env,
        Expression.new_ (some Object) type_name, Object⟩
    else
      some ⟨ct, object_env, Expression.new_ (some type_name) type_name, type_name⟩
  | ct, object_env, Expression.isvoid _ e1 =>
    match type_check_expression fuel current_class ct object_env e1 with
    | none => none
    | some r1 =>
      some ⟨r1.ct, r1.object_env, Expression.isvoid (some Bool_) r1.expr, Bool_⟩
  | ct, object_env, expr => some ⟨ct, object_env, expr, No_type⟩

/-- The loop of a dispatch over the actuals and the formals, as long as both
lists have elements. -/
def check_actuals (fuel : Nat) (current_class : Symbol) :
    ClassTable → SymbolTable Symbol → List Expression → List Formal → Option TypedList
  | ct, object_env, actual :: actuals, formal :: formals =>
    match type_check_expression fuel current_class ct object_env actual with
    | none => none
    | some r =>
      match is_subtype fuel r.ct r.type formal.type_decl with
      | none => none
      | some conforms =>
        let ct1 :=
          if conforms then r.ct
          else r.ct.report_at ErrorKind.dispatch_argument current_class
        match check_actuals fuel current_class ct1 r.object_env actuals formals with
        | none => none
        | some rest => some ⟨rest.ct, rest.object_env, r.expr :: rest.exprs⟩
  | ct, object_env, actuals, _ => some ⟨ct, object_env, actuals⟩

/-- The loop over the body of a block; `result_type` is the type of the last
expression checked so far. -/
def check_block (fuel : Nat) (current_class : Symbol) :
    ClassTable → SymbolTable Symbol → Symbol → List Expression → Option (TypedList × Symbol)
  | ct, object_env, result_type, [] => some (⟨ct, object_env, []⟩, result_type)
  | ct, object_env, _, e :: body =>
    match type_check_expression fuel current_class ct object_env e with
    | none => none
    | some r =>
      match check_block fuel current_class r.ct r.object_env r.type body with
      | none => none
      | some (rest, result_type) =>
        some (⟨rest.ct, rest.object_env, r.expr :: rest.exprs⟩, result_type)

end

/-! ## The class checker -/

/-- The loop of `type_check_class` that binds the formals of a method in the
scope just entered. -/
def check_formals (c : Class_) :
    ClassTable → SymbolTable Symbol → List Formal → ClassTable × SymbolTable Symbol
  | ct, object_env, [] => (ct, object_env)
  | ct, object_env, formal :: formals =>
    let undefined : Bool :=
      decide (formal.type_decl ≠ SELF_TYPE) && (ct.class_table.lookup formal.type_decl).isNone
    let ct1 := if undefined then ct.report ErrorKind.formal_undefined c else ct
    let formal_type := if undefined then Object else formal.type_decl
    match object_env.probe formal.name with
    | some _ => check_formals c (ct1.report ErrorKind.formal_redefined c) object_env formals
    | none => check_formals c ct1 (object_env.addid formal.name formal_type) formals

/-- The test of the body type against the declared return type. -/
def check_return (fuel : Nat) (c : Class_) (ct : ClassTable) (return_type expr_type : Symbol) :
    Option ClassTable :=
  if return_type = SELF_TYPE then
    if expr_type ≠ SELF_TYPE then some (ct.report ErrorKind.return_mismatch c) else some ct
  else
    match is_subtype fuel ct expr_type return_type with
    | none => none
    | some false => some (ct.report ErrorKind.return_mismatch c)
    | some true => some ct

/-- The loop that compares the formal types of a method with those of the
method it redefines, as long as both lists have elements. -/
def check_override_formals (c : Class_) : ClassTable → List Formal → List Formal → ClassTable
  | ct, child_formal :: formals, parent_formal :: parent_formals =>
    check_override_formals c
      (if child_formal.type_decl ≠ parent_formal.type_decl then
        ct.report ErrorKind.override_formal c
      else ct)
      formals parent_formals
  | ct, _, _ => ct

/-- The override check of `type_check_class` for one method; `return_type` is
the declared return type, or `Object` when that type is undefined. -/
def check_override (fuel : Nat) (c : Class_) (ct : ClassTable) (method_name : Symbol)
    (formals : List Formal) (return_type : Symbol) : Option ClassTable :=
  if c.parent ≠ No_class then
    match find_method fuel ct c.parent method_name with
    | none => none
    | some none => some ct
    | some (some parent_method) =>
      let ct1 :=
        if parent_method.formals.length ≠ formals.length then
          ct.report ErrorKind.override_arity c
        else check_override_formals c ct formals parent_method.formals
      some (if return_type ≠ parent_method.return_type then
        ct1.report ErrorKind.override_return c
      else ct1)
  else some ct

/-- The branch of `type_check_class` for a method. -/
def check_method (fuel : Nat) (c : Class_) (ct : ClassTable) (object_env : SymbolTable Symbol)
    (method : method_class) : Option (ClassTable × SymbolTable Symbol × Feature) :=
  let undefined : Bool :=
    decide (method.return_type ≠ SELF_TYPE) && (ct.class_table.lookup method.return_type).isNone
  let ct1 := if undefined then ct.report ErrorKind.return_undefined c else ct
  let return_type := if undefined then Object else method.return_type
  let bound := check_formals c ct1 object_env.enterscope method.formals
  match type_check_expression fuel c.name bound.1 bound.2 method.expr with
  | none => none
  | some r =>
    match check_return fuel c r.ct return_type r.type with
    | none => none
    | some ct2 =>
      match check_override fuel c ct2 method.name method.formals return_type with
      | none => none
      | some ct3 =>
        some (ct3, r.object_env.exitscope,
          Feature.method method.name method.formals method.return_type r.expr)

/-- The branch of `type_check_class` for an attribute. -/
def check_attr (fuel : Nat) (c : Class_) (ct : ClassTable) (object_env : SymbolTable Symbol)
    (attr_name type_decl : Symbol) (init : Expression) :
    Option (ClassTable × SymbolTable Symbol × Feature) :=
  let undefined : Bool :=
    decide (type_decl ≠ SELF_TYPE) && (ct.class_table.lookup type_decl).isNone
  let ct1 := if undefined then ct.report ErrorKind.attr_undefined c else ct
  let attr_type := if undefined then Object else type_decl
  match init.get_type with
  | none => some (ct1, object_env.addid attr_name attr_type, Feature.attr attr_name type_decl init)
  | some _ =>
    match type_check_expression fuel c.name ct1 object_env init with
    | none => none
    | some r =>
      match is_subtype fuel r.ct r.type attr_type with
      | none => none
      | some conforms =>
        some (if conforms then r.ct else r.ct.report ErrorKind.attr_init_mismatch c,
          r.object_env.addid attr_name attr_type, Feature.attr attr_name type_decl r.expr)

/-- The loop of `type_check_class` over the features. -/
def check_features (fuel : Nat) (c : Class_) :
    ClassTable → SymbolTable Symbol → List Feature →
      Option (ClassTable × SymbolTable Symbol × List Feature)
  | ct, object_env, [] => some (ct, object_env, [])
  | ct, object_env, f :: features =>
    match
      (match f with
        | Feature.attr attr_name type_decl init =>
          check_attr fuel c ct object_env attr_name type_decl init
        | Feature.method name formals return_type expr =>
          check_method fuel c ct object_env ⟨name, formals, return_type, expr⟩) with
    | none => none
    | some (ct1, env1, f1) =>
      match check_features fuel c ct1 env1 features with
      | none => none
      | some (ct2, env2, rest) => some (ct2, env2, f1 :: rest)

/-- `ClassTable::type_check_class`: the class table with its messages and the
class with its annotated features. -/
def type_check_class (fuel : Nat) (ct : ClassTable) (c : Class_) :
    Option (ClassTable × Class_) :=
  match check_features fuel c ct
      ((SymbolTable.empty.enterscope).addid self SELF_TYPE) c.features with
  | none => none
  | some (ct1, _, features) => some (ct1, { c with features := features })

/-- The loop of `ClassTable::type_check` over the entries of the registry
(`it->first`, `it->second`): every class bound there is checked, and the classes
are returned with their annotated features. -/
def type_check_loop (fuel : Nat) :
    ClassTable → List (Symbol × Class_) → Option (ClassTable × List Class_)
  | ct, [] => some (ct, [])
  | ct, (_, c) :: rest =>
    match type_check_class fuel ct c with
    | none => none
    | some (ct1, c1) =>
      match type_check_loop fuel ct1 rest with
      | none => none
      | some (ct2, cs) => some (ct2, c1 :: cs)

/-- `ClassTable::type_check`. -/
def type_check (fuel : Nat) (ct : ClassTable) : Option (ClassTable × List Class_) :=
  type_check_loop fuel ct ct.class_table.entries

/-! ## Notions used to state the properties -/

/-- The chain `x`, parent of `x`, grandparent of `x`, ... obtained by following
at most `n` parent links from `x`; it ends at a class without parent. -/
def parent_chain (tbl : SymbolTable Class_) : Nat → Symbol → List Symbol
  | 0, _ => []
  | n + 1, x =>
    if x = No_class then []
    else
      match tbl.lookup x with
      | none => [x]
      | some c => x :: parent_chain tbl n c.parent

/-- The ancestors of the class registered as `a`: the chain that starts at its
parent; empty when `a` is not registered. -/
def ancestors (tbl : SymbolTable Class_) (n : Nat) (a : Symbol) : List Symbol :=
  match tbl.lookup a with
  | none => []
  | some c => parent_chain tbl n c.parent

/-- The number of classes in the registry. -/
def ClassTable.size (ct : ClassTable) : Nat := ct.class_table.entries.length

/-- The messages of `check_inheritance` about the class registered as
`class_name`. -/
def class_errors (fuel : Nat) (tbl : SymbolTable Class_) (class_name : Symbol) :
    Option (List SemantError) :=
  match tbl.lookup class_name with
  | none => some []
  | some c =>
    match inheritance_error fuel tbl c with
    | none => none
    | some none => some []
    | some (some kind) => some [⟨kind, c.name⟩]

/-- The messages of `check_inheritance` about the classes `names`, in order. -/
def inheritance_errors (fuel : Nat) (tbl : SymbolTable Class_) :
    List Symbol → Option (List SemantError)
  | [] => some []
  | class_name :: rest =>
    match class_errors fuel tbl class_name, inheritance_errors fuel tbl rest with
    | some e, some es => some (e ++ es)
    | _, _ => none

/-- The scope that `install_basic_classes` builds. -/
def basic_scope : List (Symbol × Class_) :=
  [(String_, String_class), (Bool_, Bool_class), (Int_, Int_class), (IO_, IO_class),
   (Object, Object_class)]

/-- The registry is the single scope `sc`: its keys are distinct, none of them
is `SELF_TYPE`, each is bound to a class of that name, and the counter counts
the messages. -/
structure RegistryInv (ct : ClassTable) (sc : List (Symbol × Class_)) : Prop where
  scopes : ct.class_table.scopes = [sc]
  nodup : (sc.map Prod.fst).Nodup
  name_eq : ∀ e ∈ sc, e.2.name = e.1
  no_self : SELF_TYPE ∉ sc.map Prod.fst
  count : ct.semant_errors = ct.error_stream.length

/-- The list `l` is the chain of `x`: `x`, its parent, ..., up to a registered
class without parent. -/
inductive Rooted (tbl : SymbolTable Class_) : Symbol → List Symbol → Prop where
  | root : Rooted tbl No_class []
  | step {x : Symbol} {c : Class_} {l : List Symbol} :
      x ≠ No_class → tbl.lookup x = some c → Rooted tbl c.parent l → Rooted tbl x (x :: l)

/-- The class table when the constructor calls `check_inheritance`: the
built-ins and the user classes are registered. -/
def registry (classes : List Class_) : ClassTable :=
  build_inheritance_graph (install_basic_classes ClassTable.init) classes

/-- The parent is one of the four names that `check_inheritance` refuses as a
parent. -/
def primitive_parent (c : Class_) : Prop :=
  c.parent = Int_ ∨ c.parent = Float_ ∨ c.parent = String_ ∨ c.parent = Bool_

instance (c : Class_) : Decidable (primitive_parent c) := by
  unfold primitive_parent
  exact inferInstance

/-- The method named `m` that the class registered as `x` declares itself: the
first one in its feature list. -/
def declared_method (tbl : SymbolTable Class_) (m : Symbol) (x : Symbol) : Option method_class :=
  (tbl.lookup x).bind (fun c => find_method_in m c.features)

/-- The method named `m` declared in the nearest class of a chain. -/
def nearest_method (tbl : SymbolTable Class_) (m : Symbol) (chain : List Symbol) :
    Option method_class :=
  chain.findSome? (declared_method tbl m)

/-- Every registered class has a parent chain of fewer than `N` classes that
ends at a class without parent: the walks over the registry terminate. -/
def Terminating (tbl : SymbolTable Class_) (N : Nat) : Prop :=
  ∀ x c, tbl.lookup x = some c → ∃ l, Rooted tbl c.parent l ∧ l.length < N

/-- The class table `ct'` is `ct` with messages added: same registry, the
stream extended and the counter raised by the number of new messages. -/
def Extends (ct ct' : ClassTable) : Prop :=
  ct'.class_table = ct.class_table ∧
    ∃ errs, ct'.error_stream = ct.error_stream ++ errs ∧
      ct'.semant_errors = ct.semant_errors + errs.length

/-- The environment in which `type_check_class` starts: one scope binding
`self` to `SELF_TYPE`. -/
def class_env : SymbolTable Symbol := (SymbolTable.empty.enterscope).addid self SELF_TYPE

/-- The messages expected from the override check of a method with the formals
`formals` and the declared return type `return_type` against the method
`parent_method` it redefines: one for a different formal count, else one per
position whose formal types differ; then one for a different return type. -/
def override_errors (c : Class_) (formals : List Formal) (return_type : Symbol)
    (parent_method : method_class) : List SemantError :=
  (if parent_method.formals.length ≠ formals.length then
    [⟨ErrorKind.override_arity, c.name⟩]
  else
    ((formals.zip parent_method.formals).filter
      (fun p => decide (p.1.type_decl ≠ p.2.type_decl))).map
        (fun _ => ⟨ErrorKind.override_formal, c.name⟩)) ++
  (if return_type ≠ parent_method.return_type then [⟨ErrorKind.override_return, c.name⟩]
  else [])

/-- The messages expected from binding the formals of a method, `seen` being
the names of the formals before them: for each formal, one when its declared
type is neither `SELF_TYPE` nor registered, and one when its name is among the
earlier ones. -/
def formal_errors (tbl : SymbolTable Class_) (c : Class_) :
    List Symbol → List Formal → List SemantError
  | _, [] => []
  | seen, formal :: formals =>
    (if formal.type_decl ≠ SELF_TYPE ∧ (tbl.lookup formal.type_decl).isNone then
      [⟨ErrorKind.formal_undefined, c.name⟩]
    else []) ++
    (if formal.name ∈ seen then [⟨ErrorKind.formal_redefined, c.name⟩] else []) ++
    formal_errors tbl c (formal.name :: seen) formals

/-- The `lub` of the specification, in its words: "compute the ancestor chain
of `a`, then walk `b`'s ancestor chain and return the first name that also
appears in `a`'s chain"; both chains start at the class itself and follow at
most `n` parent links.  There is no result when no name of `b`'s chain appears
in `a`'s chain. -/
def lub_spec (tbl : SymbolTable Class_) (n : Nat) (a b : Symbol) : Option Symbol :=
  (parent_chain tbl n b).find? (fun y => decide (y ∈ parent_chain tbl n a))

/-- The class registered as `x` lies on an inheritance cycle: following at most
`n` parent links from its parent leads back to `x`. -/
def on_cycle (tbl : SymbolTable Class_) (n : Nat) (x : Symbol) : Bool :=
  decide (x ∈ ancestors tbl n x)

/-- The class registered as `x`, or an ancestor of `x`, is involved in an
inheritance cycle: the chain of at most `n` parent links that starts at `x`
visits a name twice. -/
def chain_revisits (tbl : SymbolTable Class_) (n : Nat) (x : Symbol) : Bool :=
  !decide ((x :: ancestors tbl n x).Nodup)

/-- The class registered as `x` is one for which `check_inheritance` walks the
parent links and meets a name again: its parent is none of the four refused
names, and `x` or an ancestor of `x` is involved in an inheritance cycle. -/
def cycle_reported (tbl : SymbolTable Class_) (n : Nat) (x : Symbol) : Bool :=
  match tbl.lookup x with
  | none => false
  | some c => !decide (primitive_parent c) && chain_revisits tbl n x

/-- The messages of the kind `kind` in a stream. -/
def errors_of_kind (kind : ErrorKind) (stream : List SemantError) : List SemantError :=
  stream.filter (fun e => decide (e.kind = kind))

/-- Every actual at a position that also has a formal is type-checked and
compared against the declared type of that formal: starting from the class
table `ct`, the actual is checked in a class table `cti` reached from `ct`, the
type found is tested with `is_subtype` against the formal type, and the class
table `ct'` at the end holds the messages of that check followed, when the test
fails, by the conformance message of the argument. -/
def positions_checked (fuel : Nat) (cc : Symbol) (ct : ClassTable) (env : SymbolTable Symbol)
    (actuals : List Expression) (formals : List Formal) (ct' : ClassTable) : Prop :=
  ∀ (i : Nat) (actual : Expression) (formal : Formal),
    actuals[i]? = some actual → formals[i]? = some formal →
    ∃ (cti : ClassTable) (ri : Typed) (conforms : Bool),
      Extends ct cti ∧
      type_check_expression fuel cc cti env actual = some ri ∧
      is_subtype fuel ri.ct ri.type formal.type_decl = some conforms ∧
      Extends (if conforms then ri.ct else ri.ct.report_at ErrorKind.dispatch_argument cc) ct'

/-- The type to which `type_check_class` binds an attribute declared with the
type `type_decl`: that type, or `Object` when it is neither `SELF_TYPE` nor
registered. -/
def attr_type (tbl : SymbolTable Class_) (type_decl : Symbol) : Symbol :=
  if decide (type_decl ≠ SELF_TYPE) && (tbl.lookup type_decl).isNone then Object else type_decl

/-- The names of the attributes among `features`, in feature order. -/
def attr_names : List Feature → List Symbol
  | [] => []
  | Feature.attr name _ _ :: rest => name :: attr_names rest
  | Feature.method _ _ _ _ :: rest => attr_names rest

/-- The bindings that the attributes among `features` add to the environment,
newest first: the attribute declared last comes first. -/
def attrs_bound (tbl : SymbolTable Class_) : List Feature → List (Symbol × Symbol)
  | [] => []
  | Feature.attr name type_decl _ :: rest =>
    attrs_bound tbl rest ++ [(name, attr_type tbl type_decl)]
  | Feature.method _ _ _ _ :: rest => attrs_bound tbl rest

/-- The class table and the environment in which the method branch of
`type_check_class` checks the body of `method`: the return type has been looked
up, a scope has been entered and the formals have been bound. -/
def body_state (c : Class_) (ct : ClassTable) (object_env : SymbolTable Symbol)
    (method : method_class) : ClassTable × SymbolTable Symbol :=
  check_formals c
    (if decide (method.return_type ≠ SELF_TYPE) &&
        (ct.class_table.lookup method.return_type).isNone then
      ct.report ErrorKind.return_undefined c
    else ct)
    object_env.enterscope method.formals

/-! ## Sample programs -/

/-- `class A inherits B`. -/
def sample_A_inherits_B : Class_ := ⟨"A", "B", []⟩
/-- `class B inherits A`. -/
def sample_B_inherits_A : Class_ := ⟨"B", "A", []⟩
/-- `class A inherits Float`. -/
def sample_A_inherits_Float : Class_ := ⟨"A", Float_, []⟩
/-- `class Float inherits A`. -/
def sample_Float_inherits_A : Class_ := ⟨Float_, "A", []⟩
/-- `class A inherits Int`. -/
def sample_A_inherits_Int : Class_ := ⟨"A", Int_, []⟩
/-- `class A inherits Zorp`. -/
def sample_A_inherits_Zorp : Class_ := ⟨"A", "Zorp", []⟩
/-- `class A` with the default parent `Object`. -/
def sample_A : Class_ := ⟨"A", Object, []⟩
/-- `class B inherits A`, as a second class after `sample_A`. -/
def sample_B : Class_ := ⟨"B", "A", []⟩
/-- A class declaration `A` whose parent slot holds `No_class`. -/
def sample_A_no_parent : Class_ := ⟨"A", No_class, []⟩
/-- A class declaration named by the symbol `No_class`, inheriting `A`. -/
def sample_No_class_inherits_A : Class_ := ⟨No_class, "A", []⟩
/-- A second declaration of `A`, inheriting `IO`. -/
def sample_A_again : Class_ := ⟨"A", IO_, []⟩
/-- A class declaration named `SELF_TYPE`. -/
def sample_SELF_TYPE : Class_ := ⟨SELF_TYPE, Object, []⟩

/-- `class A { foo() : SELF_TYPE { self }; }`. -/
def sample_A_foo : Class_ :=
  ⟨"A", Object, [Feature.method "foo" [] SELF_TYPE (Expression.object none self)]⟩
/-- The expression `(new B).foo()`, freshly parsed. -/
def sample_new_B_foo : Expression :=
  Expression.dispatch none (Expression.new_ none "B") "foo" []
/-- The expression `1.bar(2, y)`, freshly parsed. -/
def sample_undefined_dispatch : Expression :=
  Expression.dispatch none (Expression.int_const none "1") "bar"
    [Expression.int_const none "2", Expression.object none "y"]
/-- The expression `(new B)@A.foo()`, freshly parsed. -/
def sample_static_dispatch : Expression :=
  Expression.static_dispatch none (Expression.new_ none "B") "A" "foo" []
/-- The expression `self@A.foo()`, freshly parsed. -/
def sample_static_dispatch_self : Expression :=
  Expression.static_dispatch none (Expression.object none self) "A" "foo" []
/-- The expression `if true then 1 else "s" fi`, freshly parsed. -/
def sample_if : Expression :=
  Expression.cond none (Expression.bool_const none true) (Expression.int_const none "1")
    (Expression.string_const none "s")
/-- The expression `let x : Int <- true in x + 1`, freshly parsed. -/
def sample_let : Expression :=
  Expression.let_ none "x" Int_ (Expression.bool_const none true)
    (Expression.plus none (Expression.object none "x") (Expression.int_const none "1"))
/-- The expression `let x : Int <- 1 in x`, freshly parsed. -/
def sample_let_conforming : Expression :=
  Expression.let_ none "x" Int_ (Expression.int_const none "1") (Expression.object none "x")
/-- The expression `not true`, freshly parsed. -/
def sample_not_true : Expression :=
  Expression.comp none (Expression.bool_const none true)
/-- The expression `1 - 2`, freshly parsed. -/
def sample_one_minus_two : Expression :=
  Expression.sub none (Expression.int_const none "1") (Expression.int_const none "2")

/-- `class C { foo(x : SELF_TYPE, x : Int) : SELF_TYPE { self }; }`. -/
def sample_C_formals : Class_ :=
  ⟨"C", Object,
    [Feature.method "foo" [⟨"x", SELF_TYPE⟩, ⟨"x", Int_⟩] SELF_TYPE
      (Expression.object none self)]⟩
/-- `class C { foo(x : SELF_TYPE) : Object { x }; }`. -/
def sample_C_self_formal : Class_ :=
  ⟨"C", Object,
    [Feature.method "foo" [⟨"x", SELF_TYPE⟩] Object (Expression.object none "x")]⟩
/-- The method `foo() : SELF_TYPE { self }`. -/
def sample_foo_self : method_class := ⟨"foo", [], SELF_TYPE, Expression.object none self⟩
/-- The method `foo() : SELF_TYPE { new A }`. -/
def sample_foo_new_A : method_class := ⟨"foo", [], SELF_TYPE, Expression.new_ none "A"⟩
/-- The method `foo(x : Int) : SELF_TYPE { self }`. -/
def sample_foo_one_formal : method_class :=
  ⟨"foo", [⟨"x", Int_⟩], SELF_TYPE, Expression.object none self⟩
/-- The method `foo() : Object { self }`. -/
def sample_foo_Object : method_class := ⟨"foo", [], Object, Expression.object none self⟩

/-- `class C inherits A`, a descendant of the cycle of `sample_A_inherits_B` and
`sample_B_inherits_A`. -/
def sample_C_inherits_A : Class_ := ⟨"C", "A", []⟩
/-- The expression `new Object = 1`, freshly parsed. -/
def sample_eq_Object_Int : Expression :=
  Expression.eq none (Expression.new_ none Object) (Expression.int_const none "1")
/-- The expression `1 = new Object`, freshly parsed. -/
def sample_eq_Int_Object : Expression :=
  Expression.eq none (Expression.int_const none "1") (Expression.new_ none Object)
/-- The expression `"s".concat(1, y)`, freshly parsed: two actuals for the one
formal `arg : String` of `concat`. -/
def sample_concat_two_actuals : Expression :=
  Expression.dispatch none (Expression.string_const none "s") concat
    [Expression.int_const none "1", Expression.object none "y"]
/-- The expression `"s"@String.concat(1, y)`, freshly parsed. -/
def sample_static_concat_two_actuals : Expression :=
  Expression.static_dispatch none (Expression.string_const none "s") String_ concat
    [Expression.int_const none "1", Expression.object none "y"]
/-- The expression `"s".concat(1)`, freshly parsed. -/
def sample_concat_Int : Expression :=
  Expression.dispatch none (Expression.string_const none "s") concat
    [Expression.int_const none "1"]
/-- `class A { x : Int <- true; }`, freshly parsed. -/
def sample_A_attr : Class_ :=
  ⟨"A", Object, [Feature.attr "x" Int_ (Expression.bool_const none true)]⟩
/-- The class `sample_A_attr` with the slot of the initializer already set. -/
def sample_A_attr_slot_set : Class_ :=
  ⟨"A", Object, [Feature.attr "x" Int_ (Expression.bool_const (some Bool_) true)]⟩
/-- The environment of a class with the attribute `x : Int` bound. -/
def sample_env_x_Int : SymbolTable Symbol := class_env.addid "x" Int_
/-- The environment of a class with the attribute `x : Bool` bound. -/
def sample_env_x_Bool : SymbolTable Symbol := class_env.addid "x" Bool_
/-- The expression `x <- true`, freshly parsed. -/
def sample_assign_true : Expression :=
  Expression.assign none "x" (Expression.bool_const none true)
/-- The expression `y <- z`, freshly parsed. -/
def sample_assign_undeclared : Expression :=
  Expression.assign none "y" (Expression.object none "z")
/-- The expression `let x : Int in x`, freshly parsed. -/
def sample_let_shadow : Expression :=
  Expression.let_ none "x" Int_ (Expression.no_expr none) (Expression.object none "x")
/-- The expression `let y : Int in y`, freshly parsed. -/
def sample_let_y : Expression :=
  Expression.let_ none "y" Int_ (Expression.no_expr none) (Expression.object none "y")

/-- `class A { y : Int; foo() : Object { x }; x : Int; }`: the body of `foo`
refers to the attribute `x`, declared after `foo`. -/
def sample_A_attr_later : Class_ :=
  ⟨"A", Object,
    [Feature.attr "y" Int_ (Expression.no_expr none),
     Feature.method "foo" [] Object (Expression.object none "x"),
     Feature.attr "x" Int_ (Expression.no_expr none)]⟩
/-- `class A { x : Int; foo() : Object { x }; }`: the body of `foo` refers to
the attribute `x`, declared before `foo`. -/
def sample_A_attr_earlier : Class_ :=
  ⟨"A", Object,
    [Feature.attr "x" Int_ (Expression.no_expr none),
     Feature.method "foo" [] Object (Expression.object none "x")]⟩
/-- `class B inherits A { foo() : Object { x }; }`: the body of `foo` refers to
the attribute `x` of the parent class `sample_A_attr_earlier`. -/
def sample_B_attr_inherited : Class_ :=
  ⟨"B", "A", [Feature.method "foo" [] Object (Expression.object none "x")]⟩

/-- `class A { x : Zorp; foo() : Object { x }; }`: the attribute `x` is declared,
before `foo`, with the unregistered type `Zorp`. -/
def sample_A_attr_Zorp : Class_ :=
  ⟨"A", Object,
    [Feature.attr "x" "Zorp" (Expression.no_expr none),
     Feature.method "foo" [] Object (Expression.object none "x")]⟩
/-- `class A { foo() : SELF_TYPE { self }; self : Int; }`: an attribute named
`self` is declared after `foo`. -/
def sample_A_attr_self : Class_ :=
  ⟨"A", Object,
    [Feature.method "foo" [] SELF_TYPE (Expression.object none self),
     Feature.attr self Int_ (Expression.no_expr none)]⟩

/-! ## The symbol table -/

section Table

variable {α : Type}

theorem find_in_scope_mem {s : Symbol} {v : α} :
    ∀ {sc : List (Symbol × α)}, SymbolTable.find_in_scope s sc = some v → (s, v) ∈ sc
  | [], h => by simp [SymbolTable.find_in_scope] at h
  | (k, w) :: rest, h => by
    unfold SymbolTable.find_in_scope at h
    split at h
    · rename_i hk
      cases h
      subst hk
      exact List.mem_cons_self _ _
    · exact List.mem_cons_of_mem _ (find_in_scope_mem h)

theorem find_in_scope_eq_none {s : Symbol} :
    ∀ {sc : List (Symbol × α)},
      SymbolTable.find_in_scope s sc = none ↔ s ∉ sc.map Prod.fst
  | [] => by simp [SymbolTable.find_in_scope]
  | (k, w) :: rest => by
    unfold SymbolTable.find_in_scope
    by_cases hk : k = s
    · simp [hk]
    · have ih : SymbolTable.find_in_scope s rest = none ↔ s ∉ rest.map Prod.fst :=
        find_in_scope_eq_none
      have hk2 : ¬ s = k := fun h => hk h.symm
      simp [hk, hk2, ih]

theorem find_in_scope_isSome {s : Symbol} {sc : List (Symbol × α)} :
    (SymbolTable.find_in_scope s sc).isSome = true ↔ s ∈ sc.map Prod.fst := by
  rw [← not_iff_not, ← find_in_scope_eq_none]
  cases SymbolTable.find_in_scope s sc <;> simp

theorem find_in_scope_of_mem {s : Symbol} {v : α} :
    ∀ {sc : List (Symbol × α)}, (sc.map Prod.fst).Nodup → (s, v) ∈ sc →
      SymbolTable.find_in_scope s sc = some v
  | [], _, h => by simp at h
  | (k, w) :: rest, hnd, h => by
    rw [List.map_cons, List.nodup_cons] at hnd
    unfold SymbolTable.find_in_scope
    rcases List.mem_cons.mp h with heq | hmem
    · cases heq
      simp
    · have hs : s ∈ rest.map Prod.fst := List.mem_map_of_mem Prod.fst hmem
      have hk : k ≠ s := fun hk => hnd.1 (hk ▸ hs)
      simp [hk, find_in_scope_of_mem hnd.2 hmem]

theorem lookup_single {t : SymbolTable α} {sc : List (Symbol × α)} (h : t.scopes = [sc])
    (s : Symbol) : t.lookup s = SymbolTable.find_in_scope s sc := by
  unfold SymbolTable.lookup
  rw [h]
  unfold SymbolTable.lookup_scopes
  cases SymbolTable.find_in_scope s sc <;> simp [SymbolTable.lookup_scopes]

theorem probe_single {t : SymbolTable α} {sc : List (Symbol × α)} (h : t.scopes = [sc])
    (s : Symbol) : t.probe s = SymbolTable.find_in_scope s sc := by
  unfold SymbolTable.probe
  rw [h]

theorem entries_single {t : SymbolTable α} {sc : List (Symbol × α)} (h : t.scopes = [sc]) :
    t.entries = sc := by
  unfold SymbolTable.entries
  rw [h]
  simp

theorem addid_single {t : SymbolTable α} {sc : List (Symbol × α)} (h : t.scopes = [sc])
    (s : Symbol) (v : α) : (t.addid s v).scopes = [(s, v) :: sc] := by
  unfold SymbolTable.addid
  rw [h]

end Table

/-! ## The registry built by `install_basic_classes` and `build_inheritance_graph` -/

theorem install_inv : RegistryInv (install_basic_classes ClassTable.init) basic_scope where
  scopes := rfl
  nodup := by decide
  name_eq := by
    intro e he
    simp only [basic_scope, List.mem_cons, List.mem_singleton, List.not_mem_nil, or_false] at he
    rcases he with h | h | h | h | h <;> subst h <;> rfl
  no_self := by decide
  count := rfl

theorem RegistryInv.lookup_eq {ct : ClassTable} {sc : List (Symbol × Class_)}
    (h : RegistryInv ct sc) (s : Symbol) :
    ct.class_table.lookup s = SymbolTable.find_in_scope s sc :=
  lookup_single h.scopes s

theorem RegistryInv.lookup_mem {ct : ClassTable} {sc : List (Symbol × Class_)}
    (h : RegistryInv ct sc) {s : Symbol} {c : Class_} (hl : ct.class_table.lookup s = some c) :
    (s, c) ∈ sc := by
  rw [h.lookup_eq] at hl
  exact find_in_scope_mem hl

theorem RegistryInv.lookup_of_mem {ct : ClassTable} {sc : List (Symbol × Class_)}
    (h : RegistryInv ct sc) {s : Symbol} {c : Class_} (hm : (s, c) ∈ sc) :
    ct.class_table.lookup s = some c := by
  rw [h.lookup_eq]
  exact find_in_scope_of_mem h.nodup hm

theorem RegistryInv.lookup_name {ct : ClassTable} {sc : List (Symbol × Class_)}
    (h : RegistryInv ct sc) {s : Symbol} {c : Class_} (hl : ct.class_table.lookup s = some c) :
    c.name = s :=
  h.name_eq (s, c) (h.lookup_mem hl)

theorem RegistryInv.lookup_isSome {ct : ClassTable} {sc : List (Symbol × Class_)}
    (h : RegistryInv ct sc) (s : Symbol) :
    (ct.class_table.lookup s).isSome = true ↔ s ∈ sc.map Prod.fst := by
  rw [h.lookup_eq]
  exact find_in_scope_isSome

theorem RegistryInv.size_eq {ct : ClassTable} {sc : List (Symbol × Class_)}
    (h : RegistryInv ct sc) : ct.size = sc.length := by
  unfold ClassTable.size
  rw [entries_single h.scopes]

theorem RegistryInv.report {ct : ClassTable} {sc : List (Symbol × Class_)}
    (h : RegistryInv ct sc) (kind : ErrorKind) (c : Class_) :
    RegistryInv (ct.report kind c) sc where
  scopes := h.scopes
  nodup := h.nodup
  name_eq := h.name_eq
  no_self := h.no_self
  count := by simp [ClassTable.report, h.count]

theorem register_class_rejected {ct : ClassTable} {sc : List (Symbol × Class_)}
    (h : RegistryInv ct sc) {c : Class_}
    (hc : c.name ∈ sc.map Prod.fst ∨ c.name = SELF_TYPE) :
    register_class ct c =
      ct.report (if c.name ∈ sc.map Prod.fst then ErrorKind.previously_defined
        else ErrorKind.named_SELF_TYPE) c := by
  unfold register_class
  rw [probe_single h.scopes]
  by_cases hk : c.name ∈ sc.map Prod.fst
  · rw [if_pos (find_in_scope_isSome.mpr hk), if_pos hk]
  · have hs : c.name = SELF_TYPE := hc.resolve_left hk
    have hn : ¬ (SymbolTable.find_in_scope c.name sc).isSome = true :=
      fun hp => hk (find_in_scope_isSome.mp hp)
    rw [if_neg hn, if_pos hs, if_neg hk]

theorem register_class_added {ct : ClassTable} {sc : List (Symbol × Class_)}
    (h : RegistryInv ct sc) {c : Class_}
    (hk : c.name ∉ sc.map Prod.fst) (hs : c.name ≠ SELF_TYPE) :
    register_class ct c = { ct with class_table := ct.class_table.addid c.name c } := by
  unfold register_class
  rw [probe_single h.scopes]
  have hn : ¬ (SymbolTable.find_in_scope c.name sc).isSome = true :=
    fun hp => hk (find_in_scope_isSome.mp hp)
  rw [if_neg hn, if_neg hs]

theorem RegistryInv.added {ct : ClassTable} {sc : List (Symbol × Class_)}
    (h : RegistryInv ct sc) {c : Class_}
    (hk : c.name ∉ sc.map Prod.fst) (hs : c.name ≠ SELF_TYPE) :
    RegistryInv { ct with class_table := ct.class_table.addid c.name c } ((c.name, c) :: sc) where
  scopes := addid_single h.scopes _ _
  nodup := by
    rw [List.map_cons, List.nodup_cons]
    exact ⟨hk, h.nodup⟩
  name_eq := by
    intro e he
    rcases List.mem_cons.mp he with rfl | he
    · rfl
    · exact h.name_eq e he
  no_self := by
    rw [List.map_cons, List.mem_cons]
    rintro (h1 | h1)
    · exact hs h1.symm
    · exact h.no_self h1
  count := h.count

/-- What `build_inheritance_graph` makes of a registry: the old bindings stay,
every new one is a class of the input, the counter never decreases, and when
it has not moved every class of the input is bound under its own, new, name. -/
theorem build_inv (classes : List Class_) :
    ∀ (ct : ClassTable) (sc : List (Symbol × Class_)), RegistryInv ct sc →
      ∃ sc', RegistryInv (build_inheritance_graph ct classes) sc' ∧
        (∀ e ∈ sc', e ∈ sc ∨ e.2 ∈ classes) ∧
        (∀ e ∈ sc, e ∈ sc') ∧
        ct.semant_errors ≤ (build_inheritance_graph ct classes).semant_errors ∧
        ((build_inheritance_graph ct classes).semant_errors = ct.semant_errors →
          (∀ c ∈ classes, (c.name, c) ∈ sc' ∧ c.name ∉ sc.map Prod.fst) ∧
          (classes.map Class_.name).Nodup) := by
  induction classes with
  | nil =>
    intro ct sc h
    exact ⟨sc, h, fun e he => Or.inl he, fun e he => he, le_refl _, fun _ => ⟨by simp, by simp⟩⟩
  | cons c rest ih =>
    intro ct sc h
    show ∃ sc', RegistryInv (build_inheritance_graph (register_class ct c) rest) sc' ∧ _
    by_cases hc : c.name ∈ sc.map Prod.fst ∨ c.name = SELF_TYPE
    · have hr := register_class_rejected h hc
      have hinv : RegistryInv (register_class ct c) sc := by
        rw [hr]
        exact h.report _ _
      have hcnt : (register_class ct c).semant_errors = ct.semant_errors + 1 := by
        rw [hr]
        rfl
      obtain ⟨sc', h1, h2, h3, h4, _⟩ := ih _ sc hinv
      refine ⟨sc', h1, ?_, h3, ?_, ?_⟩
      · intro e he
        rcases h2 e he with h' | h'
        · exact Or.inl h'
        · exact Or.inr (List.mem_cons_of_mem _ h')
      · show ct.semant_errors ≤ (build_inheritance_graph (register_class ct c) rest).semant_errors
        omega
      · intro h0
        change (build_inheritance_graph (register_class ct c) rest).semant_errors = _ at h0
        omega
    · have hk : c.name ∉ sc.map Prod.fst := fun hk => hc (Or.inl hk)
      have hs : c.name ≠ SELF_TYPE := fun hs => hc (Or.inr hs)
      have hr := register_class_added h hk hs
      have hinv : RegistryInv (register_class ct c) ((c.name, c) :: sc) := by
        rw [hr]
        exact h.added hk hs
      have hcnt : (register_class ct c).semant_errors = ct.semant_errors := by
        rw [hr]
      obtain ⟨sc', h1, h2, h3, h4, h5⟩ := ih _ _ hinv
      refine ⟨sc', h1, ?_, ?_, ?_, ?_⟩
      · intro e he
        rcases h2 e he with h' | h'
        · rcases List.mem_cons.mp h' with rfl | h''
          · exact Or.inr (List.mem_cons_self _ _)
          · exact Or.inl h''
        · exact Or.inr (List.mem_cons_of_mem _ h')
      · intro e he
        exact h3 e (List.mem_cons_of_mem _ he)
      · show ct.semant_errors ≤ (build_inheritance_graph (register_class ct c) rest).semant_errors
        omega
      · intro h0
        change (build_inheritance_graph (register_class ct c) rest).semant_errors = _ at h0
        obtain ⟨h6, h7⟩ := h5 (by omega)
        refine ⟨?_, ?_⟩
        · intro d hd
          rcases List.mem_cons.mp hd with rfl | hd
          · exact ⟨h3 _ (List.mem_cons_self _ _), hk⟩
          · refine ⟨(h6 d hd).1, fun hm => (h6 d hd).2 ?_⟩
            rw [List.map_cons]
            exact List.mem_cons_of_mem _ hm
        · rw [List.map_cons, List.nodup_cons]
          refine ⟨?_, h7⟩
          intro hm
          obtain ⟨d, hd, hdn⟩ := List.mem_map.mp hm
          apply (h6 d hd).2
          rw [List.map_cons, hdn]
          exact List.mem_cons_self _ _

/-- The class table with the messages `errs` added. -/
theorem check_inheritance_loop_eq (fuel : Nat) :
    ∀ (names : List Symbol) (ct : ClassTable),
      check_inheritance_loop fuel ct names =
        (inheritance_errors fuel ct.class_table names).map (fun errs =>
          { ct with
            error_stream := ct.error_stream ++ errs
            semant_errors := ct.semant_errors + errs.length }) := by
  intro names
  induction names with
  | nil =>
    intro ct
    simp [check_inheritance_loop, inheritance_errors]
  | cons n rest ih =>
    intro ct
    unfold check_inheritance_loop inheritance_errors class_errors
    cases hl : ct.class_table.lookup n with
    | none =>
      simp only [ih]
      cases inheritance_errors fuel ct.class_table rest <;> simp
    | some c =>
      simp only
      cases he : inheritance_error fuel ct.class_table c with
      | none => simp
      | some r =>
        cases r with
        | none =>
          simp only [ih]
          cases inheritance_errors fuel ct.class_table rest <;> simp
        | some kind =>
          simp only [ih]
          have : (ct.report kind c).class_table = ct.class_table := rfl
          rw [this]
          cases inheritance_errors fuel ct.class_table rest with
          | none => simp
          | some es =>
            simp only [ClassTable.report, Option.map_some', List.append_assoc, List.singleton_append,
              List.length_cons, Option.some.injEq, ClassTable.mk.injEq, and_true, true_and]
            omega

theorem cycle_walk_isSome (tbl : SymbolTable Class_) (keys : List Symbol)
    (hkeys : ∀ s, (tbl.lookup s).isSome = true → s ∈ keys) :
    ∀ (fuel : Nat) (visited : List Symbol) (current : Symbol),
      (keys.filter (fun k => decide (k ∉ visited))).length < fuel →
      (cycle_walk tbl fuel visited current).isSome = true := by
  intro fuel
  induction fuel with
  | zero => intro visited current h; omega
  | succ fuel ih =>
    intro visited current h
    unfold cycle_walk
    split
    · rfl
    · split
      · rfl
      · rename_i hn hv
        cases hl : tbl.lookup current with
        | none => rfl
        | some pc =>
          simp only
          apply ih
          have hmem : current ∈ keys := hkeys current (by rw [hl]; rfl)
          have hlt : (keys.filter (fun k => decide (k ∉ current :: visited))).length <
              (keys.filter (fun k => decide (k ∉ visited))).length := by
            have heq : keys.filter (fun k => decide (k ∉ current :: visited)) =
                (keys.filter (fun k => decide (k ∉ visited))).filter
                  (fun k => decide (k ≠ current)) := by
              rw [List.filter_filter]
              apply List.filter_congr
              intro x _
              simp [List.mem_cons, not_or]
            rw [heq, List.length_filter_lt_length_iff_exists]
            refine ⟨current, ?_, by simp⟩
            rw [List.mem_filter]
            exact ⟨hmem, by simpa using hv⟩
          omega

theorem build_length (classes : List Class_) :
    ∀ (ct : ClassTable) (sc sc' : List (Symbol × Class_)), RegistryInv ct sc →
      RegistryInv (build_inheritance_graph ct classes) sc' →
      sc'.length ≤ sc.length + classes.length := by
  induction classes with
  | nil =>
    intro ct sc sc' h h'
    have := h.scopes.symm.trans h'.scopes
    simp only [List.cons.injEq, and_true] at this
    subst this
    simp
  | cons c rest ih =>
    intro ct sc sc' h h'
    change RegistryInv (build_inheritance_graph (register_class ct c) rest) sc' at h'
    by_cases hc : c.name ∈ sc.map Prod.fst ∨ c.name = SELF_TYPE
    · have hinv : RegistryInv (register_class ct c) sc := by
        rw [register_class_rejected h hc]
        exact h.report _ _
      have := ih _ _ _ hinv h'
      simp only [List.length_cons]
      omega
    · have hk : c.name ∉ sc.map Prod.fst := fun hk => hc (Or.inl hk)
      have hs : c.name ≠ SELF_TYPE := fun hs => hc (Or.inr hs)
      have hinv : RegistryInv (register_class ct c) ((c.name, c) :: sc) := by
        rw [register_class_added h hk hs]
        exact h.added hk hs
      have := ih _ _ _ hinv h'
      simp only [List.length_cons] at this ⊢
      omega

theorem inheritance_error_isSome {ct : ClassTable} {sc : List (Symbol × Class_)}
    (h : RegistryInv ct sc) {fuel : Nat} (hfuel : sc.length < fuel) (c : Class_) :
    (inheritance_error fuel ct.class_table c).isSome = true := by
  unfold inheritance_error
  split
  · split
    · rfl
    · split
      · rfl
      · have hw := cycle_walk_isSome ct.class_table (sc.map Prod.fst)
          (fun s hs => (h.lookup_isSome s).mp hs) fuel [c.name] c.parent
          (lt_of_le_of_lt ((List.length_filter_le _ _).trans (by simp)) hfuel)
        cases hc : cycle_walk ct.class_table fuel [c.name] c.parent with
        | none => rw [hc] at hw; cases hw
        | some b => cases b <;> rfl
  · rfl

theorem class_errors_isSome {ct : ClassTable} {sc : List (Symbol × Class_)}
    (h : RegistryInv ct sc) {fuel : Nat} (hfuel : sc.length < fuel) (n : Symbol) :
    (class_errors fuel ct.class_table n).isSome = true := by
  unfold class_errors
  cases ct.class_table.lookup n with
  | none => rfl
  | some c =>
    have hw := inheritance_error_isSome h hfuel c
    cases he : inheritance_error fuel ct.class_table c with
    | none => rw [he] at hw; cases hw
    | some r => cases r <;> simp [he]

theorem inheritance_errors_isSome {ct : ClassTable} {sc : List (Symbol × Class_)}
    (h : RegistryInv ct sc) {fuel : Nat} (hfuel : sc.length < fuel) (names : List Symbol) :
    (inheritance_errors fuel ct.class_table names).isSome = true := by
  induction names with
  | nil => rfl
  | cons n rest ih =>
    unfold inheritance_errors
    have h1 := class_errors_isSome h hfuel n
    cases he : class_errors fuel ct.class_table n with
    | none => rw [he] at h1; cases h1
    | some e =>
      cases hes : inheritance_errors fuel ct.class_table rest with
      | none => rw [hes] at ih; cases ih
      | some es => rfl

/-- The registry before `check_inheritance` runs. -/
theorem built_inv (classes : List Class_) :
    ∃ sc, RegistryInv (build_inheritance_graph (install_basic_classes ClassTable.init) classes) sc ∧
      (∀ e ∈ sc, e ∈ basic_scope ∨ e.2 ∈ classes) ∧
      (∀ e ∈ basic_scope, e ∈ sc) ∧
      sc.length ≤ classes.length + 5 ∧
      ((build_inheritance_graph (install_basic_classes ClassTable.init) classes).semant_errors = 0 →
        (∀ c ∈ classes, (c.name, c) ∈ sc ∧ c.name ∉ basic_scope.map Prod.fst) ∧
        (classes.map Class_.name).Nodup) := by
  obtain ⟨sc, h1, h2, h3, _, h5⟩ := build_inv classes _ _ install_inv
  refine ⟨sc, h1, h2, h3, ?_, h5⟩
  have := build_length classes _ _ _ install_inv h1
  simpa [basic_scope, Nat.add_comm] using this

/-- The constructor returns the built registry with the messages of
`check_inheritance` added. -/
theorem new_eq (fuel : Nat) (classes : List Class_) :
    ClassTable.new fuel classes =
      (inheritance_errors fuel
        (build_inheritance_graph (install_basic_classes ClassTable.init) classes).class_table
        ((build_inheritance_graph (install_basic_classes ClassTable.init)
          classes).class_table.entries.map Prod.fst)).map (fun errs =>
        { build_inheritance_graph (install_basic_classes ClassTable.init) classes with
          error_stream :=
            (build_inheritance_graph (install_basic_classes ClassTable.init)
              classes).error_stream ++ errs
          semant_errors :=
            (build_inheritance_graph (install_basic_classes ClassTable.init)
              classes).semant_errors + errs.length }) := by
  unfold ClassTable.new check_inheritance
  rw [check_inheritance_loop_eq]

/-- The constructor terminates: with more fuel than classes it returns. -/
theorem new_isSome (fuel : Nat) (classes : List Class_) (hfuel : classes.length + 5 < fuel) :
    ∃ ct, ClassTable.new fuel classes = some ct := by
  obtain ⟨sc, h1, _, _, h4, _⟩ := built_inv classes
  have hs := inheritance_errors_isSome h1 (lt_of_le_of_lt h4 hfuel)
    ((build_inheritance_graph (install_basic_classes ClassTable.init)
      classes).class_table.entries.map Prod.fst)
  rw [new_eq]
  cases he : inheritance_errors fuel
    (build_inheritance_graph (install_basic_classes ClassTable.init) classes).class_table
    ((build_inheritance_graph (install_basic_classes ClassTable.init)
      classes).class_table.entries.map Prod.fst) with
  | none => rw [he] at hs; cases hs
  | some errs => exact ⟨_, rfl⟩

theorem inheritance_errors_nil {fuel : Nat} {tbl : SymbolTable Class_} :
    ∀ {names : List Symbol}, inheritance_errors fuel tbl names = some [] →
      ∀ n ∈ names, class_errors fuel tbl n = some []
  | [], _, n, hn => by simp at hn
  | m :: rest, h, n, hn => by
    unfold inheritance_errors at h
    cases he : class_errors fuel tbl m with
    | none => simp [he] at h
    | some e =>
      cases hes : inheritance_errors fuel tbl rest with
      | none => simp [he, hes] at h
      | some es =>
        simp only [he, hes, Option.some.injEq, List.append_eq_nil] at h
        rcases List.mem_cons.mp hn with rfl | hn
        · rw [he, h.1]
        · exact inheritance_errors_nil (hes.trans (by rw [h.2])) n hn

theorem class_errors_nil {fuel : Nat} {tbl : SymbolTable Class_} {n : Symbol} {c : Class_}
    (hl : tbl.lookup n = some c) (h : class_errors fuel tbl n = some []) :
    inheritance_error fuel tbl c = some none := by
  unfold class_errors at h
  rw [hl] at h
  simp only at h
  cases he : inheritance_error fuel tbl c with
  | none => simp [he] at h
  | some r =>
    cases r with
    | none => rfl
    | some k => simp [he] at h

theorem inheritance_error_none {fuel : Nat} {tbl : SymbolTable Class_} {c : Class_}
    (h : inheritance_error fuel tbl c = some none) :
    c.parent = No_class ∨
      (¬ (c.parent = Int_ ∨ c.parent = Float_ ∨ c.parent = String_ ∨ c.parent = Bool_) ∧
        (tbl.lookup c.parent).isSome = true ∧
        cycle_walk tbl fuel [c.name] c.parent = some false) := by
  unfold inheritance_error at h
  by_cases hp : c.parent = No_class
  · exact Or.inl hp
  · right
    rw [if_pos hp] at h
    by_cases hprim : c.parent = Int_ ∨ c.parent = Float_ ∨ c.parent = String_ ∨ c.parent = Bool_
    · rw [if_pos hprim] at h
      cases h
    · rw [if_neg hprim] at h
      by_cases hn : (tbl.lookup c.parent).isNone = true
      · rw [if_pos hn] at h
        cases h
      · rw [if_neg hn] at h
        refine ⟨hprim, ?_, ?_⟩
        · cases hl : tbl.lookup c.parent with
          | none => rw [hl] at hn; exact absurd rfl hn
          | some _ => rfl
        · cases hw : cycle_walk tbl fuel [c.name] c.parent with
          | none => rw [hw] at h; cases h
          | some b =>
            cases b with
            | false => rfl
            | true => rw [hw] at h; cases h

/-- What the constructor returns: the registry of `build_inheritance_graph`
with the messages of `check_inheritance` added. -/
theorem new_inv {fuel : Nat} {classes : List Class_} {ct : ClassTable}
    (hnew : ClassTable.new fuel classes = some ct) :
    ∃ sc errs, RegistryInv ct sc ∧
      (∀ e ∈ sc, e ∈ basic_scope ∨ e.2 ∈ classes) ∧
      (∀ e ∈ basic_scope, e ∈ sc) ∧
      sc.length ≤ classes.length + 5 ∧
      inheritance_errors fuel ct.class_table (sc.map Prod.fst) = some errs ∧
      ct.class_table =
        (build_inheritance_graph (install_basic_classes ClassTable.init) classes).class_table ∧
      ct.error_stream =
        (build_inheritance_graph (install_basic_classes ClassTable.init) classes).error_stream
          ++ errs ∧
      ct.semant_errors =
        (build_inheritance_graph (install_basic_classes ClassTable.init) classes).semant_errors
          + errs.length ∧
      (ct.semant_errors = 0 →
        (∀ c ∈ classes, (c.name, c) ∈ sc ∧ c.name ∉ basic_scope.map Prod.fst) ∧
        (classes.map Class_.name).Nodup ∧
        ∀ s c, ct.class_table.lookup s = some c →
          inheritance_error fuel ct.class_table c = some none) := by
  obtain ⟨sc, h1, h2, h3, h4, h5⟩ := built_inv classes
  rw [new_eq] at hnew
  rw [entries_single h1.scopes] at hnew
  cases he : inheritance_errors fuel
    (build_inheritance_graph (install_basic_classes ClassTable.init) classes).class_table
    (sc.map Prod.fst) with
  | none => rw [he] at hnew; cases hnew
  | some errs =>
    rw [he] at hnew
    simp only [Option.map_some', Option.some.injEq] at hnew
    subst hnew
    have hinv : RegistryInv
        { build_inheritance_graph (install_basic_classes ClassTable.init) classes with
          error_stream :=
            (build_inheritance_graph (install_basic_classes ClassTable.init)
              classes).error_stream ++ errs
          semant_errors :=
            (build_inheritance_graph (install_basic_classes ClassTable.init)
              classes).semant_errors + errs.length } sc :=
      { scopes := h1.scopes
        nodup := h1.nodup
        name_eq := h1.name_eq
        no_self := h1.no_self
        count := by simp [h1.count] }
    refine ⟨sc, errs, hinv, h2, h3, h4, he, rfl, rfl, rfl, ?_⟩
    intro h0
    simp only at h0
    have hb : (build_inheritance_graph (install_basic_classes ClassTable.init)
        classes).semant_errors = 0 := by omega
    have hlen : errs.length = 0 := by omega
    have herrs : errs = [] := List.length_eq_zero.mp hlen
    obtain ⟨h6, h7⟩ := h5 hb
    refine ⟨h6, h7, ?_⟩
    intro s c hl
    have hm : s ∈ sc.map Prod.fst := (hinv.lookup_isSome s).mp (by rw [hl]; rfl)
    exact class_errors_nil hl (inheritance_errors_nil (herrs ▸ he) s hm)

/-! ## Chains of a validated registry -/

theorem Rooted.mem_registered {tbl : SymbolTable Class_} {x : Symbol} {l : List Symbol}
    (h : Rooted tbl x l) : ∀ y ∈ l, y ≠ No_class ∧ (tbl.lookup y).isSome = true := by
  induction h with
  | root => intro y hy; simp at hy
  | step hx hl _ ih =>
    intro y hy
    rcases List.mem_cons.mp hy with rfl | hy
    · exact ⟨hx, by rw [hl]; rfl⟩
    · exact ih y hy

theorem Rooted.unique {tbl : SymbolTable Class_} {x : Symbol} {l : List Symbol}
    (h : Rooted tbl x l) : ∀ {l' : List Symbol}, Rooted tbl x l' → l = l' := by
  induction h with
  | root =>
    intro l' h'
    cases h' with
    | root => rfl
    | step hx _ _ => exact absurd rfl hx
  | step hx hl _ ih =>
    intro l' h'
    cases h' with
    | root => exact absurd rfl hx
    | step _ hl' hr' =>
      rw [hl] at hl'
      cases hl'
      rw [ih hr']

/-- A chain that starts at a class ends at a registered class without parent. -/
theorem Rooted.last_root {tbl : SymbolTable Class_} {x : Symbol} {l : List Symbol}
    (h : Rooted tbl x l) (hx : x ≠ No_class) :
    ∃ y c, l.getLast? = some y ∧ tbl.lookup y = some c ∧ c.parent = No_class := by
  induction h with
  | root => exact absurd rfl hx
  | step hx' hl hr ih =>
    rename_i x c l
    by_cases hp : c.parent = No_class
    · rw [hp] at hr
      cases hr with
      | root => exact ⟨x, c, rfl, hl, hp⟩
      | step h1 _ _ => exact absurd rfl h1
    · obtain ⟨y, d, h1, h2, h3⟩ := ih hp
      refine ⟨y, d, ?_, h2, h3⟩
      cases l with
      | nil => simp at h1
      | cons z l => simpa [List.getLast?_cons_cons] using h1

/-- The chain of a member of a chain is the rest of that chain. -/
theorem Rooted.suffix {tbl : SymbolTable Class_} {x : Symbol} :
    ∀ {pre : List Symbol} {y : Symbol} {post : List Symbol},
      Rooted tbl x (pre ++ y :: post) → Rooted tbl y (y :: post) := by
  intro pre
  induction pre generalizing x with
  | nil =>
    intro y post h
    cases h with
    | step hx hl hr => exact Rooted.step hx hl hr
  | cons z pre ih =>
    intro y post h
    cases h with
    | step hx hl hr => exact ih hr

theorem parent_chain_rooted {tbl : SymbolTable Class_} {x : Symbol} {l : List Symbol}
    (h : Rooted tbl x l) : ∀ n, l.length ≤ n → parent_chain tbl n x = l := by
  induction h with
  | root =>
    intro n _
    cases n <;> simp [parent_chain]
  | step hx hl _ ih =>
    intro n hn
    cases n with
    | zero => simp at hn
    | succ n =>
      unfold parent_chain
      rw [if_neg hx, hl]
      simp only [List.length_cons, Nat.add_le_add_iff_right] at hn
      simp [ih n hn]

theorem is_subtype_walk_rooted {tbl : SymbolTable Class_} (parent : Symbol) {x : Symbol}
    {l : List Symbol} (h : Rooted tbl x l) :
    ∀ fuel, l.length < fuel → is_subtype_walk tbl parent fuel x = some (decide (parent ∈ l)) := by
  induction h with
  | root =>
    intro fuel hf
    cases fuel with
    | zero => omega
    | succ fuel => simp [is_subtype_walk]
  | step hx hl hr ih =>
    rename_i x c l
    intro fuel hf
    cases fuel with
    | zero => omega
    | succ fuel =>
      simp only [List.length_cons, Nat.add_lt_add_iff_right] at hf
      unfold is_subtype_walk
      rw [if_neg hx]
      by_cases hp : x = parent
      · rw [if_pos hp]
        simp [hp]
      · rw [if_neg hp, hl]
        simp only
        rw [ih fuel hf]
        have hp' : ¬ parent = x := fun h => hp h.symm
        simp [hp']

theorem lub_ancestors_rooted {tbl : SymbolTable Class_} {x : Symbol} {l : List Symbol}
    (h : Rooted tbl x l) : ∀ fuel, l.length < fuel → lub_ancestors tbl fuel x = some l := by
  induction h with
  | root =>
    intro fuel hf
    cases fuel with
    | zero => omega
    | succ fuel => simp [lub_ancestors]
  | step hx hl _ ih =>
    intro fuel hf
    cases fuel with
    | zero => omega
    | succ fuel =>
      simp only [List.length_cons, Nat.add_lt_add_iff_right] at hf
      unfold lub_ancestors
      rw [if_neg hx, hl]
      simp [ih fuel hf]

/-- The second loop of `lub` on a chain: the first member of the chain that
belongs to `anc`, or `Object` when there is none. -/
theorem lub_search_rooted {tbl : SymbolTable Class_} (anc : List Symbol) {x : Symbol}
    {l : List Symbol} (h : Rooted tbl x l) :
    ∀ fuel, l.length < fuel →
      lub_search tbl anc fuel x = some ((l.find? (fun y => decide (y ∈ anc))).getD Object) := by
  induction h with
  | root =>
    intro fuel hf
    cases fuel with
    | zero => omega
    | succ fuel => simp [lub_search]
  | step hx hl hr ih =>
    rename_i x c l
    intro fuel hf
    cases fuel with
    | zero => omega
    | succ fuel =>
      simp only [List.length_cons, Nat.add_lt_add_iff_right] at hf
      unfold lub_search
      rw [if_neg hx]
      cases hfind : anc.find? (fun ancestor => decide (x = ancestor)) with
      | some a =>
        have ha := List.find?_some hfind
        have hmem := List.mem_of_find?_eq_some hfind
        simp only [decide_eq_true_eq] at ha
        subst ha
        simp [List.find?_cons, hmem]
      | none =>
        have hnot : x ∉ anc := by
          intro hm
          have := List.find?_eq_none.mp hfind x hm
          simp at this
        simp only [hl]
        rw [ih fuel hf]
        simp [List.find?_cons, hnot]

/-- A walk of `check_inheritance` that reports nothing has followed a chain up
to a class without parent, never meeting a visited class. -/
theorem cycle_walk_rooted {tbl : SymbolTable Class_} {fuel0 : Nat}
    (hV : ∀ s c, tbl.lookup s = some c → inheritance_error fuel0 tbl c = some none) :
    ∀ (fuel : Nat) (visited : List Symbol) (current : Symbol),
      cycle_walk tbl fuel visited current = some false →
      (current = No_class ∨ (tbl.lookup current).isSome = true) →
      ∃ l, Rooted tbl current l ∧ (∀ y ∈ l, y ∉ visited) ∧ l.Nodup := by
  intro fuel
  induction fuel with
  | zero =>
    intro visited current h _
    simp [cycle_walk] at h
  | succ fuel ih =>
    intro visited current h hreg
    unfold cycle_walk at h
    by_cases hc : current = No_class
    · subst hc
      exact ⟨[], Rooted.root, by simp, List.nodup_nil⟩
    · rw [if_neg hc] at h
      by_cases hv : current ∈ visited
      · rw [if_pos hv] at h
        cases h
      · rw [if_neg hv] at h
        cases hl : tbl.lookup current with
        | none =>
          rcases hreg with h1 | h1
          · exact absurd h1 hc
          · rw [hl] at h1
            cases h1
        | some pc =>
          rw [hl] at h
          simp only at h
          have hpar : pc.parent = No_class ∨ (tbl.lookup pc.parent).isSome = true := by
            rcases inheritance_error_none (hV current pc hl) with h1 | h1
            · exact Or.inl h1
            · exact Or.inr h1.2.1
          obtain ⟨l, h1, h2, h3⟩ := ih (current :: visited) pc.parent h hpar
          refine ⟨current :: l, Rooted.step hc hl h1, ?_, ?_⟩
          · intro y hy
            rcases List.mem_cons.mp hy with rfl | hy
            · exact hv
            · exact fun hm => h2 y hy (List.mem_cons_of_mem _ hm)
          · rw [List.nodup_cons]
            exact ⟨fun hm => h2 current hm (List.mem_cons_self _ _), h3⟩

/-- In a registry validated without error, the parent of every class heads a
chain that ends at a class without parent, does not come back to the class and
is shorter than the registry. -/
theorem validated_chain {fuel : Nat} {classes : List Class_} {ct : ClassTable}
    (hnew : ClassTable.new fuel classes = some ct) (h0 : ct.semant_errors = 0)
    {x : Symbol} {c : Class_} (hl : ct.class_table.lookup x = some c) :
    ∃ l, Rooted ct.class_table c.parent l ∧ x ∉ l ∧ l.Nodup ∧ l.length < ct.size := by
  obtain ⟨sc, errs, hinv, _, _, _, _, _, _, _, hz⟩ := new_inv hnew
  obtain ⟨_, _, hV⟩ := hz h0
  have hname : c.name = x := hinv.lookup_name hl
  have hxmem : x ∈ sc.map Prod.fst := (hinv.lookup_isSome x).mp (by rw [hl]; rfl)
  have hgen : ∀ l, Rooted ct.class_table c.parent l → x ∉ l → l.Nodup → l.length < ct.size := by
    intro l hr hx hnd
    have hnd' : (x :: l).Nodup := List.nodup_cons.mpr ⟨hx, hnd⟩
    have hsub : (x :: l) ⊆ sc.map Prod.fst := by
      intro y hy
      rcases List.mem_cons.mp hy with rfl | hy
      · exact hxmem
      · exact (hinv.lookup_isSome y).mp (hr.mem_registered y hy).2
    have hle := (List.Nodup.subperm hnd' hsub).length_le
    rw [hinv.size_eq]
    simp only [List.length_cons, List.length_map] at hle
    omega
  rcases inheritance_error_none (hV x c hl) with hp | ⟨_, hreg, hw⟩
  · have hr : Rooted ct.class_table c.parent [] := by
      rw [hp]
      exact Rooted.root
    exact ⟨[], hr, by simp, List.nodup_nil, hgen [] hr (by simp) List.nodup_nil⟩
  · obtain ⟨l, h1, h2, h3⟩ := cycle_walk_rooted hV fuel [c.name] c.parent hw (Or.inr hreg)
    have hx : x ∉ l := fun hm => h2 x hm (by rw [hname]; exact List.mem_singleton_self _)
    exact ⟨l, h1, hx, h3, hgen l h1 hx h3⟩

/-- `is_subtype` on a class whose parent heads the chain `la`: the second
argument is the class itself or a member of the chain. -/
theorem is_subtype_eq {ct : ClassTable} {a c : Symbol} {ca : Class_} {la : List Symbol}
    (hl : ct.class_table.lookup a = some ca) (hr : Rooted ct.class_table ca.parent la)
    (ha : a ≠ SELF_TYPE) (hc : c ≠ SELF_TYPE) {fuel : Nat} (hf : la.length < fuel) :
    is_subtype fuel ct a c = some (decide (c = a ∨ c ∈ la)) := by
  unfold is_subtype
  rw [if_neg (fun h => ha h.1), if_neg ha, if_neg hc]
  by_cases hac : a = c
  · rw [if_pos hac]
    simp [hac]
  · rw [if_neg hac, hl]
    simp only
    rw [is_subtype_walk_rooted c hr fuel hf]
    have hca : ¬ c = a := fun h => hac h.symm
    simp [hca]

/-! ## The type relation on `SELF_TYPE` -/

/-- C2: `is_subtype(SELF_TYPE, X)` is true for every type `X`, and
`is_subtype(X, SELF_TYPE)` is false for every `X` other than `SELF_TYPE`,
whatever the registry holds and before any parent link is followed. -/
theorem is_subtype_SELF_TYPE (fuel : Nat) (ct : ClassTable) (X : Symbol) :
    is_subtype fuel ct SELF_TYPE X = some true ∧
      (X ≠ SELF_TYPE → is_subtype fuel ct X SELF_TYPE = some false) := by
  constructor
  · unfold is_subtype
    by_cases hX : X = SELF_TYPE
    · simp [hX]
    · simp [hX]
  · intro hX
    unfold is_subtype
    simp [hX]

/-- Witness of C2 on the type `Int` and the empty class table. -/
theorem is_subtype_SELF_TYPE_witness :
    is_subtype 0 ClassTable.init SELF_TYPE Int_ = some true ∧
      is_subtype 0 ClassTable.init Int_ SELF_TYPE = some false :=
  ⟨(is_subtype_SELF_TYPE 0 ClassTable.init Int_).1,
    (is_subtype_SELF_TYPE 0 ClassTable.init Int_).2 (by decide)⟩

/-- C5: `lub(SELF_TYPE, SELF_TYPE) = SELF_TYPE`, and for every type `X` other
than `SELF_TYPE` both `lub(SELF_TYPE, X)` and `lub(X, SELF_TYPE)` are `Object`,
whatever the registry holds. -/
theorem lub_SELF_TYPE (fuel : Nat) (ct : ClassTable) :
    lub fuel ct SELF_TYPE SELF_TYPE = some SELF_TYPE ∧
      ∀ X, X ≠ SELF_TYPE →
        lub fuel ct SELF_TYPE X = some Object ∧ lub fuel ct X SELF_TYPE = some Object := by
  constructor
  · simp [lub]
  · intro X hX
    constructor
    · unfold lub
      simp [hX]
    · unfold lub
      simp [hX]

/-- Witness of C5 on the type `Int` and the empty class table. -/
theorem lub_SELF_TYPE_witness :
    lub 0 ClassTable.init SELF_TYPE Int_ = some Object ∧
      lub 0 ClassTable.init Int_ SELF_TYPE = some Object :=
  (lub_SELF_TYPE 0 ClassTable.init).2 Int_ (by decide)

/-- C6: `lub(A, A) = A` for every type `A`, registered or not, `SELF_TYPE`
included, whatever the registry holds. -/
theorem lub_idempotent (fuel : Nat) (ct : ClassTable) (A : Symbol) :
    lub fuel ct A A = some A := by
  unfold lub
  by_cases hA : A = SELF_TYPE
  · simp [hA]
  · have hs : is_subtype fuel ct A A = some true := by
      unfold is_subtype
      simp [hA]
    simp [hA, hs]

/-! ## The type relation on a validated registry -/

/-- C3: on a registry built without error, for types `a ≠ b`, neither of them
`SELF_TYPE`, `is_subtype(a, b)` returns, and returns true exactly when `b`
occurs in the chain of parent links that starts at the parent of `a`; it
returns false when `a` is not registered. -/
theorem is_subtype_iff_ancestor {fuel0 : Nat} {classes : List Class_} {ct : ClassTable}
    (hnew : ClassTable.new fuel0 classes = some ct) (h0 : ct.semant_errors = 0)
    (a b : Symbol) (hab : a ≠ b) (ha : a ≠ SELF_TYPE) (hb : b ≠ SELF_TYPE)
    (fuel n : Nat) (hfuel : ct.size < fuel) (hn : ct.size ≤ n) :
    is_subtype fuel ct a b = some (decide (b ∈ ancestors ct.class_table n a)) ∧
      (ct.class_table.lookup a = none → is_subtype fuel ct a b = some false) := by
  have hnone : ct.class_table.lookup a = none → is_subtype fuel ct a b = some false := by
    intro hl
    unfold is_subtype
    simp [ha, hb, hab, hl]
  refine ⟨?_, hnone⟩
  cases hl : ct.class_table.lookup a with
  | none =>
    rw [hnone hl]
    simp [ancestors, hl]
  | some ca =>
    obtain ⟨l, hr, _, _, hlen⟩ := validated_chain hnew h0 hl
    rw [is_subtype_eq hl hr ha hb (by omega)]
    have hba : ¬ b = a := fun h => hab h.symm
    simp [ancestors, hl, parent_chain_rooted hr n (by omega), hba]

/-- Witness of C3 on the classes `A` and `B inherits A`. -/
theorem is_subtype_iff_ancestor_witness :
    ∃ ct, ClassTable.new 8 [sample_A, sample_B] = some ct ∧
      is_subtype 8 ct "B" Object = some (decide (Object ∈ ancestors ct.class_table 7 "B")) ∧
      (ct.class_table.lookup "B" = none → is_subtype 8 ct "B" Object = some false) :=
  ⟨_, rfl, @is_subtype_iff_ancestor 8 [sample_A, sample_B] _ rfl
    (by decide) "B" Object (by decide) (by decide) (by decide) 8 7 (by decide) (by decide)⟩

theorem basic_scope_root : ∀ e ∈ basic_scope, e.2.parent = No_class → e.1 = Object := by
  intro e he
  simp only [basic_scope, List.mem_cons, List.mem_singleton, List.not_mem_nil, or_false] at he
  rcases he with h | h | h | h | h <;> subst h <;> decide

theorem basic_scope_parent : ∀ e ∈ basic_scope, e.1 ≠ Object → e.2.parent = Object := by
  intro e he
  simp only [basic_scope, List.mem_cons, List.mem_singleton, List.not_mem_nil, or_false] at he
  rcases he with h | h | h | h | h <;> subst h <;> decide

/-- When every user class names a parent, the only registered class without
parent is `Object`. -/
theorem root_is_Object {fuel0 : Nat} {classes : List Class_} {ct : ClassTable}
    (hnew : ClassTable.new fuel0 classes = some ct)
    (hpar : ∀ c ∈ classes, c.parent ≠ No_class)
    {y : Symbol} {d : Class_} (hl : ct.class_table.lookup y = some d)
    (hd : d.parent = No_class) : y = Object := by
  obtain ⟨sc, errs, hinv, h2, _⟩ := new_inv hnew
  rcases h2 (y, d) (hinv.lookup_mem hl) with h | h
  · exact basic_scope_root (y, d) h hd
  · exact absurd hd (hpar d h)

theorem lookup_Object {fuel0 : Nat} {classes : List Class_} {ct : ClassTable}
    (hnew : ClassTable.new fuel0 classes = some ct) :
    ct.class_table.lookup Object = some Object_class := by
  obtain ⟨sc, errs, hinv, _, h3, _⟩ := new_inv hnew
  exact hinv.lookup_of_mem (h3 _ (by simp [basic_scope]))

theorem registered_ne_SELF_TYPE {fuel0 : Nat} {classes : List Class_} {ct : ClassTable}
    (hnew : ClassTable.new fuel0 classes = some ct) {x : Symbol}
    (hx : (ct.class_table.lookup x).isSome = true) : x ≠ SELF_TYPE := by
  obtain ⟨sc, errs, hinv, _⟩ := new_inv hnew
  intro h
  subst h
  exact hinv.no_self ((hinv.lookup_isSome _).mp hx)

/-- On a validated registry whose user classes all name a parent, the chain of
a registered class reaches `Object`. -/
theorem validated_self_chain {fuel0 : Nat} {classes : List Class_} {ct : ClassTable}
    (hnew : ClassTable.new fuel0 classes = some ct) (h0 : ct.semant_errors = 0)
    (hpar : ∀ c ∈ classes, c.parent ≠ No_class)
    {x : Symbol} {c : Class_} (hl : ct.class_table.lookup x = some c) :
    ∃ l, Rooted ct.class_table c.parent l ∧ x ∉ l ∧ l.Nodup ∧ l.length < ct.size ∧
      (x :: l).getLast? = some Object := by
  obtain ⟨l, hr, hx, hnd, hlen⟩ := validated_chain hnew h0 hl
  refine ⟨l, hr, hx, hnd, hlen, ?_⟩
  by_cases hp : c.parent = No_class
  · have hxo : x = Object := root_is_Object hnew hpar hl hp
    rw [hp] at hr
    cases hr with
    | root => simp [hxo]
    | step h1 _ _ => exact absurd rfl h1
  · obtain ⟨y, d, h1, h2, h3⟩ := hr.last_root hp
    have hy : y = Object := root_is_Object hnew hpar h2 h3
    subst hy
    cases l with
    | nil => simp at h1
    | cons z l => simpa [List.getLast?_cons_cons] using h1

/-- `is_subtype` from a registered class, read off its chain. -/
theorem is_subtype_chain {fuel0 : Nat} {classes : List Class_} {ct : ClassTable}
    (hnew : ClassTable.new fuel0 classes = some ct)
    {x : Symbol} {cx : Class_} {l : List Symbol}
    (hl : ct.class_table.lookup x = some cx) (hr : Rooted ct.class_table cx.parent l)
    {fuel : Nat} (hf : l.length < fuel) (c : Symbol) :
    is_subtype fuel ct x c = some (decide (c ≠ SELF_TYPE ∧ c ∈ x :: l)) := by
  have hx : x ≠ SELF_TYPE := registered_ne_SELF_TYPE hnew (by rw [hl]; rfl)
  by_cases hc : c = SELF_TYPE
  · subst hc
    unfold is_subtype
    simp [hx]
  · rw [is_subtype_eq hl hr hx hc hf]
    simp [hc]

/-- C1 (amended): on a registry built without error, for every registered
class `X`, `is_subtype(X, X)` returns true; and `is_subtype(X, Object)` returns
true provided every user class of the input names a parent. -/
theorem is_subtype_refl_and_Object {fuel0 : Nat} {classes : List Class_} {ct : ClassTable}
    (hnew : ClassTable.new fuel0 classes = some ct) (h0 : ct.semant_errors = 0)
    (X : Symbol) (hX : (ct.class_table.lookup X).isSome = true)
    (fuel : Nat) (hfuel : ct.size < fuel) :
    is_subtype fuel ct X X = some true ∧
      ((∀ c ∈ classes, c.parent ≠ No_class) → is_subtype fuel ct X Object = some true) := by
  have hXs : X ≠ SELF_TYPE := registered_ne_SELF_TYPE hnew hX
  constructor
  · unfold is_subtype
    simp [hXs]
  · intro hpar
    cases hl : ct.class_table.lookup X with
    | none => rw [hl] at hX; cases hX
    | some c =>
      obtain ⟨l, hr, _, _, hlen, hlast⟩ := validated_self_chain hnew h0 hpar hl
      have hO : Object ∈ X :: l := List.mem_of_getLast?_eq_some hlast
      have hOs : Object ≠ SELF_TYPE := by decide
      rw [is_subtype_chain hnew hl hr (by omega) Object]
      simpa [hOs] using hO

/-- Witness of C1 on the classes `A` and `B inherits A`. -/
theorem is_subtype_refl_and_Object_witness :
    ∃ ct, ClassTable.new 8 [sample_A, sample_B] = some ct ∧
      is_subtype 8 ct "B" "B" = some true ∧ is_subtype 8 ct "B" Object = some true :=
  ⟨_, rfl,
    (@is_subtype_refl_and_Object 8 [sample_A, sample_B] _ rfl (by decide) "B" (by decide) 8
      (by decide)).1,
    (@is_subtype_refl_and_Object 8 [sample_A, sample_B] _ rfl (by decide) "B" (by decide) 8
      (by decide)).2 (by decide)⟩

/-- C1 fails as stated: the declaration `A` whose parent slot holds `No_class`
is registered without any error, and `is_subtype(A, Object)` returns false. -/
theorem is_subtype_Object_counterexample :
    ∃ ct, ClassTable.new 8 [sample_A_no_parent] = some ct ∧ ct.semant_errors = 0 ∧
      (ct.class_table.lookup "A").isSome = true ∧ ct.size < 8 ∧
      is_subtype 8 ct "A" Object = some false :=
  ⟨_, rfl, by decide, by decide, by decide, by decide⟩

/-- C7 (amended): if the construction of the class table ends with an error
count of zero, every user class of the input is registered under its own name,
these names are distinct and none is `SELF_TYPE`; and if moreover every user
class names a parent, the hierarchy is a tree rooted at `Object`: every
registered class other than `Object` has a parent that is registered and is
none of `Int`, `Float`, `String`, `Bool`, and the parent links from any
registered class reach `Object` without visiting a class twice. -/
theorem validator_sound {fuel0 : Nat} {classes : List Class_} {ct : ClassTable}
    (hnew : ClassTable.new fuel0 classes = some ct) (h0 : ct.semant_errors = 0) :
    ((∀ c ∈ classes, ct.class_table.lookup c.name = some c ∧ c.name ≠ SELF_TYPE) ∧
      (classes.map Class_.name).Nodup) ∧
    ((∀ c ∈ classes, c.parent ≠ No_class) →
      (∀ x c, ct.class_table.lookup x = some c → x ≠ Object →
        c.parent ≠ No_class ∧ (ct.class_table.lookup c.parent).isSome = true ∧
        c.parent ≠ Int_ ∧ c.parent ≠ Float_ ∧ c.parent ≠ String_ ∧ c.parent ≠ Bool_) ∧
      (∀ x, (ct.class_table.lookup x).isSome = true → ∀ n, ct.size ≤ n →
        (x :: ancestors ct.class_table n x).Nodup ∧
        (x :: ancestors ct.class_table n x).getLast? = some Object)) := by
  obtain ⟨sc, errs, hinv, _, _, _, _, _, _, _, hz⟩ := new_inv hnew
  obtain ⟨hreg, hnd, hV⟩ := hz h0
  refine ⟨⟨?_, hnd⟩, ?_⟩
  · intro c hc
    have hl := hinv.lookup_of_mem (hreg c hc).1
    exact ⟨hl, registered_ne_SELF_TYPE hnew (by rw [hl]; rfl)⟩
  · intro hpar
    refine ⟨?_, ?_⟩
    · intro x c hl hx
      have hp : c.parent ≠ No_class := fun hp => hx (root_is_Object hnew hpar hl hp)
      rcases inheritance_error_none (hV x c hl) with h1 | ⟨h1, h2, _⟩
      · exact absurd h1 hp
      · refine ⟨hp, h2, ?_, ?_, ?_, ?_⟩
        · exact fun h => h1 (Or.inl h)
        · exact fun h => h1 (Or.inr (Or.inl h))
        · exact fun h => h1 (Or.inr (Or.inr (Or.inl h)))
        · exact fun h => h1 (Or.inr (Or.inr (Or.inr h)))
    · intro x hx n hn
      cases hl : ct.class_table.lookup x with
      | none => rw [hl] at hx; cases hx
      | some c =>
        obtain ⟨l, hr, hxl, hndl, hlen, hlast⟩ := validated_self_chain hnew h0 hpar hl
        have ha : ancestors ct.class_table n x = l := by
          simp [ancestors, hl, parent_chain_rooted hr n (by omega)]
        rw [ha]
        exact ⟨List.nodup_cons.mpr ⟨hxl, hndl⟩, hlast⟩

/-- Witness of C7 on the classes `A` and `B inherits A`. -/
theorem validator_sound_witness :
    ∃ ct, ClassTable.new 8 [sample_A, sample_B] = some ct ∧
      ((∀ c ∈ [sample_A, sample_B],
          ct.class_table.lookup c.name = some c ∧ c.name ≠ SELF_TYPE) ∧
        ([sample_A, sample_B].map Class_.name).Nodup) ∧
      (∀ x c, ct.class_table.lookup x = some c → x ≠ Object →
        c.parent ≠ No_class ∧ (ct.class_table.lookup c.parent).isSome = true ∧
        c.parent ≠ Int_ ∧ c.parent ≠ Float_ ∧ c.parent ≠ String_ ∧ c.parent ≠ Bool_) ∧
      (∀ x, (ct.class_table.lookup x).isSome = true → ∀ n, ct.size ≤ n →
        (x :: ancestors ct.class_table n x).Nodup ∧
        (x :: ancestors ct.class_table n x).getLast? = some Object) :=
  ⟨_, rfl, (@validator_sound 8 [sample_A, sample_B] _ rfl (by decide)).1,
    (@validator_sound 8 [sample_A, sample_B] _ rfl (by decide)).2 (by decide)⟩

/-- C7 fails as stated: the declaration `A` whose parent slot holds `No_class`
passes the construction with an error count of zero, yet `A` is a registered
class other than `Object` without any parent, and its parent links do not
reach `Object`. -/
theorem validator_sound_counterexample :
    ∃ ct, ClassTable.new 8 [sample_A_no_parent] = some ct ∧ ct.semant_errors = 0 ∧
      (ct.class_table.lookup "A").map Class_.parent = some No_class ∧
      "A" ≠ Object ∧ ct.size ≤ 8 ∧
      ("A" :: ancestors ct.class_table 8 "A").getLast? = some "A" :=
  ⟨_, rfl, by decide, by decide, by decide, by decide, by decide⟩

/-- C4 (amended): on a registry built without error from user classes that all
name a parent, for registered classes `a` and `b`, neither named by the symbol
`No_class`, `lub(a, b)` returns the most specific common ancestor `r`:
`is_subtype(a, r)` and `is_subtype(b, r)` hold, and `is_subtype(r, c)` holds for
every type `c` with `is_subtype(a, c)` and `is_subtype(b, c)`. -/
theorem lub_least_upper_bound {fuel0 : Nat} {classes : List Class_} {ct : ClassTable}
    (hnew : ClassTable.new fuel0 classes = some ct) (h0 : ct.semant_errors = 0)
    (hpar : ∀ c ∈ classes, c.parent ≠ No_class)
    (a b : Symbol) (ha : (ct.class_table.lookup a).isSome = true)
    (hb : (ct.class_table.lookup b).isSome = true)
    (ha' : a ≠ No_class) (hb' : b ≠ No_class)
    (fuel : Nat) (hfuel : ct.size < fuel) :
    ∃ r, lub fuel ct a b = some r ∧
      is_subtype fuel ct a r = some true ∧ is_subtype fuel ct b r = some true ∧
      ∀ c, is_subtype fuel ct a c = some true → is_subtype fuel ct b c = some true →
        is_subtype fuel ct r c = some true := by
  cases hla : ct.class_table.lookup a with
  | none => rw [hla] at ha; cases ha
  | some ca =>
  cases hlb : ct.class_table.lookup b with
  | none => rw [hlb] at hb; cases hb
  | some cb =>
  obtain ⟨la, hra, _, _, hlena, hlasta⟩ := validated_self_chain hnew h0 hpar hla
  obtain ⟨lb, hrb, _, _, hlenb, hlastb⟩ := validated_self_chain hnew h0 hpar hlb
  have hRa : Rooted ct.class_table a (a :: la) := Rooted.step ha' hla hra
  have hRb : Rooted ct.class_table b (b :: lb) := Rooted.step hb' hlb hrb
  have hOa : Object ∈ a :: la := List.mem_of_getLast?_eq_some hlasta
  have hOb : Object ∈ b :: lb := List.mem_of_getLast?_eq_some hlastb
  have sa := is_subtype_chain hnew hla hra (show la.length < fuel by omega)
  have sb := is_subtype_chain hnew hlb hrb (show lb.length < fuel by omega)
  have has : a ≠ SELF_TYPE := registered_ne_SELF_TYPE hnew ha
  have hbs : b ≠ SELF_TYPE := registered_ne_SELF_TYPE hnew hb
  unfold lub
  rw [if_neg (fun h => has h.1), if_neg (fun h => h.elim has hbs)]
  by_cases h1 : b ∈ a :: la
  · have e1 : is_subtype fuel ct a b = some true := by
      rw [sa b]
      simp only [Option.some.injEq, decide_eq_true_eq]
      exact ⟨hbs, h1⟩
    have e2 : is_subtype fuel ct b b = some true := by
      rw [sb b]
      simp [hbs]
    rw [e1]
    exact ⟨b, rfl, e1, e2, fun c _ hc => hc⟩
  · have e1 : is_subtype fuel ct a b = some false := by
      rw [sa b]
      simp only [Option.some.injEq, decide_eq_false_iff_not]
      exact fun h => h1 h.2
    rw [e1]
    simp only
    by_cases h2 : a ∈ b :: lb
    · have e2 : is_subtype fuel ct b a = some true := by
        rw [sb a]
        simp only [Option.some.injEq, decide_eq_true_eq]
        exact ⟨has, h2⟩
      have e3 : is_subtype fuel ct a a = some true := by
        rw [sa a]
        simp [has]
      rw [e2]
      exact ⟨a, rfl, e3, e2, fun c hc _ => hc⟩
    · have e2 : is_subtype fuel ct b a = some false := by
        rw [sb a]
        simp only [Option.some.injEq, decide_eq_false_iff_not]
        exact fun h => h2 h.2
      rw [e2]
      simp only
      rw [lub_ancestors_rooted hRa fuel (by simp only [List.length_cons]; omega)]
      simp only
      rw [lub_search_rooted _ hRb fuel (by simp only [List.length_cons]; omega)]
      cases hfind : (b :: lb).find? (fun y => decide (y ∈ (a :: la) ++ [Object])) with
      | none =>
        have := List.find?_eq_none.mp hfind Object hOb
        simp at this
      | some r =>
        obtain ⟨hp, pre, post, hsplit, hpre⟩ := List.find?_eq_some.mp hfind
        have hra' : r ∈ a :: la := by
          simp only [decide_eq_true_eq, List.mem_append, List.mem_singleton] at hp
          rcases hp with hp | hp
          · exact hp
          · rw [hp]
            exact hOa
        have hrb' : r ∈ b :: lb := by
          rw [hsplit]
          simp
        have hRr : Rooted ct.class_table r (r :: post) := by
          rw [hsplit] at hRb
          exact hRb.suffix
        have hrs : r ≠ SELF_TYPE :=
          registered_ne_SELF_TYPE hnew (hRb.mem_registered r hrb').2
        have hpost : post.length < fuel := by
          have := congrArg List.length hsplit
          simp only [List.length_cons, List.length_append] at this
          omega
        cases hRr with
        | step _ hlr hrr =>
          have sr := is_subtype_chain hnew hlr hrr hpost
          refine ⟨r, rfl, ?_, ?_, ?_⟩
          · rw [sa r]
            simp only [Option.some.injEq, decide_eq_true_eq]
            exact ⟨hrs, hra'⟩
          · rw [sb r]
            simp only [Option.some.injEq, decide_eq_true_eq]
            exact ⟨hrs, hrb'⟩
          · intro c hac hbc
            rw [sa c] at hac
            rw [sb c] at hbc
            simp only [Option.some.injEq, decide_eq_true_eq] at hac hbc
            rw [sr c]
            simp only [Option.some.injEq, decide_eq_true_eq]
            refine ⟨hac.1, ?_⟩
            have hc := hbc.2
            rw [hsplit, List.mem_append] at hc
            rcases hc with hc | hc
            · have := hpre c hc
              simp only [Bool.not_eq_true', decide_eq_false_iff_not, List.mem_append,
                not_or] at this
              exact absurd hac.2 this.1
            · exact hc

/-- Witness of C4 on the built-in classes: `lub(Int, Bool) = Object`. -/
theorem lub_least_upper_bound_witness :
    ∃ ct, ClassTable.new 6 [] = some ct ∧ lub 6 ct Int_ Bool_ = some Object ∧
      ∃ r, lub 6 ct Int_ Bool_ = some r ∧
        is_subtype 6 ct Int_ r = some true ∧ is_subtype 6 ct Bool_ r = some true ∧
        ∀ c, is_subtype 6 ct Int_ c = some true → is_subtype 6 ct Bool_ c = some true →
          is_subtype 6 ct r c = some true :=
  ⟨_, rfl, by decide, @lub_least_upper_bound 6 [] _ rfl (by decide)
    (by decide) Int_ Bool_ (by decide) (by decide) (by decide) (by decide) 6 (by decide)⟩

/-- C4 fails as stated, in two ways.  With the declaration `A` whose parent slot
holds `No_class`, registered without error, `lub(A, Int)` is `Object` yet
`is_subtype(A, Object)` is false.  With the classes `A`, a class named by the
symbol `No_class` inheriting `A`, and `B` inheriting `A`, all registered without
error, `lub(No_class, B)` is `Object` although `A` is a common ancestor and
`is_subtype(Object, A)` is false. -/
theorem lub_least_upper_bound_counterexample :
    (∃ ct, ClassTable.new 8 [sample_A_no_parent] = some ct ∧ ct.semant_errors = 0 ∧
      (ct.class_table.lookup "A").isSome = true ∧ (ct.class_table.lookup Int_).isSome = true ∧
      ct.size < 8 ∧ lub 8 ct "A" Int_ = some Object ∧
      is_subtype 8 ct "A" Object = some false) ∧
    (∃ ct, ClassTable.new 9 [sample_A, sample_No_class_inherits_A, sample_B] = some ct ∧
      ct.semant_errors = 0 ∧
      (ct.class_table.lookup No_class).isSome = true ∧
      (ct.class_table.lookup "B").isSome = true ∧
      ct.size < 9 ∧ lub 9 ct No_class "B" = some Object ∧
      is_subtype 9 ct No_class "A" = some true ∧ is_subtype 9 ct "B" "A" = some true ∧
      is_subtype 9 ct Object "A" = some false) :=
  ⟨⟨_, rfl, by decide, by decide, by decide, by decide, by decide, by decide⟩,
    ⟨_, rfl, by decide, by decide, by decide, by decide, by decide, by decide, by decide,
      by decide⟩⟩

/-! ## The messages of `check_inheritance` -/

theorem class_errors_name {ct : ClassTable} {sc : List (Symbol × Class_)}
    (h : RegistryInv ct sc) {fuel : Nat} {n : Symbol} {e : List SemantError}
    (he : class_errors fuel ct.class_table n = some e) :
    e.length ≤ 1 ∧ ∀ x ∈ e, x.class_name = n := by
  unfold class_errors at he
  cases hl : ct.class_table.lookup n with
  | none =>
    rw [hl] at he
    cases he
    simp
  | some c =>
    rw [hl] at he
    simp only at he
    cases hi : inheritance_error fuel ct.class_table c with
    | none => rw [hi] at he; cases he
    | some r =>
      rw [hi] at he
      cases r with
      | none =>
        cases he
        simp
      | some kind =>
        cases he
        simp [h.lookup_name hl]

theorem inheritance_errors_filter_not_mem {ct : ClassTable} {sc : List (Symbol × Class_)}
    (h : RegistryInv ct sc) {fuel : Nat} (x : Symbol) :
    ∀ {names : List Symbol} {errs : List SemantError},
      inheritance_errors fuel ct.class_table names = some errs → x ∉ names →
      errs.filter (fun e => decide (e.class_name = x)) = [] := by
  intro names
  induction names with
  | nil =>
    intro errs he _
    simp only [inheritance_errors, Option.some.injEq] at he
    subst he
    rfl
  | cons m rest ih =>
    intro errs he hx
    unfold inheritance_errors at he
    cases h1 : class_errors fuel ct.class_table m with
    | none => simp [h1] at he
    | some e =>
      cases h2 : inheritance_errors fuel ct.class_table rest with
      | none => simp [h1, h2] at he
      | some es =>
        simp only [h1, h2, Option.some.injEq] at he
        subst he
        rw [List.filter_append, ih h2 (fun hm => hx (List.mem_cons_of_mem _ hm)),
          List.append_nil, List.filter_eq_nil_iff]
        intro y hy
        have := (class_errors_name h h1).2 y hy
        simp only [decide_eq_true_eq]
        rw [this]
        exact fun hmx => hx (hmx ▸ List.mem_cons_self _ _)

/-- The messages about one class among those of `check_inheritance`. -/
theorem inheritance_errors_filter {ct : ClassTable} {sc : List (Symbol × Class_)}
    (h : RegistryInv ct sc) {fuel : Nat} (x : Symbol) {e : List SemantError}
    (hx : class_errors fuel ct.class_table x = some e) :
    ∀ {names : List Symbol} {errs : List SemantError},
      inheritance_errors fuel ct.class_table names = some errs → names.Nodup → x ∈ names →
      errs.filter (fun e => decide (e.class_name = x)) = e := by
  intro names
  induction names with
  | nil =>
    intro errs _ _ hm
    simp at hm
  | cons m rest ih =>
    intro errs he hnd hm
    rw [List.nodup_cons] at hnd
    unfold inheritance_errors at he
    cases h1 : class_errors fuel ct.class_table m with
    | none => simp [h1] at he
    | some e1 =>
      cases h2 : inheritance_errors fuel ct.class_table rest with
      | none => simp [h1, h2] at he
      | some es =>
        simp only [h1, h2, Option.some.injEq] at he
        subst he
        rw [List.filter_append]
        by_cases hxm : x = m
        · subst hxm
          rw [hx] at h1
          cases h1
          rw [inheritance_errors_filter_not_mem h x h2 hnd.1, List.append_nil,
            List.filter_eq_self]
          intro y hy
          simp [(class_errors_name h hx).2 y hy]
        · have hrest : x ∈ rest := by
            rcases List.mem_cons.mp hm with h' | h'
            · exact absurd h' hxm
            · exact h'
          rw [ih h2 hnd.2 hrest]
          have : e1.filter (fun e => decide (e.class_name = x)) = [] := by
            rw [List.filter_eq_nil_iff]
            intro y hy
            simp only [decide_eq_true_eq]
            rw [(class_errors_name h h1).2 y hy]
            exact fun hmx => hxm hmx.symm
          rw [this, List.nil_append]

/-- A walk of `check_inheritance` that reports nothing has met no visited
class on the chain it followed. -/
theorem cycle_walk_false_disjoint {tbl : SymbolTable Class_} :
    ∀ (fuel : Nat) (visited : List Symbol) (current : Symbol),
      cycle_walk tbl fuel visited current = some false →
      ∀ n, ∀ y ∈ parent_chain tbl n current, y ∉ visited := by
  intro fuel
  induction fuel with
  | zero =>
    intro visited current h
    simp [cycle_walk] at h
  | succ fuel ih =>
    intro visited current h n y hy
    cases n with
    | zero => simp [parent_chain] at hy
    | succ n =>
      unfold cycle_walk at h
      unfold parent_chain at hy
      by_cases hc : current = No_class
      · rw [if_pos hc] at hy
        simp at hy
      · rw [if_neg hc] at h hy
        by_cases hv : current ∈ visited
        · rw [if_pos hv] at h
          cases h
        · rw [if_neg hv] at h
          cases hl : tbl.lookup current with
          | none =>
            rw [hl] at hy
            simp only [List.mem_singleton] at hy
            rw [hy]
            exact hv
          | some pc =>
            rw [hl] at h hy
            simp only at h hy
            rcases List.mem_cons.mp hy with rfl | hy
            · exact hv
            · exact fun hm => ih (current :: visited) pc.parent h n y hy
                (List.mem_cons_of_mem _ hm)

/-- The messages of `build_inheritance_graph` are of the two registration
kinds. -/
theorem build_error_kinds (classes : List Class_) :
    ∀ (ct : ClassTable), ∀ e ∈ (build_inheritance_graph ct classes).error_stream,
      e ∈ ct.error_stream ∨ e.kind = ErrorKind.previously_defined ∨
        e.kind = ErrorKind.named_SELF_TYPE := by
  induction classes with
  | nil => intro ct e he; exact Or.inl he
  | cons c rest ih =>
    intro ct e he
    change e ∈ (build_inheritance_graph (register_class ct c) rest).error_stream at he
    rcases ih _ e he with h | h
    · unfold register_class at h
      split at h
      · simp only [ClassTable.report, List.mem_append, List.mem_singleton] at h
        rcases h with h | h
        · exact Or.inl h
        · exact Or.inr (Or.inl (by rw [h]))
      · split at h
        · simp only [ClassTable.report, List.mem_append, List.mem_singleton] at h
          rcases h with h | h
          · exact Or.inl h
          · exact Or.inr (Or.inr (by rw [h]))
        · exact Or.inl h
    · exact Or.inr h

/-- The constructor returns, and the messages of `check_inheritance` about a
registered class are those of `class_errors`. -/
theorem new_class_errors (fuel : Nat) (classes : List Class_)
    (hfuel : classes.length + 5 < fuel) (x : Symbol) (c : Class_)
    (hl : (registry classes).class_table.lookup x = some c) :
    ∃ ct errs e, ClassTable.new fuel classes = some ct ∧
      ct.class_table = (registry classes).class_table ∧
      ct.error_stream = (registry classes).error_stream ++ errs ∧
      ct.semant_errors = (registry classes).semant_errors + errs.length ∧
      class_errors fuel (registry classes).class_table x = some e ∧
      errs.filter (fun e => decide (e.class_name = x)) = e ∧
      e.length ≤ 1 ∧ c.name = x := by
  obtain ⟨ct, hnew⟩ := new_isSome fuel classes hfuel
  obtain ⟨sc, errs, hinv, _, _, hlen, he, htbl, hstream, hcount, _⟩ := new_inv hnew
  change ct.class_table = (registry classes).class_table at htbl
  change ct.error_stream = (registry classes).error_stream ++ errs at hstream
  change ct.semant_errors = (registry classes).semant_errors + errs.length at hcount
  have hl' : ct.class_table.lookup x = some c := by
    rw [htbl]
    exact hl
  have hx : x ∈ sc.map Prod.fst := (hinv.lookup_isSome x).mp (by rw [hl']; rfl)
  have hs := class_errors_isSome hinv (lt_of_le_of_lt hlen hfuel) x
  cases hce : class_errors fuel ct.class_table x with
  | none => rw [hce] at hs; cases hs
  | some e =>
    refine ⟨ct, errs, e, hnew, htbl, hstream, hcount, ?_, ?_, ?_, ?_⟩
    · rw [← htbl]
      exact hce
    · exact inheritance_errors_filter hinv x hce he hinv.nodup hx
    · exact (class_errors_name hinv hce).1
    · exact hinv.lookup_name hl'

/-- C9: for each registered class with a parent `P`, `check_inheritance`
reports at most one error for that class; when `P` is `Int`, `Float`, `String`
or `Bool` it is the illegal-inheritance error and no other; otherwise, when `P`
is not registered, it is the undefined-parent error and no other, so no cycle
error. -/
theorem check_inheritance_classifies (fuel : Nat) (classes : List Class_)
    (hfuel : classes.length + 5 < fuel) (x : Symbol) (c : Class_)
    (hl : (registry classes).class_table.lookup x = some c) (hp : c.parent ≠ No_class) :
    ∃ ct errs, ClassTable.new fuel classes = some ct ∧
      ct.error_stream = (registry classes).error_stream ++ errs ∧
      ct.semant_errors = (registry classes).semant_errors + errs.length ∧
      (errs.filter (fun e => decide (e.class_name = x))).length ≤ 1 ∧
      (primitive_parent c →
        errs.filter (fun e => decide (e.class_name = x)) =
          [⟨ErrorKind.inherits_builtin, x⟩]) ∧
      (¬ primitive_parent c → (registry classes).class_table.lookup c.parent = none →
        errs.filter (fun e => decide (e.class_name = x)) =
          [⟨ErrorKind.inherits_undefined, x⟩]) := by
  obtain ⟨ct, errs, e, hnew, _, hstream, hcount, hce, hfilter, hle, hname⟩ :=
    new_class_errors fuel classes hfuel x c hl
  refine ⟨ct, errs, hnew, hstream, hcount, ?_, ?_, ?_⟩
  · rw [hfilter]
    exact hle
  · intro hprim
    rw [hfilter]
    unfold class_errors inheritance_error at hce
    unfold primitive_parent at hprim
    rw [hl] at hce
    simp only [if_pos hp, if_pos hprim, Option.some.injEq] at hce
    rw [← hce, hname]
  · intro hprim hnone
    rw [hfilter]
    unfold class_errors inheritance_error at hce
    unfold primitive_parent at hprim
    rw [hl] at hce
    simp only [if_pos hp, if_neg hprim, hnone, Option.isNone_none, if_true,
      Option.some.injEq] at hce
    rw [← hce, hname]

/-- Witness of C9 on `class A inherits Int` and on `class A inherits Zorp`. -/
theorem check_inheritance_classifies_witness :
    (∃ ct errs, ClassTable.new 8 [sample_A_inherits_Int] = some ct ∧
      ct.error_stream = (registry [sample_A_inherits_Int]).error_stream ++ errs ∧
      errs.filter (fun e => decide (e.class_name = "A")) =
        [⟨ErrorKind.inherits_builtin, "A"⟩]) ∧
    (∃ ct errs, ClassTable.new 8 [sample_A_inherits_Zorp] = some ct ∧
      ct.error_stream = (registry [sample_A_inherits_Zorp]).error_stream ++ errs ∧
      errs.filter (fun e => decide (e.class_name = "A")) =
        [⟨ErrorKind.inherits_undefined, "A"⟩]) := by
  constructor
  · obtain ⟨ct, errs, h1, h2, _, _, h5, _⟩ :=
      check_inheritance_classifies 8 [sample_A_inherits_Int] (by decide) "A"
        sample_A_inherits_Int rfl (by decide)
    exact ⟨ct, errs, h1, h2, h5 (by decide)⟩
  · obtain ⟨ct, errs, h1, h2, _, _, _, h6⟩ :=
      check_inheritance_classifies 8 [sample_A_inherits_Zorp] (by decide) "A"
        sample_A_inherits_Zorp rfl (by decide)
    exact ⟨ct, errs, h1, h2, h6 (by decide) rfl⟩

/-- C8 (amended): for every registered class that lies on an inheritance cycle
(following parent links from it leads back to it) and whose own parent is none
of `Int`, `Float`, `String`, `Bool`, `check_inheritance` reports exactly one
cycle error for that class. -/
theorem cycle_member_reported (fuel : Nat) (classes : List Class_)
    (hfuel : classes.length + 5 < fuel) (x : Symbol) (c : Class_)
    (hl : (registry classes).class_table.lookup x = some c) (n : Nat)
    (hcyc : x ∈ ancestors (registry classes).class_table n x)
    (hprim : ¬ primitive_parent c) :
    ∃ ct, ClassTable.new fuel classes = some ct ∧
      ct.error_stream.count ⟨ErrorKind.inheritance_cycle, x⟩ = 1 := by
  obtain ⟨ct, errs, e, hnew, _, hstream, _, hce, hfilter, _, hname⟩ :=
    new_class_errors fuel classes hfuel x c hl
  refine ⟨ct, hnew, ?_⟩
  simp only [ancestors, hl] at hcyc
  have hp : c.parent ≠ No_class := by
    intro hp
    rw [hp] at hcyc
    cases n <;> simp [parent_chain] at hcyc
  have hreg : ¬ ((registry classes).class_table.lookup c.parent).isNone = true := by
    intro hnone
    have hnone' : (registry classes).class_table.lookup c.parent = none := by
      cases h : (registry classes).class_table.lookup c.parent with
      | none => rfl
      | some _ => rw [h] at hnone; cases hnone
    cases n with
    | zero => simp [parent_chain] at hcyc
    | succ n =>
      unfold parent_chain at hcyc
      rw [if_neg hp, hnone'] at hcyc
      simp only [List.mem_singleton] at hcyc
      rw [← hcyc, hl] at hnone'
      cases hnone'
  have hwalk : cycle_walk (registry classes).class_table fuel [c.name] c.parent = some true := by
    cases hw : cycle_walk (registry classes).class_table fuel [c.name] c.parent with
    | none =>
      unfold class_errors inheritance_error at hce
      unfold primitive_parent at hprim
      rw [hl] at hce
      simp only [if_pos hp, if_neg hprim, if_neg hreg, hw] at hce
      cases hce
    | some b =>
      cases b with
      | true => rfl
      | false =>
        exact absurd (by rw [hname]; exact List.mem_singleton_self _)
          (cycle_walk_false_disjoint fuel [c.name] c.parent hw n x hcyc)
  have he : e = [⟨ErrorKind.inheritance_cycle, x⟩] := by
    unfold class_errors inheritance_error at hce
    unfold primitive_parent at hprim
    rw [hl] at hce
    simp only [if_pos hp, if_neg hprim, if_neg hreg, hwalk, Option.some.injEq] at hce
    rw [← hce, hname]
  have hbuilt : (registry classes).error_stream.count ⟨ErrorKind.inheritance_cycle, x⟩ = 0 := by
    rw [List.count_eq_zero]
    intro hm
    rcases build_error_kinds classes _ _ hm with h | h | h
    · simp [install_basic_classes, ClassTable.init] at h
    · cases h
    · cases h
  have herrs : errs.count ⟨ErrorKind.inheritance_cycle, x⟩ = 1 := by
    have := List.count_filter (l := errs) (p := fun e => decide (e.class_name = x))
      (a := (⟨ErrorKind.inheritance_cycle, x⟩ : SemantError)) (by simp)
    rw [← this, hfilter, he]
    simp
  rw [hstream, List.count_append, hbuilt, herrs]

/-- Witness of C8 on `class A inherits B`, `class B inherits A`: one cycle error each. -/
theorem cycle_member_reported_witness :
    (∃ ct, ClassTable.new 8 [sample_A_inherits_B, sample_B_inherits_A] = some ct ∧
      ct.error_stream.count ⟨ErrorKind.inheritance_cycle, "A"⟩ = 1) ∧
    (∃ ct, ClassTable.new 8 [sample_A_inherits_B, sample_B_inherits_A] = some ct ∧
      ct.error_stream.count ⟨ErrorKind.inheritance_cycle, "B"⟩ = 1) :=
  ⟨cycle_member_reported 8 [sample_A_inherits_B, sample_B_inherits_A] (by decide) "A"
      sample_A_inherits_B rfl 2 (by decide) (by decide),
    cycle_member_reported 8 [sample_A_inherits_B, sample_B_inherits_A] (by decide) "B"
      sample_B_inherits_A rfl 2 (by decide) (by decide)⟩

/-- C8 fails as stated: with `class A inherits Float` and `class Float inherits
A`, the class `A` lies on an inheritance cycle, yet `check_inheritance` reports
no cycle error for it (it reports the illegal-inheritance error). -/
theorem cycle_member_counterexample :
    ∃ ct, ClassTable.new 8 [sample_A_inherits_Float, sample_Float_inherits_A] = some ct ∧
      (ct.class_table.lookup "A").isSome = true ∧
      "A" ∈ ancestors ct.class_table 2 "A" ∧
      ct.error_stream.count ⟨ErrorKind.inheritance_cycle, "A"⟩ = 0 ∧
      ct.error_stream =
        [⟨ErrorKind.inheritance_cycle, Float_⟩, ⟨ErrorKind.inherits_builtin, "A"⟩] :=
  ⟨_, rfl, by decide, by decide, by decide, by decide⟩

/-! ## Registration -/

theorem build_append (l1 l2 : List Class_) :
    ∀ ct, build_inheritance_graph ct (l1 ++ l2) =
      build_inheritance_graph (build_inheritance_graph ct l1) l2 := by
  induction l1 with
  | nil => intro ct; rfl
  | cons c rest ih =>
    intro ct
    exact ih (register_class ct c)

/-- The names bound after `build_inheritance_graph`: those bound before, and
the names of the input other than `SELF_TYPE`. -/
theorem build_keys (classes : List Class_) :
    ∀ (ct : ClassTable) (sc sc' : List (Symbol × Class_)), RegistryInv ct sc →
      RegistryInv (build_inheritance_graph ct classes) sc' →
      ∀ s, s ∈ sc'.map Prod.fst ↔
        s ∈ sc.map Prod.fst ∨ (s ≠ SELF_TYPE ∧ s ∈ classes.map Class_.name) := by
  induction classes with
  | nil =>
    intro ct sc sc' h h' s
    have := h.scopes.symm.trans h'.scopes
    simp only [List.cons.injEq, and_true] at this
    subst this
    simp
  | cons c rest ih =>
    intro ct sc sc' h h' s
    change RegistryInv (build_inheritance_graph (register_class ct c) rest) sc' at h'
    by_cases hc : c.name ∈ sc.map Prod.fst ∨ c.name = SELF_TYPE
    · have hinv : RegistryInv (register_class ct c) sc := by
        rw [register_class_rejected h hc]
        exact h.report _ _
      rw [ih _ _ _ hinv h' s]
      simp only [List.map_cons, List.mem_cons]
      constructor
      · rintro (h1 | ⟨h1, h2⟩)
        · exact Or.inl h1
        · exact Or.inr ⟨h1, Or.inr h2⟩
      · rintro (h1 | ⟨h1, h2 | h2⟩)
        · exact Or.inl h1
        · rcases hc with hc | hc
          · exact Or.inl (h2 ▸ hc)
          · exact absurd (h2.trans hc) h1
        · exact Or.inr ⟨h1, h2⟩
    · have hk : c.name ∉ sc.map Prod.fst := fun hk => hc (Or.inl hk)
      have hs : c.name ≠ SELF_TYPE := fun hs => hc (Or.inr hs)
      have hinv : RegistryInv (register_class ct c) ((c.name, c) :: sc) := by
        rw [register_class_added h hk hs]
        exact h.added hk hs
      rw [ih _ _ _ hinv h' s]
      simp only [List.map_cons, List.mem_cons]
      constructor
      · rintro ((h1 | h1) | ⟨h1, h2⟩)
        · exact Or.inr ⟨h1 ▸ hs, Or.inl h1⟩
        · exact Or.inl h1
        · exact Or.inr ⟨h1, Or.inr h2⟩
      · rintro (h1 | ⟨h1, h2 | h2⟩)
        · exact Or.inl (Or.inr h1)
        · exact Or.inl (Or.inl h2)
        · exact Or.inr ⟨h1, h2⟩

theorem registry_inv (classes : List Class_) : ∃ sc, RegistryInv (registry classes) sc := by
  obtain ⟨sc, h, _⟩ := built_inv classes
  exact ⟨sc, h⟩

/-- C10: registration of the user classes in input order.  For a class `c`
that follows the classes `pre` and precedes the classes `post`: its name is
already present exactly when it is the name of a built-in or of an earlier
class (and is not `SELF_TYPE`); if it is neither present nor `SELF_TYPE` the
class is added and no error is counted; otherwise the registry is unchanged and
exactly one error is counted (duplicate definition when present, else reserved
name); the classes `post` are then processed from that state, and every name
bound before `c` (the five built-ins among them) keeps its binding to the
end. -/
theorem build_inheritance_graph_registration (pre : List Class_) (c : Class_)
    (post : List Class_) :
    (((registry pre).class_table.lookup c.name).isSome = true ↔
      c.name ∈ basic_scope.map Prod.fst ∨
        (c.name ≠ SELF_TYPE ∧ c.name ∈ pre.map Class_.name)) ∧
    (((registry pre).class_table.lookup c.name).isSome = false → c.name ≠ SELF_TYPE →
      (registry (pre ++ [c])).class_table = (registry pre).class_table.addid c.name c ∧
      (registry (pre ++ [c])).class_table.lookup c.name = some c ∧
      (registry (pre ++ [c])).semant_errors = (registry pre).semant_errors ∧
      (registry (pre ++ [c])).error_stream = (registry pre).error_stream) ∧
    (((registry pre).class_table.lookup c.name).isSome = true →
      (registry (pre ++ [c])).class_table = (registry pre).class_table ∧
      (registry (pre ++ [c])).semant_errors = (registry pre).semant_errors + 1 ∧
      (registry (pre ++ [c])).error_stream =
        (registry pre).error_stream ++ [⟨ErrorKind.previously_defined, c.name⟩]) ∧
    (((registry pre).class_table.lookup c.name).isSome = false → c.name = SELF_TYPE →
      (registry (pre ++ [c])).class_table = (registry pre).class_table ∧
      (registry (pre ++ [c])).semant_errors = (registry pre).semant_errors + 1 ∧
      (registry (pre ++ [c])).error_stream =
        (registry pre).error_stream ++ [⟨ErrorKind.named_SELF_TYPE, c.name⟩]) ∧
    registry (pre ++ c :: post) = build_inheritance_graph (registry (pre ++ [c])) post ∧
    (∀ name, ((registry pre).class_table.lookup name).isSome = true →
      (registry (pre ++ c :: post)).class_table.lookup name =
        (registry pre).class_table.lookup name) ∧
    (∀ e ∈ basic_scope, (registry (pre ++ c :: post)).class_table.lookup e.1 = some e.2) := by
  obtain ⟨sc, hinv⟩ := registry_inv pre
  have hstep : registry (pre ++ [c]) = register_class (registry pre) c := by
    unfold registry
    rw [build_append]
    rfl
  have hkey : ((registry pre).class_table.lookup c.name).isSome = true ↔
      c.name ∈ sc.map Prod.fst := hinv.lookup_isSome c.name
  refine ⟨?_, ?_, ?_, ?_, ?_, ?_, ?_⟩
  · rw [hkey]
    exact build_keys pre _ _ _ install_inv hinv c.name
  · intro hnone hs
    have hk : c.name ∉ sc.map Prod.fst := by
      intro hk
      rw [hkey.mpr hk] at hnone
      cases hnone
    rw [hstep, register_class_added hinv hk hs]
    refine ⟨rfl, ?_, rfl, rfl⟩
    exact (hinv.added hk hs).lookup_of_mem (List.mem_cons_self _ _)
  · intro hsome
    have hk : c.name ∈ sc.map Prod.fst := hkey.mp hsome
    rw [hstep, register_class_rejected hinv (Or.inl hk), if_pos hk]
    exact ⟨rfl, rfl, rfl⟩
  · intro hnone hs
    have hk : c.name ∉ sc.map Prod.fst := by
      intro hk
      rw [hkey.mpr hk] at hnone
      cases hnone
    rw [hstep, register_class_rejected hinv (Or.inr hs), if_neg hk]
    exact ⟨rfl, rfl, rfl⟩
  · unfold registry
    rw [← build_append, List.append_assoc]
    rfl
  · intro name hname
    have hfin : registry (pre ++ c :: post) =
        build_inheritance_graph (registry pre) (c :: post) := by
      unfold registry
      rw [build_append]
    obtain ⟨sc', h1, _, h3, _⟩ := build_inv (c :: post) _ _ hinv
    rw [hfin]
    cases hl : (registry pre).class_table.lookup name with
    | none => rw [hl] at hname; cases hname
    | some d => exact h1.lookup_of_mem (h3 _ (hinv.lookup_mem hl))
  · intro e he
    obtain ⟨sc', h1, _, h3, _⟩ := built_inv (pre ++ c :: post)
    exact h1.lookup_of_mem (h3 e he)

/-- Witness of C10: `B` is added after `A`; a second `A` and a class named
`SELF_TYPE` each count one error; the first `A` stays bound. -/
theorem build_inheritance_graph_registration_witness :
    (registry [sample_A, sample_B]).class_table.lookup "B" = some sample_B ∧
    (registry [sample_A, sample_B]).semant_errors = (registry [sample_A]).semant_errors ∧
    (registry [sample_A, sample_A_again]).semant_errors =
      (registry [sample_A]).semant_errors + 1 ∧
    (registry [sample_A, sample_SELF_TYPE]).semant_errors =
      (registry [sample_A]).semant_errors + 1 ∧
    (registry [sample_A, sample_A_again, sample_B]).class_table.lookup "A" =
      (registry [sample_A]).class_table.lookup "A" :=
  ⟨((build_inheritance_graph_registration [sample_A] sample_B []).2.1
      (by decide) (by decide)).2.1,
    ((build_inheritance_graph_registration [sample_A] sample_B []).2.1
      (by decide) (by decide)).2.2.1,
    ((build_inheritance_graph_registration [sample_A] sample_A_again []).2.2.1
      (by decide)).2.1,
    ((build_inheritance_graph_registration [sample_A] sample_SELF_TYPE []).2.2.2.1
      (by decide) (by decide)).2.1,
    (build_inheritance_graph_registration [sample_A] sample_A_again [sample_B]).2.2.2.2.2.1
      "A" (by decide)⟩

/-! ## Termination of the walks over a validated registry -/

theorem terminating_of_validated {fuel : Nat} {classes : List Class_} {ct : ClassTable}
    (hnew : ClassTable.new fuel classes = some ct) (h0 : ct.semant_errors = 0) :
    Terminating ct.class_table ct.size := by
  intro x c hl
  obtain ⟨l, hr, _, _, hlen⟩ := validated_chain hnew h0 hl
  exact ⟨l, hr, hlen⟩

theorem is_subtype_isSome {ct : ClassTable} {N : Nat} (hT : Terminating ct.class_table N)
    {fuel : Nat} (hf : N < fuel) (a b : Symbol) : ∃ r, is_subtype fuel ct a b = some r := by
  unfold is_subtype
  split
  · exact ⟨_, rfl⟩
  · split
    · exact ⟨_, rfl⟩
    · split
      · exact ⟨_, rfl⟩
      · split
        · exact ⟨_, rfl⟩
        · cases hl : ct.class_table.lookup a with
          | none => exact ⟨_, rfl⟩
          | some c =>
            obtain ⟨l, hr, hlen⟩ := hT a c hl
            exact ⟨_, is_subtype_walk_rooted b hr fuel (by omega)⟩

theorem lub_ancestors_isSome {tbl : SymbolTable Class_} {N : Nat} (hT : Terminating tbl N)
    {fuel : Nat} (hf : N < fuel) (x : Symbol) : ∃ l, lub_ancestors tbl fuel x = some l := by
  cases fuel with
  | zero => omega
  | succ fuel =>
    unfold lub_ancestors
    split
    · exact ⟨_, rfl⟩
    · cases hl : tbl.lookup x with
      | none => exact ⟨_, rfl⟩
      | some c =>
        obtain ⟨l, hr, hlen⟩ := hT x c hl
        simp only [lub_ancestors_rooted hr fuel (by omega)]
        exact ⟨_, rfl⟩

theorem lub_search_isSome {tbl : SymbolTable Class_} {N : Nat} (hT : Terminating tbl N)
    {fuel : Nat} (hf : N < fuel) (anc : List Symbol) (x : Symbol) :
    ∃ r, lub_search tbl anc fuel x = some r := by
  cases fuel with
  | zero => omega
  | succ fuel =>
    unfold lub_search
    split
    · exact ⟨_, rfl⟩
    · split
      · exact ⟨_, rfl⟩
      · cases hl : tbl.lookup x with
        | none => exact ⟨_, rfl⟩
        | some c =>
          obtain ⟨l, hr, hlen⟩ := hT x c hl
          exact ⟨_, lub_search_rooted anc hr fuel (by omega)⟩

theorem lub_isSome {ct : ClassTable} {N : Nat} (hT : Terminating ct.class_table N)
    {fuel : Nat} (hf : N < fuel) (a b : Symbol) : ∃ r, lub fuel ct a b = some r := by
  unfold lub
  split
  · exact ⟨_, rfl⟩
  · split
    · exact ⟨_, rfl⟩
    · obtain ⟨r1, h1⟩ := is_subtype_isSome hT hf a b
      obtain ⟨r2, h2⟩ := is_subtype_isSome hT hf b a
      obtain ⟨la, h3⟩ := lub_ancestors_isSome hT hf a
      obtain ⟨r4, h4⟩ := lub_search_isSome hT hf (la ++ [Object]) b
      rw [h1]
      cases r1 with
      | true => exact ⟨_, rfl⟩
      | false =>
        simp only [h2]
        cases r2 with
        | true => exact ⟨_, rfl⟩
        | false =>
          simp only [h3, h4]
          exact ⟨_, rfl⟩

/-- The loop of `find_method` along a chain: the nearest declaration. -/
theorem find_method_walk_rooted {tbl : SymbolTable Class_} (m : Symbol) {x : Symbol}
    {l : List Symbol} (h : Rooted tbl x l) :
    ∀ fuel, l.length < fuel → find_method_walk tbl m fuel x = some (nearest_method tbl m l) := by
  induction h with
  | root =>
    intro fuel hf
    cases fuel with
    | zero => omega
    | succ fuel => simp [find_method_walk, nearest_method]
  | step hx hl hr ih =>
    rename_i x c l
    intro fuel hf
    cases fuel with
    | zero => omega
    | succ fuel =>
      simp only [List.length_cons, Nat.add_lt_add_iff_right] at hf
      unfold find_method_walk
      rw [if_neg hx, hl]
      simp only
      cases hfind : find_method_in m c.features with
      | some method =>
        simp [nearest_method, List.findSome?_cons, declared_method, hl, hfind]
      | none =>
        simp only
        rw [ih fuel hf]
        simp [nearest_method, List.findSome?_cons, declared_method, hl, hfind]

/-- `find_method` from any symbol, read off the chain of parent links. -/
theorem find_method_eq {ct : ClassTable} {N : Nat} (hT : Terminating ct.class_table N)
    {fuel n : Nat} (hf : N < fuel) (hn : N ≤ n) (C m : Symbol) :
    find_method fuel ct C m =
      some (nearest_method ct.class_table m (parent_chain ct.class_table n C)) := by
  unfold find_method
  cases fuel with
  | zero => omega
  | succ fuel =>
    by_cases hC : C = No_class
    · subst hC
      have : parent_chain ct.class_table n No_class = [] := by
        cases n <;> simp [parent_chain]
      simp [find_method_walk, this, nearest_method]
    · cases hl : ct.class_table.lookup C with
      | none =>
        have : nearest_method ct.class_table m (parent_chain ct.class_table n C) = none := by
          cases n with
          | zero => simp [parent_chain, nearest_method]
          | succ n =>
            simp [parent_chain, hC, hl, nearest_method, List.findSome?_cons, declared_method]
        simp [find_method_walk, hC, hl, this]
      | some c =>
        obtain ⟨l, hr, hlen⟩ := hT C c hl
        have hR : Rooted ct.class_table C (C :: l) := Rooted.step hC hl hr
        rw [find_method_walk_rooted m hR (fuel + 1) (by simp only [List.length_cons]; omega),
          parent_chain_rooted hR n (by simp only [List.length_cons]; omega)]

theorem find_method_isSome {ct : ClassTable} {N : Nat} (hT : Terminating ct.class_table N)
    {fuel : Nat} (hf : N < fuel) (C m : Symbol) : ∃ r, find_method fuel ct C m = some r :=
  ⟨_, find_method_eq hT hf (le_refl N) C m⟩

theorem find_method_in_eq_none {m : Symbol} :
    ∀ {fs : List Feature}, find_method_in m fs = none ↔
      ∀ f ∈ fs, ∀ mm, f.as_method = some mm → mm.name ≠ m
  | [] => by simp [find_method_in]
  | f :: rest => by
    have ih := @find_method_in_eq_none m rest
    unfold find_method_in
    cases hf : f.as_method with
    | none => simp [hf, ih]
    | some mm =>
      by_cases hm : mm.name = m
      · simp [hf, hm]
      · simp [hf, hm, ih]

theorem find_method_in_name {m : Symbol} {mm : method_class} :
    ∀ {fs : List Feature}, find_method_in m fs = some mm →
      mm.name = m ∧ ∃ f ∈ fs, f.as_method = some mm
  | [], h => by simp [find_method_in] at h
  | f :: rest, h => by
    unfold find_method_in at h
    cases hf : f.as_method with
    | none =>
      rw [hf] at h
      obtain ⟨h1, g, hg, h2⟩ := find_method_in_name h
      exact ⟨h1, g, List.mem_cons_of_mem _ hg, h2⟩
    | some m1 =>
      rw [hf] at h
      simp only at h
      by_cases hm : m1.name = m
      · rw [if_pos hm] at h
        cases h
        exact ⟨hm, f, List.mem_cons_self _ _, hf⟩
      · rw [if_neg hm] at h
        obtain ⟨h1, g, hg, h2⟩ := find_method_in_name h
        exact ⟨h1, g, List.mem_cons_of_mem _ hg, h2⟩

/-! ## The expression checker returns and only adds messages -/

theorem Extends.refl (ct : ClassTable) : Extends ct ct :=
  ⟨rfl, [], by simp, by simp⟩

theorem Extends.trans {a b c : ClassTable} (h1 : Extends a b) (h2 : Extends b c) :
    Extends a c := by
  obtain ⟨t1, e1, s1, n1⟩ := h1
  obtain ⟨t2, e2, s2, n2⟩ := h2
  refine ⟨t2.trans t1, e1 ++ e2, ?_, ?_⟩
  · rw [s2, s1, List.append_assoc]
  · rw [n2, n1, List.length_append]
    omega

theorem Extends.report_at (ct : ClassTable) (kind : ErrorKind) (cc : Symbol) :
    Extends ct (ct.report_at kind cc) :=
  ⟨rfl, [⟨kind, cc⟩], rfl, rfl⟩

theorem Extends.of_report (ct : ClassTable) (kind : ErrorKind) (c : Class_) :
    Extends ct (ct.report kind c) :=
  ⟨rfl, [⟨kind, c.name⟩], rfl, rfl⟩

theorem Extends.then_report_at {a b : ClassTable} (h : Extends a b) (kind : ErrorKind)
    (cc : Symbol) : Extends a (b.report_at kind cc) :=
  h.trans (Extends.report_at b kind cc)

theorem Extends.then_report {a b : ClassTable} (h : Extends a b) (kind : ErrorKind)
    (c : Class_) : Extends a (b.report kind c) :=
  h.trans (Extends.of_report b kind c)

theorem Extends.ite_report_at {a b : ClassTable} (h : Extends a b) (p : Prop) [Decidable p]
    (kind : ErrorKind) (cc : Symbol) :
    Extends a (if p then b.report_at kind cc else b) := by
  split
  · exact h.then_report_at kind cc
  · exact h

theorem Extends.ite_report_at' {a b : ClassTable} (h : Extends a b) (p : Prop) [Decidable p]
    (kind : ErrorKind) (cc : Symbol) :
    Extends a (if p then b else b.report_at kind cc) := by
  split
  · exact h
  · exact h.then_report_at kind cc

theorem Extends.terminating {a b : ClassTable} (h : Extends a b) {N : Nat}
    (hT : Terminating a.class_table N) : Terminating b.class_table N := by
  rw [h.1]
  exact hT

theorem Extends.le {a b : ClassTable} (h : Extends a b) : a.semant_errors ≤ b.semant_errors := by
  obtain ⟨_, e, _, n⟩ := h
  omega

theorem exitscope_addid_enterscope (env : SymbolTable Symbol) (x t : Symbol) :
    ((env.enterscope).addid x t).exitscope = env := rfl

mutual

/-- On a registry whose walks terminate, `type_check_expression` returns for
every expression; it leaves the registry and the environment as they were and
only adds messages. -/
theorem type_check_expression_total (fuel N : Nat) (cc : Symbol) (hf : N < fuel) :
    ∀ (e : Expression) (ct : ClassTable) (env : SymbolTable Symbol),
      Terminating ct.class_table N →
      ∃ r, type_check_expression fuel cc ct env e = some r ∧ Extends ct r.ct ∧
        r.object_env = env
  | Expression.no_expr _, ct, env, _ => ⟨_, rfl, Extends.refl ct, rfl⟩
  | Expression.int_const _ _, ct, env, _ => ⟨_, rfl, Extends.refl ct, rfl⟩
  | Expression.float_const _ _, ct, env, _ => ⟨_, rfl, Extends.refl ct, rfl⟩
  | Expression.bool_const _ _, ct, env, _ => ⟨_, rfl, Extends.refl ct, rfl⟩
  | Expression.string_const _ _, ct, env, _ => ⟨_, rfl, Extends.refl ct, rfl⟩
  | Expression.sub _ _ _, ct, env, _ => ⟨_, rfl, Extends.refl ct, rfl⟩
  | Expression.mul _ _ _, ct, env, _ => ⟨_, rfl, Extends.refl ct, rfl⟩
  | Expression.divide _ _ _, ct, env, _ => ⟨_, rfl, Extends.refl ct, rfl⟩
  | Expression.neg _ _, ct, env, _ => ⟨_, rfl, Extends.refl ct, rfl⟩
  | Expression.lt _ _ _, ct, env, _ => ⟨_, rfl, Extends.refl ct, rfl⟩
  | Expression.leq _ _ _, ct, env, _ => ⟨_, rfl, Extends.refl ct, rfl⟩
  | Expression.comp _ _, ct, env, _ => ⟨_, rfl, Extends.refl ct, rfl⟩
  | Expression.object _ name, ct, env, _ => by
    simp only [type_check_expression]
    cases env.lookup name with
    | none => exact ⟨_, rfl, Extends.report_at _ _ _, rfl⟩
    | some t => exact ⟨_, rfl, Extends.refl ct, rfl⟩
  | Expression.assign _ name rhs, ct, env, hT => by
    simp only [type_check_expression]
    cases env.lookup name with
    | none => exact ⟨_, rfl, Extends.report_at _ _ _, rfl⟩
    | some var_type =>
      obtain ⟨r, hr, hE, henv⟩ := type_check_expression_total fuel N cc hf rhs ct env hT
      simp only [hr]
      split
      · exact ⟨_, rfl, hE, henv⟩
      · obtain ⟨b, hb⟩ := is_subtype_isSome (hE.terminating hT) hf r.type var_type
        rw [hb]
        cases b with
        | false => exact ⟨_, rfl, hE.then_report_at _ _, henv⟩
        | true => exact ⟨_, rfl, hE, henv⟩
  | Expression.dispatch _ e name actuals, ct, env, hT => by
    simp only [type_check_expression]
    obtain ⟨r, hr, hE, henv⟩ := type_check_expression_total fuel N cc hf e ct env hT
    simp only [hr]
    obtain ⟨m, hm⟩ := find_method_isSome (hE.terminating hT) hf
      (if r.type = SELF_TYPE then cc else r.type) name
    rw [hm]
    cases m with
    | none => exact ⟨_, rfl, hE.then_report_at _ _, henv⟩
    | some method =>
      simp only
      split
      · exact ⟨_, rfl, hE.then_report_at _ _, henv⟩
      · obtain ⟨a, ha, hEa, henva⟩ := check_actuals_total fuel N cc hf actuals method.formals
          r.ct r.object_env (hE.terminating hT)
        simp only [ha]
        exact ⟨_, rfl, hE.trans hEa, henva.trans henv⟩
  | Expression.static_dispatch _ e static_type name actuals, ct, env, hT => by
    simp only [type_check_expression]
    obtain ⟨r, hr, hE, henv⟩ := type_check_expression_total fuel N cc hf e ct env hT
    simp only [hr]
    obtain ⟨b, hb⟩ := is_subtype_isSome (hE.terminating hT) hf r.type static_type
    simp only [hb]
    have hE1 : Extends ct (if b = true then r.ct
        else r.ct.report_at ErrorKind.static_dispatch_mismatch cc) :=
      hE.ite_report_at' _ _ _
    obtain ⟨m, hm⟩ := find_method_isSome (hE1.terminating hT) hf static_type name
    rw [hm]
    cases m with
    | none => exact ⟨_, rfl, hE1.then_report_at _ _, henv⟩
    | some method =>
      simp only
      split
      · exact ⟨_, rfl, hE1.then_report_at _ _, henv⟩
      · obtain ⟨a, ha, hEa, henva⟩ := check_actuals_total fuel N cc hf actuals method.formals
          _ r.object_env (hE1.terminating hT)
        simp only [ha]
        exact ⟨_, rfl, hE1.trans hEa, henva.trans henv⟩
  | Expression.cond _ pred then_exp else_exp, ct, env, hT => by
    simp only [type_check_expression]
    obtain ⟨rp, hrp, hEp, henvp⟩ := type_check_expression_total fuel N cc hf pred ct env hT
    simp only [hrp]
    have hE1 : Extends ct (if rp.type ≠ Bool_ then rp.ct.report_at ErrorKind.if_predicate cc
        else rp.ct) := hEp.ite_report_at _ _ _
    obtain ⟨rt, hrt, hEt, henvt⟩ := type_check_expression_total fuel N cc hf then_exp _
      rp.object_env (hE1.terminating hT)
    simp only [hrt]
    have hE2 := hE1.trans hEt
    obtain ⟨re, hre, hEe, henve⟩ := type_check_expression_total fuel N cc hf else_exp _
      rt.object_env (hE2.terminating hT)
    simp only [hre]
    have hE3 := hE2.trans hEe
    obtain ⟨t, ht⟩ := lub_isSome (hE3.terminating hT) hf rt.type re.type
    simp only [ht]
    exact ⟨_, rfl, hE3, henve.trans (henvt.trans henvp)⟩
  | Expression.loop _ pred body, ct, env, hT => by
    simp only [type_check_expression]
    obtain ⟨rp, hrp, hEp, henvp⟩ := type_check_expression_total fuel N cc hf pred ct env hT
    simp only [hrp]
    have hE1 : Extends ct (if rp.type ≠ Bool_ then rp.ct.report_at ErrorKind.loop_predicate cc
        else rp.ct) := hEp.ite_report_at _ _ _
    obtain ⟨rb, hrb, hEb, henvb⟩ := type_check_expression_total fuel N cc hf body _
      rp.object_env (hE1.terminating hT)
    simp only [hrb]
    exact ⟨_, rfl, hE1.trans hEb, henvb.trans henvp⟩
  | Expression.block _ body, ct, env, hT => by
    simp only [type_check_expression]
    obtain ⟨b, t, hb, hEb, henvb⟩ := check_block_total fuel N cc hf body ct env No_type hT
    simp only [hb]
    exact ⟨_, rfl, hEb, henvb⟩
  | Expression.let_ _ identifier type_decl init body, ct, env, hT => by
    simp only [type_check_expression]
    have hE1 : Extends ct
        (if (decide (type_decl ≠ SELF_TYPE) && (ct.class_table.lookup type_decl).isNone) = true
          then ct.report_at ErrorKind.let_undefined cc else ct) :=
      (Extends.refl ct).ite_report_at _ _ _
    cases init.get_type with
    | none =>
      simp only
      obtain ⟨rb, hrb, hEb, henvb⟩ := type_check_expression_total fuel N cc hf body _
        (env.enterscope.addid identifier
          (if (decide (type_decl ≠ SELF_TYPE) && (ct.class_table.lookup type_decl).isNone) = true
            then Object else type_decl)) (hE1.terminating hT)
      simp only [hrb]
      refine ⟨_, rfl, hE1.trans hEb, ?_⟩
      simp only [henvb]
      rfl
    | some _ =>
      simp only
      obtain ⟨ri, hri, hEi, henvi⟩ := type_check_expression_total fuel N cc hf init _
        env.enterscope (hE1.terminating hT)
      simp only [hri]
      have hE2 := hE1.trans hEi
      obtain ⟨b, hb⟩ := is_subtype_isSome (hE2.terminating hT) hf ri.type
        (if (decide (type_decl ≠ SELF_TYPE) && (ct.class_table.lookup type_decl).isNone) = true
          then Object else type_decl)
      simp only [hb]
      have hE3 : Extends ct (if b = true then ri.ct
          else ri.ct.report_at ErrorKind.let_init_mismatch cc) := hE2.ite_report_at' _ _ _
      obtain ⟨rb, hrb, hEb, henvb⟩ := type_check_expression_total fuel N cc hf body _
        (ri.object_env.addid identifier
          (if (decide (type_decl ≠ SELF_TYPE) && (ct.class_table.lookup type_decl).isNone) = true
            then Object else type_decl)) (hE3.terminating hT)
      simp only [hrb]
      refine ⟨_, rfl, hE3.trans hEb, ?_⟩
      simp only [henvb, henvi]
      rfl
  | Expression.plus _ e1 e2, ct, env, hT => by
    simp only [type_check_expression]
    obtain ⟨r1, h1, hE1, henv1⟩ := type_check_expression_total fuel N cc hf e1 ct env hT
    simp only [h1]
    obtain ⟨r2, h2, hE2, henv2⟩ := type_check_expression_total fuel N cc hf e2 r1.ct
      r1.object_env (hE1.terminating hT)
    simp only [h2]
    exact ⟨_, rfl, (hE1.trans hE2).ite_report_at _ _ _, henv2.trans henv1⟩
  | Expression.eq _ e1 e2, ct, env, hT => by
    simp only [type_check_expression]
    obtain ⟨r1, h1, hE1, henv1⟩ := type_check_expression_total fuel N cc hf e1 ct env hT
    simp only [h1]
    obtain ⟨r2, h2, hE2, henv2⟩ := type_check_expression_total fuel N cc hf e2 r1.ct
      r1.object_env (hE1.terminating hT)
    simp only [h2]
    exact ⟨_, rfl, (hE1.trans hE2).ite_report_at _ _ _, henv2.trans henv1⟩
  | Expression.new_ _ type_name, ct, env, _ => by
    simp only [type_check_expression]
    split
    · exact ⟨_, rfl, Extends.report_at _ _ _, rfl⟩
    · exact ⟨_, rfl, Extends.refl ct, rfl⟩
  | Expression.isvoid _ e1, ct, env, hT => by
    simp only [type_check_expression]
    obtain ⟨r1, h1, hE1, henv1⟩ := type_check_expression_total fuel N cc hf e1 ct env hT
    simp only [h1]
    exact ⟨_, rfl, hE1, henv1⟩

theorem check_actuals_total (fuel N : Nat) (cc : Symbol) (hf : N < fuel) :
    ∀ (actuals : List Expression) (formals : List Formal) (ct : ClassTable)
      (env : SymbolTable Symbol), Terminating ct.class_table N →
      ∃ a, check_actuals fuel cc ct env actuals formals = some a ∧ Extends ct a.ct ∧
        a.object_env = env
  | [], formals, ct, env, _ => by
    simp only [check_actuals]
    exact ⟨_, rfl, Extends.refl ct, rfl⟩
  | actual :: actuals, [], ct, env, _ => by
    simp only [check_actuals]
    exact ⟨_, rfl, Extends.refl ct, rfl⟩
  | actual :: actuals, formal :: formals, ct, env, hT => by
    simp only [check_actuals]
    obtain ⟨r, hr, hE, henv⟩ := type_check_expression_total fuel N cc hf actual ct env hT
    simp only [hr]
    obtain ⟨b, hb⟩ := is_subtype_isSome (hE.terminating hT) hf r.type formal.type_decl
    simp only [hb]
    have hE1 : Extends ct (if b = true then r.ct
        else r.ct.report_at ErrorKind.dispatch_argument cc) := hE.ite_report_at' _ _ _
    obtain ⟨a, ha, hEa, henva⟩ := check_actuals_total fuel N cc hf actuals formals _
      r.object_env (hE1.terminating hT)
    simp only [ha]
    exact ⟨_, rfl, hE1.trans hEa, henva.trans henv⟩

theorem check_block_total (fuel N : Nat) (cc : Symbol) (hf : N < fuel) :
    ∀ (body : List Expression) (ct : ClassTable) (env : SymbolTable Symbol) (t : Symbol),
      Terminating ct.class_table N →
      ∃ b t', check_block fuel cc ct env t body = some (b, t') ∧ Extends ct b.ct ∧
        b.object_env = env
  | [], ct, env, t, _ => by
    simp only [check_block]
    exact ⟨_, _, rfl, Extends.refl ct, rfl⟩
  | e :: body, ct, env, t, hT => by
    simp only [check_block]
    obtain ⟨r, hr, hE, henv⟩ := type_check_expression_total fuel N cc hf e ct env hT
    simp only [hr]
    obtain ⟨b, t', hb, hEb, henvb⟩ := check_block_total fuel N cc hf body r.ct
      r.object_env r.type (hE.terminating hT)
    simp only [hb]
    exact ⟨_, _, rfl, hE.trans hEb, henvb.trans henv⟩

end

/-! ## Method lookup on a validated registry -/

/-- C11: on a registry built without error, `find_method(C, m)` returns, and
returns the method named `m` declared in the nearest class on the chain of
parent links that starts at `C` itself; it returns not-found exactly when no
class on that chain declares a method named `m`, in particular when `C` is not
registered. -/
theorem find_method_nearest {fuel0 : Nat} {classes : List Class_} {ct : ClassTable}
    (hnew : ClassTable.new fuel0 classes = some ct) (h0 : ct.semant_errors = 0)
    (C m : Symbol) (fuel n : Nat) (hfuel : ct.size < fuel) (hn : ct.size ≤ n) :
    find_method fuel ct C m =
        some (nearest_method ct.class_table m (parent_chain ct.class_table n C)) ∧
      (find_method fuel ct C m = some none ↔
        ∀ x ∈ parent_chain ct.class_table n C, ∀ c, ct.class_table.lookup x = some c →
          ∀ f ∈ c.features, ∀ mm, f.as_method = some mm → mm.name ≠ m) ∧
      (∀ mm, find_method fuel ct C m = some (some mm) → mm.name = m) ∧
      (ct.class_table.lookup C = none → find_method fuel ct C m = some none) := by
  have hT := terminating_of_validated hnew h0
  have heq := find_method_eq hT hfuel hn C m
  have hnone : find_method fuel ct C m = some none ↔
      ∀ x ∈ parent_chain ct.class_table n C, ∀ c, ct.class_table.lookup x = some c →
        ∀ f ∈ c.features, ∀ mm, f.as_method = some mm → mm.name ≠ m := by
    rw [heq]
    simp only [Option.some.injEq, nearest_method, List.findSome?_eq_none_iff, declared_method]
    constructor
    · intro h x hx c hl
      have := h x hx
      rw [hl] at this
      exact find_method_in_eq_none.mp this
    · intro h x hx
      cases hl : ct.class_table.lookup x with
      | none => rfl
      | some c => exact find_method_in_eq_none.mpr (h x hx c hl)
  refine ⟨heq, hnone, ?_, ?_⟩
  · intro mm hmm
    rw [heq] at hmm
    simp only [Option.some.injEq, nearest_method] at hmm
    obtain ⟨x, _, hx⟩ := List.exists_of_findSome?_eq_some hmm
    unfold declared_method at hx
    cases hl : ct.class_table.lookup x with
    | none => simp [hl] at hx
    | some c =>
      simp only [hl, Option.some_bind] at hx
      exact (find_method_in_name hx).1
  · intro hl
    rw [hnone]
    intro x hx c hc
    have hxC : x = C := by
      cases n with
      | zero => simp [parent_chain] at hx
      | succ n =>
        unfold parent_chain at hx
        split at hx
        · simp at hx
        · simp only [hl, List.mem_singleton] at hx
          exact hx
    rw [hxC, hl] at hc
    cases hc

/-- Witness of C11 on `class A { foo() : SELF_TYPE { self } }`, `class B
inherits A`: `foo` is found from `B`, `bar` is not. -/
theorem find_method_nearest_witness :
    ∃ ct, ClassTable.new 8 [sample_A_foo, sample_B] = some ct ∧
      (find_method 8 ct "B" "foo").map (Option.map method_class.return_type) =
        some (some SELF_TYPE) ∧
      find_method 8 ct "B" "foo" =
        some (nearest_method ct.class_table "foo" (parent_chain ct.class_table 7 "B")) ∧
      (ct.class_table.lookup "Zorp" = none → find_method 8 ct "Zorp" "foo" = some none) :=
  ⟨_, rfl, by decide,
    (@find_method_nearest 8 [sample_A_foo, sample_B] _ rfl (by decide) "B" "foo" 8 7
      (by decide) (by decide)).1,
    (@find_method_nearest 8 [sample_A_foo, sample_B] _ rfl (by decide) "Zorp" "foo" 8 7
      (by decide) (by decide)).2.2.2⟩

/-! ## Dispatch -/

/-- C15: for a dynamic dispatch `x.m(a1, ..., an)` whose receiver check
returns and for which `find_method` finds no method `m` on the receiver's type
(`current_class` when that type is `SELF_TYPE`), `type_check_expression` adds
exactly one message, the undefined-method one, and types the call as `Object`,
whatever the arguments are: they are left untouched. -/
theorem dispatch_undefined_method (fuel : Nat) (cc : Symbol) (ct : ClassTable)
    (env : SymbolTable Symbol) (slot : Option Symbol) (e : Expression) (m : Symbol)
    (actuals : List Expression) (r : Typed)
    (hr : type_check_expression fuel cc ct env e = some r)
    (hm : find_method fuel r.ct (if r.type = SELF_TYPE then cc else r.type) m = some none) :
    ∃ res, type_check_expression fuel cc ct env (Expression.dispatch slot e m actuals) =
        some res ∧
      res.type = Object ∧
      res.expr = Expression.dispatch (some Object) r.expr m actuals ∧
      res.ct.error_stream = r.ct.error_stream ++ [⟨ErrorKind.dispatch_undefined, cc⟩] ∧
      res.ct.semant_errors = r.ct.semant_errors + 1 ∧
      (r.ct.semant_errors = ct.semant_errors → res.ct.semant_errors = ct.semant_errors + 1) := by
  simp only [type_check_expression, hr, hm]
  refine ⟨_, rfl, rfl, rfl, rfl, rfl, ?_⟩
  intro h
  simp [ClassTable.report_at, h]

/-- Witness of C15 on `1.bar(2, y)` with the built-in classes only. -/
theorem dispatch_undefined_method_witness :
    ∃ res, type_check_expression 6 "Main" (registry []) class_env sample_undefined_dispatch =
        some res ∧
      res.type = Object ∧ res.ct.semant_errors = (registry []).semant_errors + 1 := by
  obtain ⟨res, h1, h2, _, _, _, h6⟩ :=
    dispatch_undefined_method 6 "Main" (registry []) class_env none
      (Expression.int_const none "1") "bar"
      [Expression.int_const none "2", Expression.object none "y"] _ rfl rfl
  exact ⟨res, h1, h2, h6 rfl⟩

/-- C16: for a dynamic dispatch `e.m(args)` on a validated registry, when the
receiver check returns the type `T` and the method found has the declared
return type `R`, the check of the call returns and its type is `R` when `R` is
not `SELF_TYPE`, and `T` (the receiver's inferred type, concrete or
`SELF_TYPE`) when `R` is `SELF_TYPE`. -/
theorem dispatch_result_type {fuel0 : Nat} {classes : List Class_} {ct0 : ClassTable}
    (hnew : ClassTable.new fuel0 classes = some ct0) (h0 : ct0.semant_errors = 0)
    (ct : ClassTable) (htbl : ct.class_table = ct0.class_table)
    (fuel : Nat) (hfuel : ct0.size < fuel) (cc : Symbol)
    (env : SymbolTable Symbol) (slot : Option Symbol) (e : Expression) (m : Symbol)
    (actuals : List Expression) (r : Typed) (method : method_class)
    (hr : type_check_expression fuel cc ct env e = some r)
    (hm : find_method fuel r.ct (if r.type = SELF_TYPE then cc else r.type) m =
      some (some method)) :
    ∃ res, type_check_expression fuel cc ct env (Expression.dispatch slot e m actuals) =
        some res ∧
      res.type = (if method.return_type = SELF_TYPE then r.type else method.return_type) ∧
      res.expr.get_type = some res.type := by
  have hT : Terminating ct.class_table ct0.size := by
    rw [htbl]
    exact terminating_of_validated hnew h0
  obtain ⟨r', hr', hE, _⟩ := type_check_expression_total fuel ct0.size cc hfuel e ct env hT
  rw [hr] at hr'
  cases hr'
  have htype : (if method.return_type = SELF_TYPE then
        (if r.type = SELF_TYPE then SELF_TYPE else r.type)
      else method.return_type) =
      (if method.return_type = SELF_TYPE then r.type else method.return_type) := by
    by_cases h1 : method.return_type = SELF_TYPE
    · by_cases h2 : r.type = SELF_TYPE
      · simp [h1, h2]
      · simp [h1, h2]
    · simp [h1]
  simp only [type_check_expression, hr, hm]
  split
  · exact ⟨_, rfl, htype, rfl⟩
  · obtain ⟨a, ha, _, _⟩ := check_actuals_total fuel ct0.size cc hfuel actuals method.formals
      r.ct r.object_env (hE.terminating hT)
    simp only [ha]
    exact ⟨_, rfl, htype, rfl⟩

/-- Witness of C16: with `class A { foo() : SELF_TYPE { self } }` and `class B
inherits A`, the expression `(new B).foo()` types as `B`, without error. -/
theorem dispatch_result_type_witness :
    ∃ ct, ClassTable.new 8 [sample_A_foo, sample_B] = some ct ∧
      (∃ res, type_check_expression 8 "A" ct class_env sample_new_B_foo = some res ∧
        res.type = "B") ∧
      (type_check_expression 8 "A" ct class_env sample_new_B_foo).map
        (fun res => (res.type, res.ct.semant_errors)) = some ("B", 0) := by
  refine ⟨_, rfl, ?_, by decide⟩
  obtain ⟨res, h1, h2, _⟩ :=
    @dispatch_result_type 8 [sample_A_foo, sample_B] _ rfl (by decide) _ rfl 8 (by decide) "A"
      class_env none (Expression.new_ none "B") "foo" [] _ _ rfl rfl
  exact ⟨res, h1, h2⟩

/-- A method is only found from a registered class. -/
theorem find_method_registered {fuel : Nat} {ct : ClassTable} {C m : Symbol}
    {method : method_class} (h : find_method fuel ct C m = some (some method)) :
    (ct.class_table.lookup C).isSome = true := by
  unfold find_method at h
  cases fuel with
  | zero => simp [find_method_walk] at h
  | succ fuel =>
    unfold find_method_walk at h
    split at h
    · cases h
    · cases hl : ct.class_table.lookup C with
      | none => rw [hl] at h; cases h
      | some c => rfl

/-- C17: for a static dispatch `e@T.m(args)` on a validated registry whose
receiver check returns: the method is looked up with `find_method(T, m)`,
whatever the type of `e` is; the message about the receiver is added exactly
when `is_subtype(type(e), T)` is false, before anything else; the call types
as `Object` when no method is found, as `T` (which is then not `SELF_TYPE`)
when the method found declares `SELF_TYPE`, and as the declared return type
otherwise. -/
theorem static_dispatch_typing {fuel0 : Nat} {classes : List Class_} {ct0 : ClassTable}
    (hnew : ClassTable.new fuel0 classes = some ct0) (h0 : ct0.semant_errors = 0)
    (ct : ClassTable) (htbl : ct.class_table = ct0.class_table)
    (fuel : Nat) (hfuel : ct0.size < fuel) (cc : Symbol)
    (env : SymbolTable Symbol) (slot : Option Symbol) (e : Expression) (T m : Symbol)
    (actuals : List Expression) (r : Typed)
    (hr : type_check_expression fuel cc ct env e = some r) :
    ∃ conforms found res,
      is_subtype fuel r.ct r.type T = some conforms ∧
      find_method fuel r.ct T m = some found ∧
      (∀ method, found = some method → T ≠ SELF_TYPE) ∧
      type_check_expression fuel cc ct env (Expression.static_dispatch slot e T m actuals) =
        some res ∧
      (found = none → res.type = Object) ∧
      (∀ method, found = some method →
        res.type = (if method.return_type = SELF_TYPE then T else method.return_type)) ∧
      res.expr.get_type = some res.type ∧
      ∃ call_errs,
        res.ct.error_stream =
          r.ct.error_stream ++
            (if conforms then [] else [⟨ErrorKind.static_dispatch_mismatch, cc⟩]) ++
            call_errs ∧
        res.ct.semant_errors =
          r.ct.semant_errors + (if conforms then 0 else 1) + call_errs.length ∧
        (found = none → call_errs = [⟨ErrorKind.dispatch_undefined, cc⟩]) ∧
        (∀ method, found = some method → actuals.length ≠ method.formals.length →
          call_errs = [⟨ErrorKind.dispatch_arity, cc⟩]) := by
  have hT : Terminating ct.class_table ct0.size := by
    rw [htbl]
    exact terminating_of_validated hnew h0
  obtain ⟨r', hr', hE, _⟩ := type_check_expression_total fuel ct0.size cc hfuel e ct env hT
  rw [hr] at hr'
  cases hr'
  have hTr := hE.terminating hT
  obtain ⟨b, hb⟩ := is_subtype_isSome hTr hfuel r.type T
  obtain ⟨found, hfound⟩ := find_method_isSome hTr hfuel T m
  have hE1 : Extends r.ct (if b = true then r.ct
      else r.ct.report_at ErrorKind.static_dispatch_mismatch cc) :=
    (Extends.refl r.ct).ite_report_at' _ _ _
  have hfound1 : find_method fuel (if b = true then r.ct
      else r.ct.report_at ErrorKind.static_dispatch_mismatch cc) T m = some found := by
    unfold find_method at hfound ⊢
    rw [hE1.1]
    exact hfound
  have hstream : (if b = true then r.ct
      else r.ct.report_at ErrorKind.static_dispatch_mismatch cc).error_stream =
      r.ct.error_stream ++
        (if b = true then [] else [⟨ErrorKind.static_dispatch_mismatch, cc⟩]) := by
    cases b <;> simp [ClassTable.report_at]
  have hcount : (if b = true then r.ct
      else r.ct.report_at ErrorKind.static_dispatch_mismatch cc).semant_errors =
      r.ct.semant_errors + (if b = true then 0 else 1) := by
    cases b <;> simp [ClassTable.report_at]
  suffices key : ∃ res,
      type_check_expression fuel cc ct env (Expression.static_dispatch slot e T m actuals) =
        some res ∧
      (found = none → res.type = Object) ∧
      (∀ method, found = some method →
        res.type = (if method.return_type = SELF_TYPE then T else method.return_type)) ∧
      res.expr.get_type = some res.type ∧
      ∃ call_errs,
        res.ct.error_stream =
          r.ct.error_stream ++
            (if b = true then [] else [⟨ErrorKind.static_dispatch_mismatch, cc⟩]) ++
            call_errs ∧
        res.ct.semant_errors =
          r.ct.semant_errors + (if b = true then 0 else 1) + call_errs.length ∧
        (found = none → call_errs = [⟨ErrorKind.dispatch_undefined, cc⟩]) ∧
        (∀ method, found = some method → actuals.length ≠ method.formals.length →
          call_errs = [⟨ErrorKind.dispatch_arity, cc⟩]) by
    obtain ⟨res, h1, h2⟩ := key
    refine ⟨b, found, res, hb, hfound, ?_, h1, h2⟩
    intro method hmethod
    rw [hmethod] at hfound
    have hreg := find_method_registered hfound
    rw [hE.1, htbl] at hreg
    exact registered_ne_SELF_TYPE hnew hreg
  simp only [type_check_expression, hr, hb, hfound1]
  cases found with
  | none =>
    refine ⟨_, rfl, fun _ => rfl, (fun _ h => nomatch h), rfl,
      [⟨ErrorKind.dispatch_undefined, cc⟩], ?_, ?_, ?_, ?_⟩
    · cases b <;> simp [ClassTable.report_at]
    · cases b <;> simp [ClassTable.report_at]
    · intro _
      rfl
    · intro method h
      cases h
  | some method =>
    simp only
    split
    · rename_i hlen
      refine ⟨_, rfl, (fun h => nomatch h), (fun _ h => (Option.some.inj h) ▸ rfl), rfl,
        [⟨ErrorKind.dispatch_arity, cc⟩], ?_, ?_, ?_, ?_⟩
      · cases b <;> simp [ClassTable.report_at]
      · cases b <;> simp [ClassTable.report_at]
      · intro h
        cases h
      · intro _ _ _
        rfl
    · rename_i hlen
      obtain ⟨a, ha, hEa, _⟩ := check_actuals_total fuel ct0.size cc hfuel actuals
        method.formals _ r.object_env (hE1.terminating hTr)
      simp only [ha]
      obtain ⟨_, errs, hs, hn⟩ := hEa
      refine ⟨_, rfl, (fun h => nomatch h), (fun _ h => (Option.some.inj h) ▸ rfl), rfl, errs,
        ?_, ?_, ?_, ?_⟩
      · rw [hs, hstream]
      · rw [hn, hcount]
      · intro h
        cases h
      · intro method' h hne
        cases h
        exact absurd hne hlen

/-- Witness of C17: with `class A { foo() : SELF_TYPE { self } }` and `class B
inherits A`, `self@A.foo()` checked in class `B` types as `A`, not `SELF_TYPE`. -/
theorem static_dispatch_typing_witness :
    ∃ ct, ClassTable.new 8 [sample_A_foo, sample_B] = some ct ∧
      (∃ conforms found res,
        is_subtype 8 ct SELF_TYPE "A" = some conforms ∧
        find_method 8 ct "A" "foo" = some found ∧
        type_check_expression 8 "B" ct class_env sample_static_dispatch_self = some res ∧
        (∀ method, found = some method →
          res.type = (if method.return_type = SELF_TYPE then "A" else method.return_type))) ∧
      (type_check_expression 8 "B" ct class_env sample_static_dispatch_self).map
        (fun res => (res.type, res.ct.semant_errors)) = some ("A", 0) := by
  refine ⟨_, rfl, ?_, by decide⟩
  obtain ⟨conforms, found, res, h1, h2, _, h3, _, h4, _⟩ :=
    @static_dispatch_typing 8 [sample_A_foo, sample_B] _ rfl (by decide) _ rfl 8 (by decide) "B"
      class_env none (Expression.object none self) "A" "foo" [] _ rfl
  exact ⟨conforms, found, res, h1, h2, h3, h4⟩

/-! ## Conditional and let -/

/-- C18: for a conditional on a validated registry, the predicate, the
then-branch and the else-branch are all checked, in that order and whatever
the predicate's type; between the predicate and the branches exactly one
message is added when the predicate's type is not `Bool`, none otherwise; the
check returns `lub(t, e)` of the two branch types, which need not match. -/
theorem cond_typing {fuel0 : Nat} {classes : List Class_} {ct0 : ClassTable}
    (hnew : ClassTable.new fuel0 classes = some ct0) (h0 : ct0.semant_errors = 0)
    (ct : ClassTable) (htbl : ct.class_table = ct0.class_table)
    (fuel : Nat) (hfuel : ct0.size < fuel) (cc : Symbol)
    (env : SymbolTable Symbol) (slot : Option Symbol) (pred then_exp else_exp : Expression) :
    ∃ rp ct1 rt re T,
      type_check_expression fuel cc ct env pred = some rp ∧
      ct1 = (if rp.type = Bool_ then rp.ct
        else rp.ct.report_at ErrorKind.if_predicate cc) ∧
      ct1.semant_errors = rp.ct.semant_errors + (if rp.type = Bool_ then 0 else 1) ∧
      type_check_expression fuel cc ct1 rp.object_env then_exp = some rt ∧
      type_check_expression fuel cc rt.ct rt.object_env else_exp = some re ∧
      lub fuel re.ct rt.type re.type = some T ∧
      type_check_expression fuel cc ct env (Expression.cond slot pred then_exp else_exp) =
        some ⟨re.ct, re.object_env, Expression.cond (some T) rp.expr rt.expr re.expr, T⟩ := by
  have hT : Terminating ct.class_table ct0.size := by
    rw [htbl]
    exact terminating_of_validated hnew h0
  obtain ⟨rp, hrp, hEp, _⟩ := type_check_expression_total fuel ct0.size cc hfuel pred ct env hT
  have hite : (if rp.type ≠ Bool_ then rp.ct.report_at ErrorKind.if_predicate cc else rp.ct) =
      (if rp.type = Bool_ then rp.ct else rp.ct.report_at ErrorKind.if_predicate cc) := by
    by_cases h : rp.type = Bool_ <;> simp [h]
  have hE1 : Extends ct (if rp.type = Bool_ then rp.ct
      else rp.ct.report_at ErrorKind.if_predicate cc) := hEp.ite_report_at' _ _ _
  obtain ⟨rt, hrt, hEt, _⟩ := type_check_expression_total fuel ct0.size cc hfuel then_exp _
    rp.object_env (hE1.terminating hT)
  have hE2 := hE1.trans hEt
  obtain ⟨re, hre, hEe, _⟩ := type_check_expression_total fuel ct0.size cc hfuel else_exp _
    rt.object_env (hE2.terminating hT)
  obtain ⟨T, hlub⟩ := lub_isSome ((hE2.trans hEe).terminating hT) hfuel rt.type re.type
  refine ⟨rp, _, rt, re, T, hrp, rfl, ?_, hrt, hre, hlub, ?_⟩
  · by_cases h : rp.type = Bool_ <;> simp [h, ClassTable.report_at]
  · simp only [type_check_expression, hrp, hite, hrt, hre, hlub]

/-- Witness of C18: `if true then 1 else "s" fi` types as `Object` with zero
errors. -/
theorem cond_typing_witness :
    ∃ ct, ClassTable.new 6 [] = some ct ∧
      (∃ (rp : Typed) (ct1 : ClassTable) (rt re : Typed) (T : Symbol),
        type_check_expression 6 "Main" ct class_env (Expression.bool_const none true) =
          some rp ∧
        ct1.semant_errors = rp.ct.semant_errors + (if rp.type = Bool_ then 0 else 1) ∧
        lub 6 re.ct rt.type re.type = some T ∧
        type_check_expression 6 "Main" ct class_env sample_if =
          some ⟨re.ct, re.object_env, Expression.cond (some T) rp.expr rt.expr re.expr, T⟩) ∧
      (type_check_expression 6 "Main" ct class_env sample_if).map
        (fun res => (res.type, res.ct.semant_errors)) = some (Object, 0) := by
  refine ⟨_, rfl, ?_, by decide⟩
  obtain ⟨rp, ct1, rt, re, T, h1, _, h3, _, _, h6, h7⟩ :=
    @cond_typing 6 [] _ rfl (by decide) _ rfl 6 (by decide) "Main" class_env none
      (Expression.bool_const none true) (Expression.int_const none "1")
      (Expression.string_const none "s")
  exact ⟨rp, ct1, rt, re, T, h1, h3, h6, h7⟩

/-- C19, the code at the failing input: on the freshly parsed
`let x : Int <- true in x + 1` the initializer is not checked (its slot stays
unset) and no message is added; the let types as `Int`.  Once the slot of the
initializer is set, the same let adds the conformance message. -/
theorem let_fresh_initializer_unchecked :
    (type_check_expression 6 "Main" (registry []) class_env sample_let).map
        (fun res => (res.type, res.ct.semant_errors, res.ct.error_stream)) =
      some (Int_, 0, []) ∧
    (type_check_expression 6 "Main" (registry []) class_env sample_let).map
        (fun res =>
          match res.expr with
          | Expression.let_ _ _ _ init _ => init.get_type
          | _ => some No_type) = some none ∧
    (type_check_expression 6 "Main" (registry []) class_env
        (Expression.let_ none "x" Int_ (Expression.bool_const (some Bool_) true)
          (Expression.plus none (Expression.object none "x")
            (Expression.int_const none "1")))).map
        (fun res => (res.type, res.ct.error_stream)) =
      some (Int_, [⟨ErrorKind.let_init_mismatch, "Main"⟩]) := by
  refine ⟨by decide, by decide, by decide⟩

/-- C20, the code at failing inputs: visiting `not true` or `1 - 2` returns
`No_type` and leaves the slot of the node unset, without any message; and after
the freshly parsed `let x : Int <- 1 in x` is checked without any message, its
initializer still has an unset slot. -/
theorem annotation_incomplete :
    (type_check_expression 6 "Main" (registry []) class_env sample_not_true).map
        (fun res => (res.type, res.expr.get_type, res.ct.semant_errors)) =
      some (No_type, none, 0) ∧
    (type_check_expression 6 "Main" (registry []) class_env sample_one_minus_two).map
        (fun res => (res.type, res.expr.get_type, res.ct.semant_errors)) =
      some (No_type, none, 0) ∧
    (type_check_expression 6 "Main" (registry []) class_env sample_let_conforming).map
        (fun res =>
          (res.ct.semant_errors,
            match res.expr with
            | Expression.let_ _ _ _ init _ => init.get_type
            | _ => some No_type)) = some (0, none) := by
  refine ⟨by decide, by decide, by decide⟩

/-! ## The class checker -/

theorem find_method_congr {a b : ClassTable} (h : b.class_table = a.class_table) (fuel : Nat)
    (C m : Symbol) : find_method fuel b C m = find_method fuel a C m := by
  unfold find_method
  rw [h]

theorem formal_errors_append (tbl : SymbolTable Class_) (c : Class_) :
    ∀ (pre l : List Formal) (seen : List Symbol),
      formal_errors tbl c seen (pre ++ l) =
        formal_errors tbl c seen pre ++
          formal_errors tbl c ((pre.map Formal.name).reverse ++ seen) l
  | [], l, seen => by simp [formal_errors]
  | f :: pre, l, seen => by
    have ih := formal_errors_append tbl c pre l (f.name :: seen)
    show formal_errors tbl c seen (f :: (pre ++ l)) = _
    simp only [formal_errors, ih, List.map_cons, List.reverse_cons, List.append_assoc,
      List.singleton_append]

/-- The loop over the formals adds exactly the messages of `formal_errors`. -/
theorem check_formals_eq (c : Class_) :
    ∀ (formals : List Formal) (ct : ClassTable) (sc : List (Symbol × Symbol))
      (rest : List (List (Symbol × Symbol))) (seen : List Symbol),
      (∀ x, x ∈ sc.map Prod.fst ↔ x ∈ seen) →
      (check_formals c ct ⟨sc :: rest⟩ formals).1.class_table = ct.class_table ∧
      (check_formals c ct ⟨sc :: rest⟩ formals).1.error_stream =
        ct.error_stream ++ formal_errors ct.class_table c seen formals ∧
      (check_formals c ct ⟨sc :: rest⟩ formals).1.semant_errors =
        ct.semant_errors + (formal_errors ct.class_table c seen formals).length
  | [], ct, sc, rest, seen, _ => by simp [check_formals, formal_errors]
  | formal :: formals, ct, sc, rest, seen, hseen => by
    have hprobe : (SymbolTable.probe ⟨sc :: rest⟩ formal.name : Option Symbol) =
        SymbolTable.find_in_scope formal.name sc := rfl
    have hund : (decide (formal.type_decl ≠ SELF_TYPE) &&
        (ct.class_table.lookup formal.type_decl).isNone) = true ↔
        (formal.type_decl ≠ SELF_TYPE ∧ (ct.class_table.lookup formal.type_decl).isNone = true) := by
      simp
    simp only [check_formals, hprobe, formal_errors]
    by_cases hu : formal.type_decl ≠ SELF_TYPE ∧
        (ct.class_table.lookup formal.type_decl).isNone = true
    · have hu' := hund.mpr hu
      simp only [hu', if_true, if_pos hu]
      by_cases hm : formal.name ∈ seen
      · have hs : ∃ v, SymbolTable.find_in_scope formal.name sc = some v := by
          have := find_in_scope_isSome.mpr ((hseen formal.name).mpr hm)
          cases h : SymbolTable.find_in_scope formal.name sc with
          | none => rw [h] at this; cases this
          | some v => exact ⟨v, rfl⟩
        obtain ⟨v, hv⟩ := hs
        simp only [hv, if_pos hm]
        have ih := check_formals_eq c formals
          ((ct.report ErrorKind.formal_undefined c).report ErrorKind.formal_redefined c)
          sc rest (formal.name :: seen) (by
            intro x
            rw [hseen x, List.mem_cons]
            constructor
            · exact Or.inr
            · rintro (h | h)
              · exact h ▸ hm
              · exact h)
        obtain ⟨i1, i2, i3⟩ := ih
        refine ⟨i1, ?_, ?_⟩
        · rw [i2]
          simp [ClassTable.report]
        · rw [i3]
          simp [ClassTable.report]
          omega
      · have hv : SymbolTable.find_in_scope formal.name sc = none :=
          find_in_scope_eq_none.mpr (fun h => hm ((hseen formal.name).mp h))
        simp only [hv, if_neg hm]
        have ih := check_formals_eq c formals (ct.report ErrorKind.formal_undefined c)
          ((formal.name, Object) :: sc) rest (formal.name :: seen) (by
            intro x
            simp only [List.map_cons, List.mem_cons, hseen x])
        obtain ⟨i1, i2, i3⟩ := ih
        refine ⟨i1, ?_, ?_⟩
        · exact i2.trans (by simp [ClassTable.report])
        · exact i3.trans (by simp [ClassTable.report]; omega)
    · have hu' : ¬ (decide (formal.type_decl ≠ SELF_TYPE) &&
          (ct.class_table.lookup formal.type_decl).isNone) = true := fun h => hu (hund.mp h)
      simp only [hu', if_false, if_neg hu]
      by_cases hm : formal.name ∈ seen
      · have hs : ∃ v, SymbolTable.find_in_scope formal.name sc = some v := by
          have := find_in_scope_isSome.mpr ((hseen formal.name).mpr hm)
          cases h : SymbolTable.find_in_scope formal.name sc with
          | none => rw [h] at this; cases this
          | some v => exact ⟨v, rfl⟩
        obtain ⟨v, hv⟩ := hs
        simp only [hv, if_pos hm]
        have ih := check_formals_eq c formals (ct.report ErrorKind.formal_redefined c)
          sc rest (formal.name :: seen) (by
            intro x
            rw [hseen x, List.mem_cons]
            constructor
            · exact Or.inr
            · rintro (h | h)
              · exact h ▸ hm
              · exact h)
        obtain ⟨i1, i2, i3⟩ := ih
        refine ⟨i1, ?_, ?_⟩
        · exact i2.trans (by simp [ClassTable.report])
        · exact i3.trans (by simp [ClassTable.report]; omega)
      · have hv : SymbolTable.find_in_scope formal.name sc = none :=
          find_in_scope_eq_none.mpr (fun h => hm ((hseen formal.name).mp h))
        simp only [hv, if_neg hm]
        have ih := check_formals_eq c formals ct
          ((formal.name, formal.type_decl) :: sc) rest (formal.name :: seen) (by
            intro x
            simp only [List.map_cons, List.mem_cons, hseen x])
        obtain ⟨i1, i2, i3⟩ := ih
        refine ⟨i1, ?_, ?_⟩
        · exact i2.trans (by simp)
        · exact i3.trans (by simp)

theorem check_formals_extends (c : Class_) (formals : List Formal) (ct : ClassTable)
    (env : SymbolTable Symbol) :
    Extends ct (check_formals c ct env.enterscope formals).1 := by
  obtain ⟨h1, h2, h3⟩ := check_formals_eq c formals ct [] env.scopes [] (by simp)
  exact ⟨h1, _, h2, h3⟩

theorem check_override_formals_eq (c : Class_) :
    ∀ (formals parent_formals : List Formal) (ct : ClassTable),
      (check_override_formals c ct formals parent_formals).class_table = ct.class_table ∧
      (check_override_formals c ct formals parent_formals).error_stream =
        ct.error_stream ++
          ((formals.zip parent_formals).filter
            (fun p => decide (p.1.type_decl ≠ p.2.type_decl))).map
              (fun _ => (⟨ErrorKind.override_formal, c.name⟩ : SemantError)) ∧
      (check_override_formals c ct formals parent_formals).semant_errors =
        ct.semant_errors +
          (((formals.zip parent_formals).filter
            (fun p => decide (p.1.type_decl ≠ p.2.type_decl))).map
              (fun _ => (⟨ErrorKind.override_formal, c.name⟩ : SemantError))).length
  | [], pfs, ct => by simp [check_override_formals]
  | f :: fs, [], ct => by simp [check_override_formals]
  | f :: fs, pf :: pfs, ct => by
    simp only [check_override_formals]
    by_cases h : f.type_decl ≠ pf.type_decl
    · obtain ⟨i1, i2, i3⟩ := check_override_formals_eq c fs pfs
        (ct.report ErrorKind.override_formal c)
      simp only [if_pos h, List.zip_cons_cons]
      rw [List.filter_cons_of_pos (by simpa using h)]
      refine ⟨i1, ?_, ?_⟩
      · rw [i2]
        simp [ClassTable.report]
      · rw [i3]
        simp [ClassTable.report]
        omega
    · obtain ⟨i1, i2, i3⟩ := check_override_formals_eq c fs pfs ct
      simp only [if_neg h, List.zip_cons_cons]
      rw [List.filter_cons_of_neg (by simpa using h)]
      exact ⟨i1, i2, i3⟩

theorem zip_types_eq_iff :
    ∀ (l1 l2 : List Formal), l1.length = l2.length →
      ((∀ p ∈ l1.zip l2, p.1.type_decl = p.2.type_decl) ↔
        l1.map Formal.type_decl = l2.map Formal.type_decl)
  | [], [], _ => by simp
  | [], _ :: _, h => by simp at h
  | _ :: _, [], h => by simp at h
  | a :: l1, b :: l2, h => by
    have ih := zip_types_eq_iff l1 l2 (by simpa using h)
    simp only [List.zip_cons_cons, List.mem_cons, forall_eq_or_imp, List.map_cons,
      List.cons.injEq, ih]

theorem override_errors_nil_iff (c : Class_) (formals : List Formal) (return_type : Symbol)
    (pm : method_class) :
    override_errors c formals return_type pm = [] ↔
      (formals.length = pm.formals.length ∧
        formals.map Formal.type_decl = pm.formals.map Formal.type_decl ∧
        return_type = pm.return_type) := by
  unfold override_errors
  rw [List.append_eq_nil]
  by_cases hlen : pm.formals.length = formals.length
  · rw [if_neg (fun h => h hlen)]
    rw [List.map_eq_nil_iff, List.filter_eq_nil_iff]
    have hz := zip_types_eq_iff formals pm.formals hlen.symm
    constructor
    · rintro ⟨h1, h2⟩
      refine ⟨hlen.symm, hz.mp ?_, ?_⟩
      · intro p hp
        have := h1 p hp
        simpa using this
      · by_cases hr : return_type = pm.return_type
        · exact hr
        · rw [if_pos hr] at h2
          cases h2
    · rintro ⟨_, h2, h3⟩
      refine ⟨?_, ?_⟩
      · intro p hp
        have := hz.mpr h2 p hp
        simpa using this
      · rw [if_neg (fun h => h h3)]
  · rw [if_pos hlen]
    constructor
    · rintro ⟨h1, _⟩
      cases h1
    · rintro ⟨h1, _⟩
      exact absurd h1.symm hlen

theorem override_errors_kinds (c : Class_) (formals : List Formal) (return_type : Symbol)
    (pm : method_class) :
    ∀ e ∈ override_errors c formals return_type pm,
      e.kind = ErrorKind.override_arity ∨ e.kind = ErrorKind.override_formal ∨
        e.kind = ErrorKind.override_return := by
  intro e he
  unfold override_errors at he
  rw [List.mem_append] at he
  rcases he with he | he
  · split at he
    · simp only [List.mem_singleton] at he
      exact Or.inl (by rw [he])
    · simp only [List.mem_map] at he
      obtain ⟨_, _, h⟩ := he
      exact Or.inr (Or.inl (by rw [← h]))
  · split at he
    · simp only [List.mem_singleton] at he
      exact Or.inr (Or.inr (by rw [he]))
    · simp at he

/-- The override check against a method found in an ancestor adds exactly the
messages of `override_errors`. -/
theorem check_override_found {fuel : Nat} {c : Class_} {ct : ClassTable} {m : Symbol}
    {pm : method_class} (hp : c.parent ≠ No_class)
    (hfind : find_method fuel ct c.parent m = some (some pm))
    (formals : List Formal) (return_type : Symbol) :
    ∃ ct3, check_override fuel c ct m formals return_type = some ct3 ∧
      ct3.class_table = ct.class_table ∧
      ct3.error_stream = ct.error_stream ++ override_errors c formals return_type pm ∧
      ct3.semant_errors = ct.semant_errors + (override_errors c formals return_type pm).length := by
  unfold check_override
  rw [if_pos hp, hfind]
  simp only
  refine ⟨_, rfl, ?_⟩
  unfold override_errors
  obtain ⟨i1, i2, i3⟩ := check_override_formals_eq c formals pm.formals ct
  by_cases hlen : pm.formals.length ≠ formals.length
  · by_cases hr : return_type ≠ pm.return_type
    · simp only [if_pos hlen, if_pos hr]
      exact ⟨rfl, by simp [ClassTable.report], by simp [ClassTable.report]⟩
    · simp only [if_pos hlen, if_neg hr]
      exact ⟨rfl, by simp [ClassTable.report], by simp [ClassTable.report]⟩
  · by_cases hr : return_type ≠ pm.return_type
    · simp only [if_neg hlen, if_pos hr]
      refine ⟨i1, ?_, ?_⟩
      · simp only [ClassTable.report, i2, List.append_assoc]
      · simp only [ClassTable.report, i3, List.length_append, List.length_singleton]
        omega
    · simp only [if_neg hlen, if_neg hr]
      refine ⟨i1, ?_, ?_⟩
      · simp only [i2, List.append_nil]
      · simp only [i3, List.append_nil]

/-- The override check returns on a registry whose walks terminate, and adds
messages of the three override kinds only. -/
theorem check_override_total {fuel N : Nat} (c : Class_) {ct : ClassTable}
    (hT : Terminating ct.class_table N) (hf : N < fuel) (m : Symbol)
    (formals : List Formal) (return_type : Symbol) :
    ∃ ct3 ov, check_override fuel c ct m formals return_type = some ct3 ∧
      ct3.class_table = ct.class_table ∧
      ct3.error_stream = ct.error_stream ++ ov ∧
      ct3.semant_errors = ct.semant_errors + ov.length ∧
      ∀ e ∈ ov, e.kind = ErrorKind.override_arity ∨ e.kind = ErrorKind.override_formal ∨
        e.kind = ErrorKind.override_return := by
  by_cases hp : c.parent ≠ No_class
  · obtain ⟨found, hfound⟩ := find_method_isSome hT hf c.parent m
    cases found with
    | none =>
      refine ⟨ct, [], ?_, rfl, by simp, by simp, by simp⟩
      unfold check_override
      rw [if_pos hp, hfound]
    | some pm =>
      obtain ⟨ct3, h1, h2, h3, h4⟩ := check_override_found hp hfound formals return_type
      exact ⟨ct3, _, h1, h2, h3, h4, override_errors_kinds c formals return_type pm⟩
  · refine ⟨ct, [], ?_, rfl, by simp, by simp, by simp⟩
    unfold check_override
    rw [if_neg hp]

/-- The method branch when the declared return type is `SELF_TYPE` or
registered: formals, body, return test, override check. -/
theorem check_method_defined {fuel : Nat} {c : Class_} {ct : ClassTable}
    {env : SymbolTable Symbol} {m : method_class}
    (hdef : m.return_type = SELF_TYPE ∨ (ct.class_table.lookup m.return_type).isSome = true) :
    check_method fuel c ct env m =
      (match type_check_expression fuel c.name
          (check_formals c ct env.enterscope m.formals).1
          (check_formals c ct env.enterscope m.formals).2 m.expr with
        | none => none
        | some r =>
          match check_return fuel c r.ct m.return_type r.type with
          | none => none
          | some ct2 =>
            match check_override fuel c ct2 m.name m.formals m.return_type with
            | none => none
            | some ct3 =>
              some (ct3, r.object_env.exitscope,
                Feature.method m.name m.formals m.return_type r.expr)) := by
  have hund : (decide (m.return_type ≠ SELF_TYPE) &&
      (ct.class_table.lookup m.return_type).isNone) = false := by
    rcases hdef with h | h
    · simp [h]
    · cases hl : ct.class_table.lookup m.return_type with
      | none => rw [hl] at h; cases h
      | some _ => simp
  unfold check_method
  simp only [hund, Bool.false_eq_true, if_false]

/-- On a registry whose walks terminate the return test returns and only adds
messages. -/
theorem check_return_total {fuel N : Nat} (c : Class_) {ct : ClassTable}
    (hT : Terminating ct.class_table N) (hf : N < fuel) (return_type expr_type : Symbol) :
    ∃ ct2, check_return fuel c ct return_type expr_type = some ct2 ∧ Extends ct ct2 := by
  unfold check_return
  split
  · split
    · exact ⟨_, rfl, Extends.of_report _ _ _⟩
    · exact ⟨_, rfl, Extends.refl _⟩
  · obtain ⟨b, hb⟩ := is_subtype_isSome hT hf expr_type return_type
    rw [hb]
    cases b with
    | false => exact ⟨_, rfl, Extends.of_report _ _ _⟩
    | true => exact ⟨_, rfl, Extends.refl _⟩

/-- C12: for a method `m` of a class with a parent, on a validated registry,
when the declared return type is `SELF_TYPE` or registered and
`find_method(parent, m)` finds a definition `pm`, the method branch of
`type_check_class` returns and the messages it adds after the return test are
those of the override check: none if and only if the formal counts are equal,
the declared formal types are identical position by position and the declared
return types are identical; a changed formal count, formal type or return type
is each flagged. -/
theorem override_check_iff {fuel0 : Nat} {classes : List Class_} {ct0 : ClassTable}
    (hnew : ClassTable.new fuel0 classes = some ct0) (h0 : ct0.semant_errors = 0)
    (ct : ClassTable) (htbl : ct.class_table = ct0.class_table)
    (fuel : Nat) (hfuel : ct0.size < fuel) (c : Class_) (env : SymbolTable Symbol)
    (m pm : method_class) (hp : c.parent ≠ No_class)
    (hdef : m.return_type = SELF_TYPE ∨ (ct.class_table.lookup m.return_type).isSome = true)
    (hfind : find_method fuel ct c.parent m.name = some (some pm)) :
    ∃ r ct2 ct3,
      type_check_expression fuel c.name (check_formals c ct env.enterscope m.formals).1
        (check_formals c ct env.enterscope m.formals).2 m.expr = some r ∧
      check_return fuel c r.ct m.return_type r.type = some ct2 ∧
      check_method fuel c ct env m =
        some (ct3, r.object_env.exitscope,
          Feature.method m.name m.formals m.return_type r.expr) ∧
      ct3.error_stream = ct2.error_stream ++ override_errors c m.formals m.return_type pm ∧
      ct3.semant_errors =
        ct2.semant_errors + (override_errors c m.formals m.return_type pm).length ∧
      (override_errors c m.formals m.return_type pm = [] ↔
        (m.formals.length = pm.formals.length ∧
          m.formals.map Formal.type_decl = pm.formals.map Formal.type_decl ∧
          m.return_type = pm.return_type)) ∧
      (m.formals.length ≠ pm.formals.length →
        ⟨ErrorKind.override_arity, c.name⟩ ∈ override_errors c m.formals m.return_type pm) ∧
      (m.formals.length = pm.formals.length →
        m.formals.map Formal.type_decl ≠ pm.formals.map Formal.type_decl →
        ⟨ErrorKind.override_formal, c.name⟩ ∈ override_errors c m.formals m.return_type pm) ∧
      (m.return_type ≠ pm.return_type →
        ⟨ErrorKind.override_return, c.name⟩ ∈ override_errors c m.formals m.return_type pm) := by
  have hT : Terminating ct.class_table ct0.size := by
    rw [htbl]
    exact terminating_of_validated hnew h0
  have hEf := check_formals_extends c m.formals ct env
  obtain ⟨r, hr, hEr, _⟩ := type_check_expression_total fuel ct0.size c.name hfuel m.expr
    (check_formals c ct env.enterscope m.formals).1
    (check_formals c ct env.enterscope m.formals).2 (hEf.terminating hT)
  have hE1 := hEf.trans hEr
  obtain ⟨ct2, hret, hE2⟩ := check_return_total c (hE1.terminating hT) hfuel m.return_type r.type
  have hE3 := hE1.trans hE2
  have hfind2 : find_method fuel ct2 c.parent m.name = some (some pm) := by
    rw [find_method_congr hE3.1]
    exact hfind
  obtain ⟨ct3, hov, _, hs, hn⟩ := check_override_found hp hfind2 m.formals m.return_type
  refine ⟨r, ct2, ct3, hr, hret, ?_, hs, hn, override_errors_nil_iff c _ _ pm, ?_, ?_, ?_⟩
  · rw [check_method_defined hdef]
    simp only [hr, hret, hov]
  · intro hlen
    unfold override_errors
    rw [if_pos (fun h => hlen h.symm)]
    simp
  · intro hlen htypes
    unfold override_errors
    rw [if_neg (fun h => h hlen.symm)]
    have hz := zip_types_eq_iff m.formals pm.formals hlen
    have hex : ∃ p ∈ m.formals.zip pm.formals, p.1.type_decl ≠ p.2.type_decl := by
      by_contra hcon
      apply htypes
      apply hz.mp
      intro p hp
      by_contra hne
      exact hcon ⟨p, hp, hne⟩
    obtain ⟨p, hp1, hp2⟩ := hex
    rw [List.mem_append]
    left
    rw [List.mem_map]
    exact ⟨p, List.mem_filter.mpr ⟨hp1, by simpa using hp2⟩, rfl⟩
  · intro hrt
    unfold override_errors
    rw [List.mem_append]
    right
    rw [if_pos hrt]
    exact List.mem_singleton_self _

/-- Witness of C12 in `class B inherits A`, `A` declaring `foo() : SELF_TYPE`:
redefining `foo` with one formal is flagged for the formal count, and
redefining it with the return type `Object` is flagged for the return type. -/
theorem override_check_iff_witness :
    ∃ ct, ClassTable.new 8 [sample_A_foo, sample_B] = some ct ∧
      ⟨ErrorKind.override_arity, "B"⟩ ∈
        override_errors sample_B sample_foo_one_formal.formals SELF_TYPE sample_foo_self ∧
      ⟨ErrorKind.override_return, "B"⟩ ∈
        override_errors sample_B sample_foo_Object.formals Object sample_foo_self ∧
      (check_method 8 sample_B ct class_env sample_foo_one_formal).map
          (fun res => res.1.error_stream) = some [⟨ErrorKind.override_arity, "B"⟩] ∧
      (check_method 8 sample_B ct class_env sample_foo_Object).map
          (fun res => res.1.error_stream) = some [⟨ErrorKind.override_return, "B"⟩] ∧
      (check_method 8 sample_B ct class_env sample_foo_self).map
          (fun res => res.1.error_stream) = some [] := by
  refine ⟨_, rfl, ?_, ?_, by decide, by decide, by decide⟩
  · obtain ⟨_, _, _, _, _, _, _, _, _, h, _⟩ :=
      @override_check_iff 8 [sample_A_foo, sample_B] _ rfl (by decide) _ rfl 8 (by decide)
        sample_B class_env sample_foo_one_formal sample_foo_self (by decide)
        (Or.inl rfl) rfl
    exact h (by decide)
  · obtain ⟨_, _, _, _, _, _, _, _, _, _, _, h⟩ :=
      @override_check_iff 8 [sample_A_foo, sample_B] _ rfl (by decide) _ rfl 8 (by decide)
        sample_B class_env sample_foo_Object sample_foo_self (by decide)
        (Or.inr (by decide)) rfl
    exact h (by decide)

/-- C13: for a method whose declared return type is `SELF_TYPE`, on a validated
registry, the method branch of `type_check_class` returns, and between the
messages of the body and those of the override check it adds the
return-conformance message if and only if the type inferred for the body is
not `SELF_TYPE` itself. -/
theorem return_SELF_TYPE_exact {fuel0 : Nat} {classes : List Class_} {ct0 : ClassTable}
    (hnew : ClassTable.new fuel0 classes = some ct0) (h0 : ct0.semant_errors = 0)
    (ct : ClassTable) (htbl : ct.class_table = ct0.class_table)
    (fuel : Nat) (hfuel : ct0.size < fuel) (c : Class_) (env : SymbolTable Symbol)
    (m : method_class) (hrt : m.return_type = SELF_TYPE) :
    ∃ r ct3 ov,
      type_check_expression fuel c.name (check_formals c ct env.enterscope m.formals).1
        (check_formals c ct env.enterscope m.formals).2 m.expr = some r ∧
      check_method fuel c ct env m =
        some (ct3, r.object_env.exitscope,
          Feature.method m.name m.formals m.return_type r.expr) ∧
      ct3.error_stream =
        r.ct.error_stream ++
          (if r.type = SELF_TYPE then [] else [⟨ErrorKind.return_mismatch, c.name⟩]) ++ ov ∧
      ct3.semant_errors =
        r.ct.semant_errors + (if r.type = SELF_TYPE then 0 else 1) + ov.length ∧
      (∀ e ∈ ov, e.kind = ErrorKind.override_arity ∨ e.kind = ErrorKind.override_formal ∨
        e.kind = ErrorKind.override_return) := by
  have hT : Terminating ct.class_table ct0.size := by
    rw [htbl]
    exact terminating_of_validated hnew h0
  have hEf := check_formals_extends c m.formals ct env
  obtain ⟨r, hr, hEr, _⟩ := type_check_expression_total fuel ct0.size c.name hfuel m.expr
    (check_formals c ct env.enterscope m.formals).1
    (check_formals c ct env.enterscope m.formals).2 (hEf.terminating hT)
  have hE1 := hEf.trans hEr
  have hret : check_return fuel c r.ct m.return_type r.type =
      some (if r.type = SELF_TYPE then r.ct else r.ct.report ErrorKind.return_mismatch c) := by
    unfold check_return
    rw [if_pos hrt]
    by_cases h : r.type = SELF_TYPE <;> simp [h]
  have hE2 : Extends r.ct
      (if r.type = SELF_TYPE then r.ct else r.ct.report ErrorKind.return_mismatch c) := by
    split
    · exact Extends.refl _
    · exact Extends.of_report _ _ _
  obtain ⟨ct3, ov, hov, _, hs, hn, hk⟩ := check_override_total c
    ((hE1.trans hE2).terminating hT) hfuel m.name m.formals m.return_type
  refine ⟨r, ct3, ov, hr, ?_, ?_, ?_, hk⟩
  · rw [check_method_defined (Or.inl hrt)]
    simp only [hr, hret, hov]
  · rw [hs]
    by_cases h : r.type = SELF_TYPE <;> simp [h, ClassTable.report]
  · rw [hn]
    by_cases h : r.type = SELF_TYPE <;> simp [h, ClassTable.report]

/-- Witness of C13 in class `A`: `foo() : SELF_TYPE { self }` is accepted,
`foo() : SELF_TYPE { new A }` is flagged. -/
theorem return_SELF_TYPE_exact_witness :
    ∃ ct, ClassTable.new 8 [sample_A_foo, sample_B] = some ct ∧
      (∃ (r : Typed) (ct3 : ClassTable) (ov : List SemantError),
        check_method 8 sample_A_foo ct class_env sample_foo_new_A =
          some (ct3, r.object_env.exitscope,
            Feature.method sample_foo_new_A.name sample_foo_new_A.formals
              sample_foo_new_A.return_type r.expr) ∧
        ct3.error_stream =
          r.ct.error_stream ++
            (if r.type = SELF_TYPE then [] else [⟨ErrorKind.return_mismatch, "A"⟩]) ++ ov) ∧
      (check_method 8 sample_A_foo ct class_env sample_foo_new_A).map
          (fun res => res.1.error_stream) = some [⟨ErrorKind.return_mismatch, "A"⟩] ∧
      (check_method 8 sample_A_foo ct class_env sample_foo_self).map
          (fun res => res.1.error_stream) = some [] := by
  refine ⟨_, rfl, ?_, by decide, by decide⟩
  obtain ⟨r, ct3, ov, _, h2, h3, _⟩ :=
    @return_SELF_TYPE_exact 8 [sample_A_foo, sample_B] _ rfl (by decide) _ rfl 8 (by decide)
      sample_A_foo class_env sample_foo_new_A rfl
  exact ⟨r, ct3, ov, h2, h3⟩

/-- C14 (amended): the loop of `type_check_class` over the formals of a method
reports nothing for a formal on account of the declared type `SELF_TYPE`; it
reports one error for every formal whose declared type is neither `SELF_TYPE`
nor registered, and one for every formal whose name duplicates an earlier
formal of the same method, and nothing else. -/
theorem formals_checked (c : Class_) (ct : ClassTable) (env : SymbolTable Symbol)
    (formals : List Formal) :
    (check_formals c ct env.enterscope formals).1.error_stream =
        ct.error_stream ++ formal_errors ct.class_table c [] formals ∧
      (check_formals c ct env.enterscope formals).1.semant_errors =
        ct.semant_errors + (formal_errors ct.class_table c [] formals).length ∧
      ∀ pre f post, formals = pre ++ f :: post →
        ∃ before after,
          formal_errors ct.class_table c [] formals =
            before ++
              (if f.type_decl ≠ SELF_TYPE ∧ (ct.class_table.lookup f.type_decl).isNone then
                [⟨ErrorKind.formal_undefined, c.name⟩]
              else []) ++
              (if f.name ∈ pre.map Formal.name then [⟨ErrorKind.formal_redefined, c.name⟩]
              else []) ++
              after ∧
          (f.type_decl = SELF_TYPE →
            formal_errors ct.class_table c [] formals =
              before ++
                (if f.name ∈ pre.map Formal.name then [⟨ErrorKind.formal_redefined, c.name⟩]
                else []) ++
                after) := by
  obtain ⟨_, h2, h3⟩ := check_formals_eq c formals ct [] env.scopes [] (by simp)
  refine ⟨h2, h3, ?_⟩
  intro pre f post hsplit
  refine ⟨formal_errors ct.class_table c [] pre,
    formal_errors ct.class_table c (f.name :: ((pre.map Formal.name).reverse ++ [])) post, ?_, ?_⟩
  · rw [hsplit, formal_errors_append]
    simp only [formal_errors, List.append_nil, List.mem_reverse, List.append_assoc]
  · intro hself
    rw [hsplit, formal_errors_append]
    simp [formal_errors, hself]

/-- Witness of C14 on `foo(x : SELF_TYPE, x : Int)`: one message, for the
duplicate name. -/
theorem formals_checked_witness :
    (check_formals sample_C_formals (registry []) class_env.enterscope
        [⟨"x", SELF_TYPE⟩, ⟨"x", Int_⟩]).1.error_stream =
      (registry []).error_stream ++ [⟨ErrorKind.formal_redefined, "C"⟩] :=
  (formals_checked sample_C_formals (registry []) class_env
    [⟨"x", SELF_TYPE⟩, ⟨"x", Int_⟩]).1.trans (by decide)

/-- C14 fails as stated: `class C { foo(x : SELF_TYPE) : Object { x }; }` is
checked by `type_check_class` without any error. -/
theorem SELF_TYPE_formal_counterexample :
    ∃ ct, ClassTable.new 8 [sample_C_self_formal] = some ct ∧ ct.semant_errors = 0 ∧
      (type_check_class 8 ct sample_C_self_formal).map
        (fun res => (res.1.semant_errors, res.1.error_stream)) = some (0, []) :=
  ⟨_, rfl, by decide, by decide⟩

/-! ## The type-checking pass over the built-in classes -/

/-- C21, the code at the failing input: on the registry of the empty user
program, built without error, `type_check` returns an error count of 13, every
message being about a built-in class: one return-conformance message for each
of the ten built-in methods, whose empty body is checked and found of type
`No_type`, and one undefined-type message for each of the three attributes
declared with the type `prim_slot`.  For the program `class A { }` the same 13
messages are reported and none is about `A`. -/
theorem type_check_builtins_reported :
    (∃ ct, ClassTable.new 6 [] = some ct ∧ ct.semant_errors = 0 ∧
      (type_check 6 ct).map (fun res => (res.1.semant_errors, res.1.error_stream)) =
        some (13,
          [⟨ErrorKind.attr_undefined, String_⟩, ⟨ErrorKind.return_mismatch, String_⟩,
           ⟨ErrorKind.return_mismatch, String_⟩, ⟨ErrorKind.return_mismatch, String_⟩,
           ⟨ErrorKind.attr_undefined, Bool_⟩, ⟨ErrorKind.attr_undefined, Int_⟩,
           ⟨ErrorKind.return_mismatch, IO_⟩, ⟨ErrorKind.return_mismatch, IO_⟩,
           ⟨ErrorKind.return_mismatch, IO_⟩, ⟨ErrorKind.return_mismatch, IO_⟩,
           ⟨ErrorKind.return_mismatch, Object⟩, ⟨ErrorKind.return_mismatch, Object⟩,
           ⟨ErrorKind.return_mismatch, Object⟩])) ∧
    (type_check_expression 6 Object (registry []) class_env.enterscope
        (Expression.no_expr none)).map (fun res => (res.type, res.ct.semant_errors)) =
      some (No_type, 0) ∧
    is_subtype 6 (registry []) No_type Object = some false ∧
    (∃ ct, ClassTable.new 8 [sample_A] = some ct ∧ ct.semant_errors = 0 ∧
      (type_check 8 ct).map
          (fun res => (res.1.semant_errors,
            (res.1.error_stream.filter (fun e => decide (e.class_name = "A"))).length)) =
        some (13, 0)) :=
  ⟨⟨_, rfl, by decide, by decide⟩, by decide, by decide, ⟨_, rfl, by decide, by decide⟩⟩

/-! ## Equality comparison -/

/-- C22, the code at the failing input: `new Object = 1` compares the types
`Object` and `Int`, one of which is `Int`, and no message is added, because
only the type of the left operand is tested for being `Int`, `String` or
`Bool`; the mirrored `1 = new Object` adds the message.  Both have the type
`Bool`. -/
theorem eq_right_operand_unchecked :
    (type_check_expression 6 "Main" (registry []) class_env sample_eq_Object_Int).map
        (fun res => (res.type, res.ct.semant_errors, res.ct.error_stream)) =
      some (Bool_, 0, []) ∧
    (type_check_expression 6 "Main" (registry []) class_env sample_eq_Int_Object).map
        (fun res => (res.type, res.ct.semant_errors, res.ct.error_stream)) =
      some (Bool_, 1, [⟨ErrorKind.eq_basic, "Main"⟩]) ∧
    (type_check_expression 6 "Main" (registry []) class_env
        (Expression.new_ none Object)).map Typed.type = some Object ∧
    (type_check_expression 6 "Main" (registry []) class_env
        (Expression.int_const none "1")).map Typed.type = some Int_ := by
  refine ⟨by decide, by decide, by decide, by decide⟩

/-! ## Attribute initializers -/

/-- C24, the code at the failing input: `type_check_class` on the freshly parsed
`class A { x : Int <- true; }` adds no message and leaves the initializer
unvisited, its slot unset; once the slot of the initializer is set, the same
class gets the conformance message. -/
theorem attr_fresh_initializer_unchecked :
    (∃ ct, ClassTable.new 8 [sample_A_attr] = some ct ∧ ct.semant_errors = 0 ∧
      (type_check_class 8 ct sample_A_attr).map
          (fun res => (res.1.semant_errors, res.1.error_stream)) = some (0, []) ∧
      (type_check_class 8 ct sample_A_attr).map
          (fun res => res.2.features.map (fun f =>
            match f with
            | Feature.attr _ _ init => init.get_type
            | Feature.method _ _ _ _ => some No_type)) = some [none]) ∧
    (∃ ct, ClassTable.new 8 [sample_A_attr_slot_set] = some ct ∧ ct.semant_errors = 0 ∧
      (type_check_class 8 ct sample_A_attr_slot_set).map
          (fun res => (res.1.semant_errors, res.1.error_stream)) =
        some (1, [⟨ErrorKind.attr_init_mismatch, "A"⟩])) ∧
    (check_attr 8 sample_A_attr (registry [sample_A_attr]) class_env "x" Int_
        (Expression.bool_const none true)).map (fun res => res.2.1.lookup "x") =
      some (some Int_) :=
  ⟨⟨_, rfl, by decide, by decide, by decide⟩, ⟨_, rfl, by decide, by decide⟩, by decide⟩

/-! ## Assignment -/

/-- C25: for an assignment `x <- e` on a validated registry.  When `x` is bound
to the type `T` in the environment, the right-hand side is checked, the check of
the assignment returns the type `T` whether or not the type of `e` conforms, and
the assignment itself adds exactly one message when `is_subtype(type(e), T)` is
false and none otherwise.  When `x` is not bound, exactly one message is added,
the type is `Object`, and the right-hand side is left as it is. -/
theorem assign_typing {fuel0 : Nat} {classes : List Class_} {ct0 : ClassTable}
    (hnew : ClassTable.new fuel0 classes = some ct0) (h0 : ct0.semant_errors = 0)
    (ct : ClassTable) (htbl : ct.class_table = ct0.class_table)
    (fuel : Nat) (hfuel : ct0.size < fuel) (cc : Symbol)
    (env : SymbolTable Symbol) (slot : Option Symbol) (x : Symbol) (e : Expression) :
    (∀ T, env.lookup x = some T →
      ∃ r conforms res,
        type_check_expression fuel cc ct env e = some r ∧
        is_subtype fuel r.ct r.type T = some conforms ∧
        type_check_expression fuel cc ct env (Expression.assign slot x e) = some res ∧
        res.type = T ∧
        res.expr = Expression.assign (some T) x r.expr ∧
        res.ct.error_stream =
          r.ct.error_stream ++
            (if conforms then [] else [⟨ErrorKind.assign_mismatch, cc⟩]) ∧
        res.ct.semant_errors = r.ct.semant_errors + (if conforms then 0 else 1)) ∧
    (env.lookup x = none →
      ∃ res,
        type_check_expression fuel cc ct env (Expression.assign slot x e) = some res ∧
        res.type = Object ∧
        res.expr = Expression.assign (some Object) x e ∧
        res.ct.error_stream = ct.error_stream ++ [⟨ErrorKind.assign_undeclared, cc⟩] ∧
        res.ct.semant_errors = ct.semant_errors + 1) := by
  have hT : Terminating ct.class_table ct0.size := by
    rw [htbl]
    exact terminating_of_validated hnew h0
  constructor
  · intro T hx
    obtain ⟨r, hr, hE, _⟩ := type_check_expression_total fuel ct0.size cc hfuel e ct env hT
    obtain ⟨b, hb⟩ := is_subtype_isSome (hE.terminating hT) hfuel r.type T
    suffices key : ∃ res,
        type_check_expression fuel cc ct env (Expression.assign slot x e) = some res ∧
        res.type = T ∧
        res.expr = Expression.assign (some T) x r.expr ∧
        res.ct.error_stream =
          r.ct.error_stream ++ (if b then [] else [⟨ErrorKind.assign_mismatch, cc⟩]) ∧
        res.ct.semant_errors = r.ct.semant_errors + (if b then 0 else 1) by
      obtain ⟨res, k⟩ := key
      exact ⟨r, b, res, hr, hb, k⟩
    simp only [type_check_expression, hx, hr]
    by_cases hself : r.type = SELF_TYPE ∧ T = SELF_TYPE
    · have hb' : b = true := by
        have hsub : is_subtype fuel r.ct r.type T = some true := by
          simp [is_subtype, hself.1, hself.2]
        rw [hb] at hsub
        exact Option.some.inj hsub
      subst hb'
      rw [if_pos hself]
      refine ⟨_, rfl, hself.1.trans hself.2.symm, ?_, ?_, ?_⟩
      · simp [hself.1, hself.2]
      · simp
      · simp
    · rw [if_neg hself, hb]
      cases b with
      | false => exact ⟨_, rfl, rfl, rfl, by simp [ClassTable.report_at],
          by simp [ClassTable.report_at]⟩
      | true => exact ⟨_, rfl, rfl, rfl, by simp, by simp⟩
  · intro hx
    simp only [type_check_expression, hx]
    exact ⟨_, rfl, rfl, rfl, rfl, rfl⟩

/-- Witness of C25 with `x : Int` bound: `x <- true` has the type `Int` and adds
one message; `y <- z`, with `y` unbound, has the type `Object` and adds one
message, none for `z`. -/
theorem assign_typing_witness :
    ∃ ct, ClassTable.new 6 [] = some ct ∧
      (∃ (r : Typed) (conforms : Bool) (res : Typed),
        is_subtype 6 r.ct r.type Int_ = some conforms ∧
        type_check_expression 6 "Main" ct sample_env_x_Int sample_assign_true = some res ∧
        res.type = Int_ ∧
        res.ct.semant_errors = r.ct.semant_errors + (if conforms then 0 else 1)) ∧
      (type_check_expression 6 "Main" ct sample_env_x_Int sample_assign_true).map
          (fun res => (res.type, res.ct.error_stream)) =
        some (Int_, [⟨ErrorKind.assign_mismatch, "Main"⟩]) ∧
      (∃ res, type_check_expression 6 "Main" ct sample_env_x_Int sample_assign_undeclared =
          some res ∧
        res.type = Object ∧
        res.ct.error_stream = ct.error_stream ++ [⟨ErrorKind.assign_undeclared, "Main"⟩]) := by
  have h := @assign_typing 6 [] _ rfl (by decide) _ rfl 6 (by decide) "Main" sample_env_x_Int
    none "x" (Expression.bool_const none true)
  have h2 := @assign_typing 6 [] _ rfl (by decide) _ rfl 6 (by decide) "Main" sample_env_x_Int
    none "y" (Expression.object none "z")
  obtain ⟨r, conforms, res, _, h3, h4, h5, _, _, h6⟩ := h.1 Int_ (by decide)
  obtain ⟨res2, k1, k2, _, k3, _⟩ := h2.2 (by decide)
  exact ⟨_, rfl, ⟨r, conforms, res, h3, h4, h5, h6⟩, by decide, ⟨res2, k1, k2, k3⟩⟩

/-! ## Termination and transitivity of the type relation -/

/-- C29: on a registry built without error, the parent chain of every
registered class ends at the no-parent sentinel after fewer links than there
are registered classes, and for all arguments the walks of `is_subtype`, `lub`
and `find_method` terminate: each of the three returns for every fuel above the
registry size; in particular `lub` always returns a type. -/
theorem walks_terminate {fuel0 : Nat} {classes : List Class_} {ct : ClassTable}
    (hnew : ClassTable.new fuel0 classes = some ct) (h0 : ct.semant_errors = 0)
    (fuel : Nat) (hfuel : ct.size < fuel) :
    (∀ x c, ct.class_table.lookup x = some c →
      ∃ l, Rooted ct.class_table c.parent l ∧ l.length < ct.size) ∧
    (∀ a b, ∃ r, is_subtype fuel ct a b = some r) ∧
    (∀ a b, ∃ t, lub fuel ct a b = some t) ∧
    (∀ C m, ∃ r, find_method fuel ct C m = some r) := by
  have hT := terminating_of_validated hnew h0
  exact ⟨hT, fun a b => is_subtype_isSome hT hfuel a b, fun a b => lub_isSome hT hfuel a b,
    fun C m => find_method_isSome hT hfuel C m⟩

/-- Witness of C29 on `class A`, `class B inherits A`: the three walks return,
also for the unregistered name `Zorp`. -/
theorem walks_terminate_witness :
    ∃ ct, ClassTable.new 8 [sample_A, sample_B] = some ct ∧
      (∃ r, is_subtype 8 ct "B" "Zorp" = some r) ∧
      (∃ t, lub 8 ct "Zorp" "B" = some t) ∧
      (∃ r, find_method 8 ct "B" "foo" = some r) ∧
      lub 8 ct "B" Int_ = some Object :=
  ⟨_, rfl,
    (@walks_terminate 8 [sample_A, sample_B] _ rfl (by decide) 8 (by decide)).2.1 "B" "Zorp",
    (@walks_terminate 8 [sample_A, sample_B] _ rfl (by decide) 8 (by decide)).2.2.1 "Zorp" "B",
    (@walks_terminate 8 [sample_A, sample_B] _ rfl (by decide) 8 (by decide)).2.2.2 "B" "foo",
    by decide⟩

/-- The chain of a class on the chain of `x` is a part of the chain of `x`. -/
theorem Rooted.mem_chain {tbl : SymbolTable Class_} {x : Symbol} {l : List Symbol}
    (h : Rooted tbl x l) {b : Symbol} (hb : b ∈ l) {cb : Class_} (hl : tbl.lookup b = some cb)
    {lb : List Symbol} (hr : Rooted tbl cb.parent lb) : ∀ c ∈ lb, c ∈ l := by
  obtain ⟨pre, post, hsplit⟩ := List.append_of_mem hb
  subst hsplit
  have hs := Rooted.suffix h
  cases hs with
  | step _ hl' hr' =>
    rw [hl] at hl'
    cases hl'
    have := hr.unique hr'
    subst this
    intro c hc
    exact List.mem_append_right _ (List.mem_cons_of_mem _ hc)

/-- C30: on a registry built without error, `is_subtype` is transitive over all
symbols, `SELF_TYPE` and unregistered names included: when `is_subtype(a, b)`
and `is_subtype(b, c)` return true, so does `is_subtype(a, c)`. -/
theorem is_subtype_trans {fuel0 : Nat} {classes : List Class_} {ct : ClassTable}
    (hnew : ClassTable.new fuel0 classes = some ct) (h0 : ct.semant_errors = 0)
    (a b c : Symbol) (fuel : Nat) (hfuel : ct.size < fuel)
    (hab : is_subtype fuel ct a b = some true) (hbc : is_subtype fuel ct b c = some true) :
    is_subtype fuel ct a c = some true := by
  by_cases ha : a = SELF_TYPE
  · simp [is_subtype, ha]
  by_cases hb : b = SELF_TYPE
  · simp [is_subtype, ha, hb] at hab
  by_cases heq : a = b
  · rw [heq]
    exact hbc
  cases hla : ct.class_table.lookup a with
  | none => simp [is_subtype, ha, hb, heq, hla] at hab
  | some ca =>
    obtain ⟨la, hra, _, _, hlen⟩ := validated_chain hnew h0 hla
    have hfa : la.length < fuel := Nat.lt_trans hlen hfuel
    rw [is_subtype_chain hnew hla hra hfa b] at hab
    have hab' : b ≠ SELF_TYPE ∧ b ∈ a :: la := by simpa using hab
    have hbl : b ∈ la := by
      rcases List.mem_cons.mp hab'.2 with h | h
      · exact absurd h.symm heq
      · exact h
    have hbreg := (hra.mem_registered b hbl).2
    cases hlb : ct.class_table.lookup b with
    | none => simp [hlb] at hbreg
    | some cb =>
      obtain ⟨lb, hrb, _, _, hlenb⟩ := validated_chain hnew h0 hlb
      have hfb : lb.length < fuel := Nat.lt_trans hlenb hfuel
      rw [is_subtype_chain hnew hlb hrb hfb c] at hbc
      have hbc' : c ≠ SELF_TYPE ∧ c ∈ b :: lb := by simpa using hbc
      rw [is_subtype_chain hnew hla hra hfa c]
      have hc : c ∈ a :: la := by
        rcases List.mem_cons.mp hbc'.2 with h | h
        · rw [h]
          exact List.mem_cons_of_mem _ hbl
        · exact List.mem_cons_of_mem _ (hra.mem_chain hbl hlb hrb c h)
      simp [hbc'.1, hc]

/-- Witness of C30 on `class A`, `class B inherits A`: from `B <= A` and
`A <= Object`, `B <= Object`. -/
theorem is_subtype_trans_witness :
    ∃ ct, ClassTable.new 8 [sample_A, sample_B] = some ct ∧
      is_subtype 8 ct "B" "A" = some true ∧ is_subtype 8 ct "A" Object = some true ∧
      is_subtype 8 ct "B" Object = some true :=
  ⟨_, rfl, by decide, by decide,
    @is_subtype_trans 8 [sample_A, sample_B] _ rfl (by decide) "B" "A" Object 8 (by decide)
      (by decide) (by decide)⟩

/-! ## Scope balance -/

mutual

/-- Whenever `type_check_expression` returns, whatever the registry and the
fuel, it has only added messages and the environment is the one it was called
with. -/
theorem type_check_expression_frame (fuel : Nat) (cc : Symbol) :
    ∀ (e : Expression) (ct : ClassTable) (env : SymbolTable Symbol) (r : Typed),
      type_check_expression fuel cc ct env e = some r → Extends ct r.ct ∧ r.object_env = env
  | Expression.no_expr _, ct, env, r, h => by
    simp only [type_check_expression, Option.some.injEq] at h
    subst h
    exact ⟨Extends.refl ct, rfl⟩
  | Expression.int_const _ _, ct, env, r, h => by
    simp only [type_check_expression, Option.some.injEq] at h
    subst h
    exact ⟨Extends.refl ct, rfl⟩
  | Expression.float_const _ _, ct, env, r, h => by
    simp only [type_check_expression, Option.some.injEq] at h
    subst h
    exact ⟨Extends.refl ct, rfl⟩
  | Expression.bool_const _ _, ct, env, r, h => by
    simp only [type_check_expression, Option.some.injEq] at h
    subst h
    exact ⟨Extends.refl ct, rfl⟩
  | Expression.string_const _ _, ct, env, r, h => by
    simp only [type_check_expression, Option.some.injEq] at h
    subst h
    exact ⟨Extends.refl ct, rfl⟩
  | Expression.sub _ _ _, ct, env, r, h => by
    simp only [type_check_expression, Option.some.injEq] at h
    subst h
    exact ⟨Extends.refl ct, rfl⟩
  | Expression.mul _ _ _, ct, env, r, h => by
    simp only [type_check_expression, Option.some.injEq] at h
    subst h
    exact ⟨Extends.refl ct, rfl⟩
  | Expression.divide _ _ _, ct, env, r, h => by
    simp only [type_check_expression, Option.some.injEq] at h
    subst h
    exact ⟨Extends.refl ct, rfl⟩
  | Expression.neg _ _, ct, env, r, h => by
    simp only [type_check_expression, Option.some.injEq] at h
    subst h
    exact ⟨Extends.refl ct, rfl⟩
  | Expression.lt _ _ _, ct, env, r, h => by
    simp only [type_check_expression, Option.some.injEq] at h
    subst h
    exact ⟨Extends.refl ct, rfl⟩
  | Expression.leq _ _ _, ct, env, r, h => by
    simp only [type_check_expression, Option.some.injEq] at h
    subst h
    exact ⟨Extends.refl ct, rfl⟩
  | Expression.comp _ _, ct, env, r, h => by
    simp only [type_check_expression, Option.some.injEq] at h
    subst h
    exact ⟨Extends.refl ct, rfl⟩
  | Expression.object _ name, ct, env, r, h => by
    simp only [type_check_expression] at h
    cases hl : env.lookup name with
    | none =>
      simp only [hl, Option.some.injEq] at h
      subst h
      exact ⟨Extends.report_at _ _ _, rfl⟩
    | some t =>
      simp only [hl, Option.some.injEq] at h
      subst h
      exact ⟨Extends.refl ct, rfl⟩
  | Expression.assign _ name rhs, ct, env, r, h => by
    simp only [type_check_expression] at h
    cases hl : env.lookup name with
    | none =>
      simp only [hl, Option.some.injEq] at h
      subst h
      exact ⟨Extends.report_at _ _ _, rfl⟩
    | some var_type =>
      simp only [hl] at h
      cases h1 : type_check_expression fuel cc ct env rhs with
      | none => simp [h1] at h
      | some r1 =>
        obtain ⟨hE, henv⟩ := type_check_expression_frame fuel cc rhs ct env r1 h1
        simp only [h1] at h
        split at h
        · simp only [Option.some.injEq] at h
          subst h
          exact ⟨hE, henv⟩
        · cases hb : is_subtype fuel r1.ct r1.type var_type with
          | none => simp [hb] at h
          | some b =>
            cases b with
            | false =>
              simp only [hb, Option.some.injEq] at h
              subst h
              exact ⟨hE.then_report_at _ _, henv⟩
            | true =>
              simp only [hb, Option.some.injEq] at h
              subst h
              exact ⟨hE, henv⟩
  | Expression.dispatch _ e name actuals, ct, env, r, h => by
    simp only [type_check_expression] at h
    cases h1 : type_check_expression fuel cc ct env e with
    | none => simp [h1] at h
    | some r1 =>
      obtain ⟨hE, henv⟩ := type_check_expression_frame fuel cc e ct env r1 h1
      simp only [h1] at h
      cases hm : find_method fuel r1.ct (if r1.type = SELF_TYPE then cc else r1.type) name with
      | none => simp [hm] at h
      | some found =>
        cases found with
        | none =>
          simp only [hm, Option.some.injEq] at h
          subst h
          exact ⟨hE.then_report_at _ _, henv⟩
        | some method =>
          simp only [hm] at h
          split at h
          · simp only [Option.some.injEq] at h
            subst h
            exact ⟨hE.then_report_at _ _, henv⟩
          · cases ha : check_actuals fuel cc r1.ct r1.object_env actuals method.formals with
            | none => simp [ha] at h
            | some a =>
              obtain ⟨hEa, henva⟩ := check_actuals_frame fuel cc actuals method.formals
                r1.ct r1.object_env a ha
              simp only [ha, Option.some.injEq] at h
              subst h
              exact ⟨hE.trans hEa, henva.trans henv⟩
  | Expression.static_dispatch _ e static_type name actuals, ct, env, r, h => by
    simp only [type_check_expression] at h
    cases h1 : type_check_expression fuel cc ct env e with
    | none => simp [h1] at h
    | some r1 =>
      obtain ⟨hE, henv⟩ := type_check_expression_frame fuel cc e ct env r1 h1
      simp only [h1] at h
      cases hb : is_subtype fuel r1.ct r1.type static_type with
      | none => simp [hb] at h
      | some b =>
        simp only [hb] at h
        have hE1 : Extends ct (if b = true then r1.ct
            else r1.ct.report_at ErrorKind.static_dispatch_mismatch cc) :=
          hE.ite_report_at' _ _ _
        cases hm : find_method fuel (if b = true then r1.ct
            else r1.ct.report_at ErrorKind.static_dispatch_mismatch cc) static_type name with
        | none => simp [hm] at h
        | some found =>
          cases found with
          | none =>
            simp only [hm, Option.some.injEq] at h
            subst h
            exact ⟨hE1.then_report_at _ _, henv⟩
          | some method =>
            simp only [hm] at h
            split at h
            · simp only [Option.some.injEq] at h
              subst h
              exact ⟨hE1.then_report_at _ _, henv⟩
            · cases ha : check_actuals fuel cc (if b = true then r1.ct
                  else r1.ct.report_at ErrorKind.static_dispatch_mismatch cc) r1.object_env
                  actuals method.formals with
              | none => simp [ha] at h
              | some a =>
                obtain ⟨hEa, henva⟩ := check_actuals_frame fuel cc actuals method.formals
                  _ r1.object_env a ha
                simp only [ha, Option.some.injEq] at h
                subst h
                exact ⟨hE1.trans hEa, henva.trans henv⟩
  | Expression.cond _ pred then_exp else_exp, ct, env, r, h => by
    simp only [type_check_expression] at h
    cases hp : type_check_expression fuel cc ct env pred with
    | none => simp [hp] at h
    | some rp =>
      obtain ⟨hEp, henvp⟩ := type_check_expression_frame fuel cc pred ct env rp hp
      simp only [hp] at h
      have hE1 : Extends ct (if rp.type ≠ Bool_ then rp.ct.report_at ErrorKind.if_predicate cc
          else rp.ct) := hEp.ite_report_at _ _ _
      cases ht : type_check_expression fuel cc
          (if rp.type ≠ Bool_ then rp.ct.report_at ErrorKind.if_predicate cc else rp.ct)
          rp.object_env then_exp with
      | none =>
        rw [ht] at h
        cases h
      | some rt =>
        obtain ⟨hEt, henvt⟩ := type_check_expression_frame fuel cc then_exp _ _ rt ht
        simp only [ht] at h
        cases he : type_check_expression fuel cc rt.ct rt.object_env else_exp with
        | none => simp [he] at h
        | some re =>
          obtain ⟨hEe, henve⟩ := type_check_expression_frame fuel cc else_exp _ _ re he
          simp only [he] at h
          cases hlub : lub fuel re.ct rt.type re.type with
          | none => simp [hlub] at h
          | some t =>
            simp only [hlub, Option.some.injEq] at h
            subst h
            exact ⟨(hE1.trans hEt).trans hEe, henve.trans (henvt.trans henvp)⟩
  | Expression.loop _ pred body, ct, env, r, h => by
    simp only [type_check_expression] at h
    cases hp : type_check_expression fuel cc ct env pred with
    | none => simp [hp] at h
    | some rp =>
      obtain ⟨hEp, henvp⟩ := type_check_expression_frame fuel cc pred ct env rp hp
      simp only [hp] at h
      have hE1 : Extends ct (if rp.type ≠ Bool_ then rp.ct.report_at ErrorKind.loop_predicate cc
          else rp.ct) := hEp.ite_report_at _ _ _
      cases hb : type_check_expression fuel cc
          (if rp.type ≠ Bool_ then rp.ct.report_at ErrorKind.loop_predicate cc else rp.ct)
          rp.object_env body with
      | none =>
        rw [hb] at h
        cases h
      | some rb =>
        obtain ⟨hEb, henvb⟩ := type_check_expression_frame fuel cc body _ _ rb hb
        simp only [hb, Option.some.injEq] at h
        subst h
        exact ⟨hE1.trans hEb, henvb.trans henvp⟩
  | Expression.block _ body, ct, env, r, h => by
    simp only [type_check_expression] at h
    cases hb : check_block fuel cc ct env No_type body with
    | none => simp [hb] at h
    | some res =>
      obtain ⟨b, t⟩ := res
      obtain ⟨hEb, henvb⟩ := check_block_frame fuel cc body ct env No_type b t hb
      simp only [hb, Option.some.injEq] at h
      subst h
      exact ⟨hEb, henvb⟩
  | Expression.let_ _ identifier type_decl init body, ct, env, r, h => by
    simp only [type_check_expression] at h
    have hE1 : Extends ct
        (if (decide (type_decl ≠ SELF_TYPE) && (ct.class_table.lookup type_decl).isNone) = true
          then ct.report_at ErrorKind.let_undefined cc else ct) :=
      (Extends.refl ct).ite_report_at _ _ _
    cases hi : init.get_type with
    | none =>
      simp only [hi] at h
      cases hb : type_check_expression fuel cc
          (if (decide (type_decl ≠ SELF_TYPE) && (ct.class_table.lookup type_decl).isNone) = true
            then ct.report_at ErrorKind.let_undefined cc else ct)
          (env.enterscope.addid identifier
            (if (decide (type_decl ≠ SELF_TYPE) &&
                (ct.class_table.lookup type_decl).isNone) = true
              then Object else type_decl)) body with
      | none => simp [hb] at h
      | some rb =>
        obtain ⟨hEb, henvb⟩ := type_check_expression_frame fuel cc body _ _ rb hb
        simp only [hb, Option.some.injEq] at h
        subst h
        refine ⟨hE1.trans hEb, ?_⟩
        simp only [henvb]
        rfl
    | some slot =>
      simp only [hi] at h
      cases h1 : type_check_expression fuel cc
          (if (decide (type_decl ≠ SELF_TYPE) && (ct.class_table.lookup type_decl).isNone) = true
            then ct.report_at ErrorKind.let_undefined cc else ct) env.enterscope init with
      | none => simp [h1] at h
      | some ri =>
        obtain ⟨hEi, henvi⟩ := type_check_expression_frame fuel cc init _ _ ri h1
        simp only [h1] at h
        cases hs : is_subtype fuel ri.ct ri.type
            (if (decide (type_decl ≠ SELF_TYPE) &&
                (ct.class_table.lookup type_decl).isNone) = true
              then Object else type_decl) with
        | none => simp [hs] at h
        | some b =>
          simp only [hs] at h
          have hE3 : Extends ct (if b = true then ri.ct
              else ri.ct.report_at ErrorKind.let_init_mismatch cc) :=
            (hE1.trans hEi).ite_report_at' _ _ _
          cases hb : type_check_expression fuel cc
              (if b = true then ri.ct else ri.ct.report_at ErrorKind.let_init_mismatch cc)
              (ri.object_env.addid identifier
                (if (decide (type_decl ≠ SELF_TYPE) &&
                    (ct.class_table.lookup type_decl).isNone) = true
                  then Object else type_decl)) body with
          | none => simp [hb] at h
          | some rb =>
            obtain ⟨hEb, henvb⟩ := type_check_expression_frame fuel cc body _ _ rb hb
            simp only [hb, Option.some.injEq] at h
            subst h
            refine ⟨hE3.trans hEb, ?_⟩
            simp only [henvb, henvi]
            rfl
  | Expression.plus _ e1 e2, ct, env, r, h => by
    simp only [type_check_expression] at h
    cases h1 : type_check_expression fuel cc ct env e1 with
    | none => simp [h1] at h
    | some r1 =>
      obtain ⟨hE1, henv1⟩ := type_check_expression_frame fuel cc e1 ct env r1 h1
      simp only [h1] at h
      cases h2 : type_check_expression fuel cc r1.ct r1.object_env e2 with
      | none => simp [h2] at h
      | some r2 =>
        obtain ⟨hE2, henv2⟩ := type_check_expression_frame fuel cc e2 _ _ r2 h2
        simp only [h2, Option.some.injEq] at h
        subst h
        exact ⟨(hE1.trans hE2).ite_report_at _ _ _, henv2.trans henv1⟩
  | Expression.eq _ e1 e2, ct, env, r, h => by
    simp only [type_check_expression] at h
    cases h1 : type_check_expression fuel cc ct env e1 with
    | none => simp [h1] at h
    | some r1 =>
      obtain ⟨hE1, henv1⟩ := type_check_expression_frame fuel cc e1 ct env r1 h1
      simp only [h1] at h
      cases h2 : type_check_expression fuel cc r1.ct r1.object_env e2 with
      | none => simp [h2] at h
      | some r2 =>
        obtain ⟨hE2, henv2⟩ := type_check_expression_frame fuel cc e2 _ _ r2 h2
        simp only [h2, Option.some.injEq] at h
        subst h
        exact ⟨(hE1.trans hE2).ite_report_at _ _ _, henv2.trans henv1⟩
  | Expression.new_ _ type_name, ct, env, r, h => by
    simp only [type_check_expression] at h
    split at h
    · simp only [Option.some.injEq] at h
      subst h
      exact ⟨Extends.report_at _ _ _, rfl⟩
    · simp only [Option.some.injEq] at h
      subst h
      exact ⟨Extends.refl ct, rfl⟩
  | Expression.isvoid _ e1, ct, env, r, h => by
    simp only [type_check_expression] at h
    cases h1 : type_check_expression fuel cc ct env e1 with
    | none => simp [h1] at h
    | some r1 =>
      obtain ⟨hE1, henv1⟩ := type_check_expression_frame fuel cc e1 ct env r1 h1
      simp only [h1, Option.some.injEq] at h
      subst h
      exact ⟨hE1, henv1⟩

theorem check_actuals_frame (fuel : Nat) (cc : Symbol) :
    ∀ (actuals : List Expression) (formals : List Formal) (ct : ClassTable)
      (env : SymbolTable Symbol) (a : TypedList),
      check_actuals fuel cc ct env actuals formals = some a →
      Extends ct a.ct ∧ a.object_env = env
  | [], formals, ct, env, a, h => by
    simp only [check_actuals, Option.some.injEq] at h
    subst h
    exact ⟨Extends.refl ct, rfl⟩
  | actual :: actuals, [], ct, env, a, h => by
    simp only [check_actuals, Option.some.injEq] at h
    subst h
    exact ⟨Extends.refl ct, rfl⟩
  | actual :: actuals, formal :: formals, ct, env, a, h => by
    simp only [check_actuals] at h
    cases h1 : type_check_expression fuel cc ct env actual with
    | none => simp [h1] at h
    | some r1 =>
      obtain ⟨hE, henv⟩ := type_check_expression_frame fuel cc actual ct env r1 h1
      simp only [h1] at h
      cases hb : is_subtype fuel r1.ct r1.type formal.type_decl with
      | none => simp [hb] at h
      | some b =>
        simp only [hb] at h
        have hE1 : Extends ct (if b = true then r1.ct
            else r1.ct.report_at ErrorKind.dispatch_argument cc) := hE.ite_report_at' _ _ _
        cases ha : check_actuals fuel cc (if b = true then r1.ct
            else r1.ct.report_at ErrorKind.dispatch_argument cc) r1.object_env actuals
            formals with
        | none => simp [ha] at h
        | some rest =>
          obtain ⟨hEa, henva⟩ := check_actuals_frame fuel cc actuals formals _ _ rest ha
          simp only [ha, Option.some.injEq] at h
          subst h
          exact ⟨hE1.trans hEa, henva.trans henv⟩

theorem check_block_frame (fuel : Nat) (cc : Symbol) :
    ∀ (body : List Expression) (ct : ClassTable) (env : SymbolTable Symbol) (t : Symbol)
      (b : TypedList) (t' : Symbol),
      check_block fuel cc ct env t body = some (b, t') → Extends ct b.ct ∧ b.object_env = env
  | [], ct, env, t, b, t', h => by
    simp only [check_block, Option.some.injEq, Prod.mk.injEq] at h
    obtain ⟨h, _⟩ := h
    subst h
    exact ⟨Extends.refl ct, rfl⟩
  | e :: body, ct, env, t, b, t', h => by
    simp only [check_block] at h
    cases h1 : type_check_expression fuel cc ct env e with
    | none => simp [h1] at h
    | some r1 =>
      obtain ⟨hE, henv⟩ := type_check_expression_frame fuel cc e ct env r1 h1
      simp only [h1] at h
      cases hb : check_block fuel cc r1.ct r1.object_env r1.type body with
      | none => simp [hb] at h
      | some res =>
        obtain ⟨rest, t2⟩ := res
        obtain ⟨hEb, henvb⟩ := check_block_frame fuel cc body _ _ _ rest t2 hb
        simp only [hb, Option.some.injEq, Prod.mk.injEq] at h
        obtain ⟨h, _⟩ := h
        subst h
        exact ⟨hE.trans hEb, henvb.trans henv⟩

end

/-- Binding the formals of a method only changes the scope just entered. -/
theorem check_formals_scopes (c : Class_) :
    ∀ (formals : List Formal) (ct : ClassTable) (sc : List (Symbol × Symbol))
      (rest : List (List (Symbol × Symbol))),
      ∃ sc', (check_formals c ct ⟨sc :: rest⟩ formals).2 = ⟨sc' :: rest⟩
  | [], ct, sc, rest => ⟨sc, rfl⟩
  | formal :: formals, ct, sc, rest => by
    simp only [check_formals]
    cases hp : SymbolTable.probe (⟨sc :: rest⟩ : SymbolTable Symbol) formal.name with
    | some t => exact check_formals_scopes c formals _ sc rest
    | none => exact check_formals_scopes c formals _ _ rest

/-- The method branch of `type_check_class` leaves the environment as it was:
the scope entered for the formals is exited after the body. -/
theorem check_method_env {fuel : Nat} {c : Class_} {ct : ClassTable}
    {env : SymbolTable Symbol} {m : method_class} {res : ClassTable × SymbolTable Symbol × Feature}
    (h : check_method fuel c ct env m = some res) : res.2.1 = env := by
  unfold check_method at h
  simp only at h
  obtain ⟨sc', hsc⟩ := check_formals_scopes c m.formals
    (if (decide (m.return_type ≠ SELF_TYPE) &&
        (ct.class_table.lookup m.return_type).isNone) = true
      then ct.report ErrorKind.return_undefined c else ct) [] env.scopes
  cases hb : type_check_expression fuel c.name
      (check_formals c
        (if (decide (m.return_type ≠ SELF_TYPE) &&
            (ct.class_table.lookup m.return_type).isNone) = true
          then ct.report ErrorKind.return_undefined c else ct) env.enterscope m.formals).1
      (check_formals c
        (if (decide (m.return_type ≠ SELF_TYPE) &&
            (ct.class_table.lookup m.return_type).isNone) = true
          then ct.report ErrorKind.return_undefined c else ct) env.enterscope m.formals).2
      m.expr with
  | none =>
    rw [hb] at h
    cases h
  | some r =>
    obtain ⟨_, henv⟩ := type_check_expression_frame fuel c.name m.expr _ _ r hb
    rw [hb] at h
    simp only at h
    cases h2 : check_return fuel c r.ct
        (if (decide (m.return_type ≠ SELF_TYPE) &&
            (ct.class_table.lookup m.return_type).isNone) = true
          then Object else m.return_type) r.type with
    | none =>
      rw [h2] at h
      cases h
    | some ct2 =>
      rw [h2] at h
      simp only at h
      cases h3 : check_override fuel c ct2 m.name m.formals
          (if (decide (m.return_type ≠ SELF_TYPE) &&
              (ct.class_table.lookup m.return_type).isNone) = true
            then Object else m.return_type) with
      | none =>
        rw [h3] at h
        cases h
      | some ct3 =>
        rw [h3] at h
        simp only [Option.some.injEq] at h
        subst h
        show r.object_env.exitscope = env
        rw [henv]
        have hsc' : (check_formals c
            (if (decide (m.return_type ≠ SELF_TYPE) &&
                (ct.class_table.lookup m.return_type).isNone) = true
              then ct.report ErrorKind.return_undefined c else ct) env.enterscope m.formals).2 =
            ⟨sc' :: env.scopes⟩ := hsc
        rw [hsc']
        rfl

/-- C26: scope balance.  Whenever `type_check_expression` returns, for every
expression, every environment, every registry and whether or not messages were
added, the environment it leaves is the one it was called with: the same scope
stack with the same bindings, so that every name looks up as before; on a
registry whose walks terminate it does return.  In particular after a `let` the
let-bound identifier looks up as it did before the `let`: unbound if it was
unbound, bound to the outer type if it shadowed an outer binding.  The method
branch of `type_check_class` likewise leaves the environment as it was. -/
theorem scope_balance (fuel : Nat) (cc : Symbol) (ct : ClassTable) (env : SymbolTable Symbol)
    (e : Expression) :
    (∀ r, type_check_expression fuel cc ct env e = some r →
      r.object_env = env ∧ r.object_env.scopes = env.scopes ∧
        (∀ x, r.object_env.lookup x = env.lookup x) ∧
        (∀ x, r.object_env.probe x = env.probe x)) ∧
    (∀ N, Terminating ct.class_table N → N < fuel →
      ∃ r, type_check_expression fuel cc ct env e = some r ∧ r.object_env = env) ∧
    (∀ slot identifier type_decl init body r,
      e = Expression.let_ slot identifier type_decl init body →
      type_check_expression fuel cc ct env e = some r →
      r.object_env.lookup identifier = env.lookup identifier) ∧
    (∀ c m res, check_method fuel c ct env m = some res → res.2.1 = env) := by
  refine ⟨?_, ?_, ?_, ?_⟩
  · intro r h
    have henv := (type_check_expression_frame fuel cc e ct env r h).2
    exact ⟨henv, by rw [henv], fun x => by rw [henv], fun x => by rw [henv]⟩
  · intro N hT hf
    obtain ⟨r, hr, _, henv⟩ := type_check_expression_total fuel N cc hf e ct env hT
    exact ⟨r, hr, henv⟩
  · intro slot identifier type_decl init body r _ h
    rw [(type_check_expression_frame fuel cc e ct env r h).2]
  · intro c m res h
    exact check_method_env h

/-- Witness of C26 with `x : Bool` bound in the class: `let x : Int in x` has the
type `Int` of the inner `x`, and afterwards `x` looks up as `Bool` again;
`let y : Int in y` leaves `y` unbound. -/
theorem scope_balance_witness :
    (∃ r, type_check_expression 6 "Main" (registry []) sample_env_x_Bool sample_let_shadow =
        some r ∧
      r.type = Int_ ∧ r.object_env = sample_env_x_Bool ∧
      r.object_env.lookup "x" = some Bool_) ∧
    (∃ r, type_check_expression 6 "Main" (registry []) sample_env_x_Bool sample_let_y =
        some r ∧
      r.type = Int_ ∧ r.object_env.lookup "y" = none) := by
  have h1 := (scope_balance 6 "Main" (registry []) sample_env_x_Bool sample_let_shadow).1 _ rfl
  have h2 := (scope_balance 6 "Main" (registry []) sample_env_x_Bool sample_let_y).1 _ rfl
  exact ⟨⟨_, rfl, rfl, h1.1, (h1.2.2.1 "x").trans (by decide)⟩,
    ⟨_, rfl, rfl, (h2.2.2.1 "y").trans (by decide)⟩⟩

/-! ## Arity of a dispatch -/

/-- The loop over the actuals and the formals checks every position that has
both an actual and a formal. -/
theorem check_actuals_positions (fuel : Nat) (cc : Symbol) (env : SymbolTable Symbol) :
    ∀ (actuals : List Expression) (formals : List Formal) (ct : ClassTable) (a : TypedList),
      check_actuals fuel cc ct env actuals formals = some a →
      positions_checked fuel cc ct env actuals formals a.ct
  | [], formals, ct, a, _ => by
    unfold positions_checked
    intro i actual formal hi
    simp at hi
  | actual :: actuals, [], ct, a, _ => by
    unfold positions_checked
    intro i actual' formal _ hj
    simp at hj
  | actual :: actuals, formal :: formals, ct, a, h => by
    simp only [check_actuals] at h
    cases h1 : type_check_expression fuel cc ct env actual with
    | none => simp [h1] at h
    | some r1 =>
      obtain ⟨hE, henv⟩ := type_check_expression_frame fuel cc actual ct env r1 h1
      simp only [h1] at h
      cases hb : is_subtype fuel r1.ct r1.type formal.type_decl with
      | none => simp [hb] at h
      | some b =>
        simp only [hb] at h
        have hE1 : Extends ct (if b = true then r1.ct
            else r1.ct.report_at ErrorKind.dispatch_argument cc) := hE.ite_report_at' _ _ _
        cases ha : check_actuals fuel cc (if b = true then r1.ct
            else r1.ct.report_at ErrorKind.dispatch_argument cc) r1.object_env actuals
            formals with
        | none => simp [ha] at h
        | some rest =>
          simp only [ha, Option.some.injEq] at h
          subst h
          rw [henv] at ha
          unfold positions_checked
          intro i actual' formal' hi hj
          cases i with
          | zero =>
            simp only [List.getElem?_cons_zero, Option.some.injEq] at hi hj
            subst hi
            subst hj
            exact ⟨ct, r1, b, Extends.refl ct, h1, hb,
              (check_actuals_frame fuel cc actuals _ _ env rest ha).1⟩
          | succ i =>
            simp only [List.getElem?_cons_succ] at hi hj
            obtain ⟨cti, ri, bi, k1, k2, k3, k4⟩ :=
              check_actuals_positions fuel cc env actuals formals _ rest ha i actual' formal'
                hi hj
            exact ⟨cti, ri, bi, hE1.trans k1, k2, k3, k4⟩

/-- C23 (amended): for a dispatch, dynamic or static, on a validated registry,
whose receiver check returns and whose method is found.  When the number of
actuals differs from the number of formals, the check of the call returns,
exactly one message is added after those of the receiver, the arity message,
and no actual is type-checked or compared against a formal: the actuals are
left as they are.  When the two numbers are equal, the check of the call
returns, and every actual is type-checked and compared against the declared
type of the formal at its position, a non-conforming actual adding its own
conformance message. -/
theorem dispatch_arity_gate {fuel0 : Nat} {classes : List Class_} {ct0 : ClassTable}
    (hnew : ClassTable.new fuel0 classes = some ct0) (h0 : ct0.semant_errors = 0)
    (ct : ClassTable) (htbl : ct.class_table = ct0.class_table)
    (fuel : Nat) (hfuel : ct0.size < fuel) (cc : Symbol)
    (env : SymbolTable Symbol) (slot : Option Symbol) (e : Expression) (m : Symbol)
    (actuals : List Expression) (r : Typed) (method : method_class)
    (hr : type_check_expression fuel cc ct env e = some r) :
    (find_method fuel r.ct (if r.type = SELF_TYPE then cc else r.type) m = some (some method) →
      ∃ res,
        type_check_expression fuel cc ct env (Expression.dispatch slot e m actuals) =
          some res ∧
        (actuals.length ≠ method.formals.length →
          res.expr = Expression.dispatch (some res.type) r.expr m actuals ∧
          res.ct.error_stream = r.ct.error_stream ++ [⟨ErrorKind.dispatch_arity, cc⟩] ∧
          res.ct.semant_errors = r.ct.semant_errors + 1) ∧
        (actuals.length = method.formals.length →
          positions_checked fuel cc r.ct env actuals method.formals res.ct)) ∧
    (∀ T conforms, is_subtype fuel r.ct r.type T = some conforms →
      find_method fuel r.ct T m = some (some method) →
      ∃ res,
        type_check_expression fuel cc ct env (Expression.static_dispatch slot e T m actuals) =
          some res ∧
        (actuals.length ≠ method.formals.length →
          res.expr = Expression.static_dispatch (some res.type) r.expr T m actuals ∧
          res.ct.error_stream =
            r.ct.error_stream ++
              (if conforms then [] else [⟨ErrorKind.static_dispatch_mismatch, cc⟩]) ++
              [⟨ErrorKind.dispatch_arity, cc⟩] ∧
          res.ct.semant_errors = r.ct.semant_errors + (if conforms then 0 else 1) + 1) ∧
        (actuals.length = method.formals.length →
          positions_checked fuel cc r.ct env actuals method.formals res.ct)) := by
  have hT : Terminating ct.class_table ct0.size := by
    rw [htbl]
    exact terminating_of_validated hnew h0
  obtain ⟨hE, henv⟩ := type_check_expression_frame fuel cc e ct env r hr
  have hTr := hE.terminating hT
  constructor
  · intro hm
    simp only [type_check_expression, hr, hm]
    by_cases hlen : actuals.length = method.formals.length
    · obtain ⟨a, ha, _, _⟩ := check_actuals_total fuel ct0.size cc hfuel actuals
        method.formals r.ct r.object_env hTr
      simp only [hlen, ne_eq, not_true_eq_false, if_false, ha]
      refine ⟨_, rfl, fun h => h.elim, fun _ => ?_⟩
      rw [henv] at ha
      exact check_actuals_positions fuel cc env actuals method.formals r.ct a ha
    · rw [if_pos hlen]
      refine ⟨_, rfl, fun _ => ⟨rfl, rfl, rfl⟩, fun h => absurd h hlen⟩
  · intro T conforms hb hm
    have hE1 : Extends r.ct (if conforms = true then r.ct
        else r.ct.report_at ErrorKind.static_dispatch_mismatch cc) :=
      (Extends.refl r.ct).ite_report_at' _ _ _
    have hm1 : find_method fuel (if conforms = true then r.ct
        else r.ct.report_at ErrorKind.static_dispatch_mismatch cc) T m = some (some method) := by
      rw [find_method_congr hE1.1]
      exact hm
    simp only [type_check_expression, hr, hb, hm1]
    by_cases hlen : actuals.length = method.formals.length
    · obtain ⟨a, ha, _, _⟩ := check_actuals_total fuel ct0.size cc hfuel actuals
        method.formals (if conforms = true then r.ct
          else r.ct.report_at ErrorKind.static_dispatch_mismatch cc) r.object_env
        (hE1.terminating hTr)
      simp only [hlen, ne_eq, not_true_eq_false, if_false, ha]
      refine ⟨_, rfl, fun h => h.elim, fun _ => ?_⟩
      rw [henv] at ha
      have hpos := check_actuals_positions fuel cc env actuals method.formals _ a ha
      intro i actual formal hi hj
      obtain ⟨cti, ri, bi, k1, k2, k3, k4⟩ := hpos i actual formal hi hj
      exact ⟨cti, ri, bi, hE1.trans k1, k2, k3, k4⟩
    · rw [if_pos hlen]
      refine ⟨_, rfl, fun _ => ⟨rfl, ?_, ?_⟩, fun h => absurd h hlen⟩
      · cases conforms <;> simp [ClassTable.report_at]
      · cases conforms <;> simp [ClassTable.report_at]

/-- Witness of C23 (amended) on the built-in classes: `"s".concat(1, y)` and
`"s"@String.concat(1, y)` add the arity message only, although `1` does not
conform to `String`; `"s".concat(1)` adds the conformance message. -/
theorem dispatch_arity_gate_witness :
    ∃ ct, ClassTable.new 6 [] = some ct ∧
      (∃ res, type_check_expression 6 "Main" ct class_env sample_concat_two_actuals =
          some res ∧
        res.ct.error_stream = ct.error_stream ++ [⟨ErrorKind.dispatch_arity, "Main"⟩]) ∧
      (∃ res, type_check_expression 6 "Main" ct class_env sample_static_concat_two_actuals =
          some res ∧
        res.ct.semant_errors = ct.semant_errors + 0 + 1) ∧
      (type_check_expression 6 "Main" ct class_env sample_concat_Int).map
          (fun res => res.ct.error_stream) = some [⟨ErrorKind.dispatch_argument, "Main"⟩] := by
  have h := @dispatch_arity_gate 6 [] _ rfl (by decide) _ rfl 6 (by decide) "Main" class_env
    none (Expression.string_const none "s") concat
    [Expression.int_const none "1", Expression.object none "y"] _
    ⟨"concat", [⟨arg, String_⟩], String_, Expression.no_expr none⟩ rfl
  obtain ⟨res, k1, k2, _⟩ := h.1 rfl
  obtain ⟨res', k1', k2', _⟩ := h.2 String_ true rfl rfl
  exact ⟨_, rfl, ⟨res, k1, (k2 (by decide)).2.1⟩, ⟨res', k1', (k2' (by decide)).2.2⟩,
    by decide⟩

/-- C23 fails as stated: on the built-in classes, `concat` is found with one
formal of type `String`; in `"s".concat(1, y)` and `"s"@String.concat(1, y)`
the actual `1` at the first position has the type `Int`, which does not conform
to `String`, yet the only message is the arity message: no conformance message
is added, and the actuals are left unvisited, their slots unset. -/
theorem dispatch_arity_counterexample :
    ∃ ct, ClassTable.new 6 [] = some ct ∧ ct.semant_errors = 0 ∧
      (find_method 6 ct String_ concat).map
          (Option.map (fun m => m.formals.map Formal.type_decl)) = some (some [String_]) ∧
      (type_check_expression 6 "Main" ct class_env (Expression.int_const none "1")).map
          Typed.type = some Int_ ∧
      is_subtype 6 ct Int_ String_ = some false ∧
      (type_check_expression 6 "Main" ct class_env sample_concat_two_actuals).map
          (fun res => res.ct.error_stream) = some [⟨ErrorKind.dispatch_arity, "Main"⟩] ∧
      (type_check_expression 6 "Main" ct class_env sample_concat_two_actuals).map
          (fun res =>
            match res.expr with
            | Expression.dispatch _ _ _ actuals => actuals.map Expression.get_type
            | _ => []) = some [none, none] ∧
      (type_check_expression 6 "Main" ct class_env sample_static_concat_two_actuals).map
          (fun res => res.ct.error_stream) = some [⟨ErrorKind.dispatch_arity, "Main"⟩] ∧
      (type_check_expression 6 "Main" ct class_env sample_static_concat_two_actuals).map
          (fun res =>
            match res.expr with
            | Expression.static_dispatch _ _ _ _ actuals => actuals.map Expression.get_type
            | _ => []) = some [none, none] :=
  ⟨_, rfl, by decide, by decide, by decide, by decide, by decide, by decide, by decide,
    by decide⟩

/-! ## The implemented `lub` and the specified one -/

/-- C27 (amended): on a registry built without error from user classes that all
name a parent, for registered classes `a` and `b`, neither named by the symbol
`No_class`, the implemented `lub` returns, and returns the result of the
specified algorithm: the first name on the chain of `b` (starting at `b`) that
also appears on the chain of `a`. -/
theorem lub_refines_spec {fuel0 : Nat} {classes : List Class_} {ct : ClassTable}
    (hnew : ClassTable.new fuel0 classes = some ct) (h0 : ct.semant_errors = 0)
    (hpar : ∀ c ∈ classes, c.parent ≠ No_class)
    (a b : Symbol) (ha : (ct.class_table.lookup a).isSome = true)
    (hb : (ct.class_table.lookup b).isSome = true)
    (ha' : a ≠ No_class) (hb' : b ≠ No_class)
    (fuel n : Nat) (hfuel : ct.size < fuel) (hn : ct.size ≤ n) :
    ∃ r, lub fuel ct a b = some r ∧ lub_spec ct.class_table n a b = some r := by
  cases hla : ct.class_table.lookup a with
  | none => rw [hla] at ha; cases ha
  | some ca =>
  cases hlb : ct.class_table.lookup b with
  | none => rw [hlb] at hb; cases hb
  | some cb =>
  obtain ⟨la, hra, hala, _, hlena, hlasta⟩ := validated_self_chain hnew h0 hpar hla
  obtain ⟨lb, hrb, hblb, hndb, hlenb, hlastb⟩ := validated_self_chain hnew h0 hpar hlb
  have hRa : Rooted ct.class_table a (a :: la) := Rooted.step ha' hla hra
  have hRb : Rooted ct.class_table b (b :: lb) := Rooted.step hb' hlb hrb
  have hOa : Object ∈ a :: la := List.mem_of_getLast?_eq_some hlasta
  have hOb : Object ∈ b :: lb := List.mem_of_getLast?_eq_some hlastb
  have sa := is_subtype_chain hnew hla hra (show la.length < fuel by omega)
  have sb := is_subtype_chain hnew hlb hrb (show lb.length < fuel by omega)
  have has : a ≠ SELF_TYPE := registered_ne_SELF_TYPE hnew ha
  have hbs : b ≠ SELF_TYPE := registered_ne_SELF_TYPE hnew hb
  have hca : parent_chain ct.class_table n a = a :: la :=
    parent_chain_rooted hRa n (by simp only [List.length_cons]; omega)
  have hcb : parent_chain ct.class_table n b = b :: lb :=
    parent_chain_rooted hRb n (by simp only [List.length_cons]; omega)
  unfold lub lub_spec
  rw [if_neg (fun h => has h.1), if_neg (fun h => h.elim has hbs), hca, hcb]
  by_cases h1 : b ∈ a :: la
  · have e1 : is_subtype fuel ct a b = some true := by
      rw [sa b]
      simp only [Option.some.injEq, decide_eq_true_eq]
      exact ⟨hbs, h1⟩
    rw [e1]
    refine ⟨b, rfl, ?_⟩
    rw [List.find?_cons_of_pos]
    simpa using h1
  · have e1 : is_subtype fuel ct a b = some false := by
      rw [sa b]
      simp only [Option.some.injEq, decide_eq_false_iff_not]
      exact fun h => h1 h.2
    rw [e1]
    simp only
    by_cases h2 : a ∈ b :: lb
    · have e2 : is_subtype fuel ct b a = some true := by
        rw [sb a]
        simp only [Option.some.injEq, decide_eq_true_eq]
        exact ⟨has, h2⟩
      rw [e2]
      refine ⟨a, rfl, ?_⟩
      obtain ⟨pre, post, hsplit⟩ := List.append_of_mem h2
      rw [List.find?_eq_some]
      refine ⟨by simp, pre, post, hsplit, ?_⟩
      intro y hy
      simp only [Bool.not_eq_true', decide_eq_false_iff_not]
      intro hya
      obtain ⟨p1, p2, hpre⟩ := List.append_of_mem hy
      have hRy : Rooted ct.class_table y (y :: (p2 ++ a :: post)) := by
        have hRb' := hRb
        rw [hsplit, hpre, List.append_assoc, List.cons_append] at hRb'
        exact hRb'.suffix
      have hya' : y ∈ la := by
        rcases List.mem_cons.mp hya with h | h
        · exfalso
          have hnd : (b :: lb).Nodup := List.nodup_cons.mpr ⟨hblb, hndb⟩
          rw [hsplit, hpre, h] at hnd
          have := List.nodup_append.mp hnd
          exact this.2.2 (List.mem_append_right _ (List.mem_cons_self _ _))
            (List.mem_cons_self _ _)
        · exact h
      cases hRy with
      | step _ hly hry =>
        exact hala (hra.mem_chain hya' hly hry a (List.mem_append_right _
          (List.mem_cons_self _ _)))
    · have e2 : is_subtype fuel ct b a = some false := by
        rw [sb a]
        simp only [Option.some.injEq, decide_eq_false_iff_not]
        exact fun h => h2 h.2
      rw [e2]
      simp only
      rw [lub_ancestors_rooted hRa fuel (by simp only [List.length_cons]; omega)]
      simp only
      rw [lub_search_rooted _ hRb fuel (by simp only [List.length_cons]; omega)]
      have hpred : (fun y => decide (y ∈ (a :: la) ++ [Object])) =
          (fun y => decide (y ∈ a :: la)) := by
        funext y
        congr 1
        apply propext
        constructor
        · intro h
          rcases List.mem_append.mp h with h | h
          · exact h
          · rw [List.mem_singleton.mp h]
            exact hOa
        · exact fun h => List.mem_append_left _ h
      rw [hpred]
      cases hfind : (b :: lb).find? (fun y => decide (y ∈ a :: la)) with
      | none =>
        have := List.find?_eq_none.mp hfind Object hOb
        simp only [decide_eq_true_eq] at this
        exact absurd hOa this
      | some r => exact ⟨r, rfl, rfl⟩

/-- Witness of C27 (amended) on `class A`, `class B inherits A`: both the
implemented and the specified `lub(B, Int)` are `Object`, and both
`lub(B, A)` are `A`. -/
theorem lub_refines_spec_witness :
    ∃ ct, ClassTable.new 8 [sample_A, sample_B] = some ct ∧
      (∃ r, lub 8 ct "B" Int_ = some r ∧ lub_spec ct.class_table 8 "B" Int_ = some r) ∧
      lub 8 ct "B" Int_ = some Object ∧
      lub 8 ct "B" "A" = some "A" ∧ lub_spec ct.class_table 8 "B" "A" = some "A" :=
  ⟨_, rfl,
    @lub_refines_spec 8 [sample_A, sample_B] _ rfl (by decide) (by decide) "B" Int_ (by decide)
      (by decide) (by decide) (by decide) 8 8 (by decide) (by decide),
    by decide, by decide, by decide⟩

/-- C27 fails as stated, in two ways.  With the declaration `A` whose parent slot
holds `No_class`, registered without error, the implemented `lub(A, Int)` is
`Object`, from the `Object` appended to the chain of `A`, whereas no name of the
chain `Int`, `Object` appears on the chain `A` of `A`.  With the classes `A`, a
class named by the symbol `No_class` inheriting `A`, and `B` inheriting `A`, all
registered without error, the implemented `lub(No_class, B)` and
`lub(B, No_class)` are `Object` although `A`, an ancestor of the class named
`No_class`, comes before `Object` on the chain `B`, `A`, `Object`. -/
theorem lub_refines_spec_counterexample :
    (∃ ct, ClassTable.new 8 [sample_A_no_parent] = some ct ∧ ct.semant_errors = 0 ∧
      (ct.class_table.lookup "A").isSome = true ∧ (ct.class_table.lookup Int_).isSome = true ∧
      lub 8 ct "A" Int_ = some Object ∧
      parent_chain ct.class_table 8 "A" = ["A"] ∧
      parent_chain ct.class_table 8 Int_ = [Int_, Object] ∧
      lub_spec ct.class_table 8 "A" Int_ = none) ∧
    (∃ ct, ClassTable.new 9 [sample_A, sample_No_class_inherits_A, sample_B] = some ct ∧
      ct.semant_errors = 0 ∧
      (ct.class_table.lookup No_class).isSome = true ∧
      (ct.class_table.lookup "B").isSome = true ∧
      lub 9 ct No_class "B" = some Object ∧ lub 9 ct "B" No_class = some Object ∧
      parent_chain ct.class_table 9 "B" = ["B", "A", Object] ∧
      is_subtype 9 ct No_class "A" = some true ∧
      lub_spec ct.class_table 9 No_class "B" ≠ some Object ∧
      lub_spec ct.class_table 9 "B" No_class ≠ some Object) :=
  ⟨⟨_, rfl, by decide, by decide, by decide, by decide, by decide, by decide, by decide⟩,
    ⟨_, rfl, by decide, by decide, by decide, by decide, by decide, by decide, by decide,
      by decide, by decide⟩⟩

/-! ## Which classes get a cycle error -/

/-- The walk of `check_inheritance` ends without a cycle error exactly when the
chain it follows visits no name twice and meets no visited name. -/
theorem cycle_walk_eq {tbl : SymbolTable Class_} :
    ∀ (fuel : Nat) (visited : List Symbol) (current : Symbol) (b : Bool),
      cycle_walk tbl fuel visited current = some b →
      (b = false ↔ (parent_chain tbl fuel current).Nodup ∧
        ∀ y ∈ parent_chain tbl fuel current, y ∉ visited) := by
  intro fuel
  induction fuel with
  | zero =>
    intro visited current b h
    simp [cycle_walk] at h
  | succ fuel ih =>
    intro visited current b h
    unfold cycle_walk at h
    unfold parent_chain
    by_cases hc : current = No_class
    · rw [if_pos hc] at h
      cases h
      simp [hc]
    · rw [if_neg hc] at h
      rw [if_neg hc]
      by_cases hv : current ∈ visited
      · rw [if_pos hv] at h
        cases h
        constructor
        · intro h
          cases h
        · intro h
          exfalso
          cases hl : tbl.lookup current with
          | none =>
            rw [hl] at h
            exact h.2 current (List.mem_singleton_self _) hv
          | some pc =>
            rw [hl] at h
            exact h.2 current (List.mem_cons_self _ _) hv
      · rw [if_neg hv] at h
        cases hl : tbl.lookup current with
        | none =>
          rw [hl] at h
          cases h
          simp [hv]
        | some pc =>
          rw [hl] at h
          simp only at h ⊢
          rw [ih (current :: visited) pc.parent b h, List.nodup_cons]
          constructor
          · intro h1
            refine ⟨⟨fun hm => h1.2 current hm (List.mem_cons_self _ _), h1.1⟩, ?_⟩
            intro y hy
            rcases List.mem_cons.mp hy with rfl | hy
            · exact hv
            · exact fun hm => h1.2 y hy (List.mem_cons_of_mem _ hm)
          · intro h1
            refine ⟨h1.1.2, ?_⟩
            intro y hy hm
            rcases List.mem_cons.mp hm with rfl | hm
            · exact h1.1.1 hy
            · exact h1.2 y (List.mem_cons_of_mem _ hy) hm

/-- More fuel does not change the result of a walk that ended. -/
theorem cycle_walk_mono {tbl : SymbolTable Class_} :
    ∀ (fuel : Nat) (visited : List Symbol) (current : Symbol) (b : Bool),
      cycle_walk tbl fuel visited current = some b →
      ∀ k, cycle_walk tbl (fuel + k) visited current = some b := by
  intro fuel
  induction fuel with
  | zero =>
    intro visited current b h
    simp [cycle_walk] at h
  | succ fuel ih =>
    intro visited current b h k
    have hk : fuel + 1 + k = (fuel + k) + 1 := by omega
    rw [hk]
    unfold cycle_walk at h ⊢
    by_cases hc : current = No_class
    · rw [if_pos hc] at h ⊢
      exact h
    · rw [if_neg hc] at h ⊢
      by_cases hv : current ∈ visited
      · rw [if_pos hv] at h ⊢
        exact h
      · rw [if_neg hv] at h ⊢
        cases hl : tbl.lookup current with
        | none =>
          rw [hl] at h
          exact h
        | some pc =>
          rw [hl] at h
          exact ih (current :: visited) pc.parent b h k

/-- The cycle messages of `check_inheritance` about one class: one when
`cycle_reported` holds of it, none otherwise. -/
theorem class_errors_cycle {ct : ClassTable} {sc : List (Symbol × Class_)}
    (hinv : RegistryInv ct sc) {fuel n : Nat} (hn : sc.length < n) {x : Symbol}
    {e : List SemantError} (he : class_errors fuel ct.class_table x = some e) :
    errors_of_kind ErrorKind.inheritance_cycle e =
      if cycle_reported ct.class_table n x then [⟨ErrorKind.inheritance_cycle, x⟩] else [] := by
  unfold class_errors at he
  unfold cycle_reported
  cases hl : ct.class_table.lookup x with
  | none =>
    rw [hl] at he
    cases he
    rfl
  | some c =>
    rw [hl] at he
    simp only at he ⊢
    have hname : c.name = x := hinv.lookup_name hl
    obtain ⟨n', hn'⟩ : ∃ n', n = n' + 1 := ⟨n - 1, by omega⟩
    subst hn'
    have hanc : ancestors ct.class_table (n' + 1) x =
        parent_chain ct.class_table (n' + 1) c.parent := by
      simp [ancestors, hl]
    unfold inheritance_error at he
    by_cases hp : c.parent = No_class
    · rw [if_neg (not_not.mpr hp)] at he
      cases he
      have : chain_revisits ct.class_table (n' + 1) x = false := by
        simp [chain_revisits, hanc, hp, parent_chain]
      simp [this, errors_of_kind]
    · rw [if_pos hp] at he
      by_cases hprim : primitive_parent c
      · have hprim' := hprim
        unfold primitive_parent at hprim'
        rw [if_pos hprim'] at he
        cases he
        simp [hprim, errors_of_kind]
      · have hprim' := hprim
        unfold primitive_parent at hprim'
        rw [if_neg hprim'] at he
        cases hlp : ct.class_table.lookup c.parent with
        | none =>
          rw [hlp] at he
          simp only [Option.isNone_none, if_true] at he
          cases he
          have hxp : x ≠ c.parent := by
            intro h
            rw [← h, hl] at hlp
            cases hlp
          have : chain_revisits ct.class_table (n' + 1) x = false := by
            simp [chain_revisits, hanc, parent_chain, hp, hlp, hxp]
          simp [this, errors_of_kind]
        | some pc =>
          rw [hlp] at he
          simp only [Option.isNone_some, Bool.false_eq_true, if_false] at he
          have hsome := cycle_walk_isSome ct.class_table (sc.map Prod.fst)
            (fun s hs => (hinv.lookup_isSome s).mp hs) (n' + 1) [c.name] c.parent
            (lt_of_le_of_lt ((List.length_filter_le _ _).trans (by simp)) hn)
          cases hwn : cycle_walk ct.class_table (n' + 1) [c.name] c.parent with
          | none => rw [hwn] at hsome; cases hsome
          | some bn =>
            have hiff : bn = false ↔
                (x :: parent_chain ct.class_table (n' + 1) c.parent).Nodup := by
              rw [cycle_walk_eq (n' + 1) [c.name] c.parent bn hwn, hname, List.nodup_cons]
              constructor
              · intro h2
                exact ⟨fun hm => h2.2 x hm (List.mem_singleton_self _), h2.1⟩
              · intro h2
                exact ⟨h2.2, fun y hy hm => h2.1 (List.mem_singleton.mp hm ▸ hy)⟩
            have hrev : chain_revisits ct.class_table (n' + 1) x = bn := by
              simp only [chain_revisits, hanc]
              cases bn with
              | false => simp [hiff.mp rfl]
              | true =>
                have hnot : ¬ (x :: parent_chain ct.class_table (n' + 1) c.parent).Nodup := by
                  intro h2
                  have := hiff.mpr h2
                  cases this
                simp [hnot]
            cases hwf : cycle_walk ct.class_table fuel [c.name] c.parent with
            | none =>
              rw [hwf] at he
              cases he
            | some bf =>
              have h1 := cycle_walk_mono fuel [c.name] c.parent bf hwf (n' + 1)
              have h2 := cycle_walk_mono (n' + 1) [c.name] c.parent bn hwn fuel
              rw [Nat.add_comm] at h2
              rw [h1] at h2
              have hb : bf = bn := Option.some.inj h2
              rw [hwf] at he
              subst hb
              cases bf with
              | false =>
                cases he
                simp [hrev, errors_of_kind]
              | true =>
                cases he
                simp [hrev, hprim, errors_of_kind, hname]

/-- The cycle messages of `check_inheritance` about the classes `names`: one
for each of them of which `cycle_reported` holds, in order. -/
theorem inheritance_errors_cycle {ct : ClassTable} {sc : List (Symbol × Class_)}
    (hinv : RegistryInv ct sc) {fuel n : Nat} (hn : sc.length < n) :
    ∀ {names : List Symbol} {errs : List SemantError},
      inheritance_errors fuel ct.class_table names = some errs →
      errors_of_kind ErrorKind.inheritance_cycle errs =
        (names.filter (cycle_reported ct.class_table n)).map
          (fun x => (⟨ErrorKind.inheritance_cycle, x⟩ : SemantError)) := by
  intro names
  induction names with
  | nil =>
    intro errs he
    simp only [inheritance_errors, Option.some.injEq] at he
    subst he
    rfl
  | cons m rest ih =>
    intro errs he
    unfold inheritance_errors at he
    cases h1 : class_errors fuel ct.class_table m with
    | none => simp [h1] at he
    | some e =>
      cases h2 : inheritance_errors fuel ct.class_table rest with
      | none => simp [h1, h2] at he
      | some es =>
        simp only [h1, h2, Option.some.injEq] at he
        subst he
        have hm := class_errors_cycle hinv hn h1
        have hr := ih h2
        unfold errors_of_kind at hm hr ⊢
        rw [List.filter_append, hm, hr]
        cases hc : cycle_reported ct.class_table n m <;> simp [List.filter_cons, hc]

/-- C28 (amended): the cycle errors of `check_inheritance` are reported once per
class whose parent walk meets a name again, and for nothing else: the
constructor returns, and the cycle messages in its stream are, in the order of
the walk over the registry, exactly one for every registered class whose parent
is none of `Int`, `Float`, `String`, `Bool` and which lies on an inheritance
cycle or descends from a class that does (its chain of more parent links than
there are classes visits a name twice); so their number is the number of these
classes, and each of them gets exactly one. -/
theorem cycle_errors_eq (fuel : Nat) (classes : List Class_)
    (hfuel : classes.length + 5 < fuel) (n : Nat) (hn : classes.length + 5 < n) :
    ∃ ct, ClassTable.new fuel classes = some ct ∧
      ct.class_table = (registry classes).class_table ∧
      ((registry classes).class_table.entries.map Prod.fst).Nodup ∧
      errors_of_kind ErrorKind.inheritance_cycle ct.error_stream =
        (((registry classes).class_table.entries.map Prod.fst).filter
          (cycle_reported (registry classes).class_table n)).map
            (fun x => (⟨ErrorKind.inheritance_cycle, x⟩ : SemantError)) ∧
      (errors_of_kind ErrorKind.inheritance_cycle ct.error_stream).length =
        (((registry classes).class_table.entries.map Prod.fst).filter
          (cycle_reported (registry classes).class_table n)).length ∧
      ∀ x, ct.error_stream.count ⟨ErrorKind.inheritance_cycle, x⟩ =
        if cycle_reported (registry classes).class_table n x then 1 else 0 := by
  obtain ⟨ct, hnew⟩ := new_isSome fuel classes hfuel
  obtain ⟨sc, errs, hinv, _, _, hlen, he, htbl, hstream, _, _⟩ := new_inv hnew
  change ct.class_table = (registry classes).class_table at htbl
  change ct.error_stream = (registry classes).error_stream ++ errs at hstream
  have hentries : (registry classes).class_table.entries = sc := by
    rw [← htbl]
    exact entries_single hinv.scopes
  have hbuilt : errors_of_kind ErrorKind.inheritance_cycle (registry classes).error_stream =
      [] := by
    unfold errors_of_kind
    rw [List.filter_eq_nil_iff]
    intro e hm
    rcases build_error_kinds classes _ _ hm with h | h | h
    · simp [install_basic_classes, ClassTable.init] at h
    · simp [h]
    · simp [h]
  have hcyc := inheritance_errors_cycle hinv (lt_of_le_of_lt hlen hn) he
  rw [htbl] at hcyc
  have hlist : errors_of_kind ErrorKind.inheritance_cycle ct.error_stream =
      (((registry classes).class_table.entries.map Prod.fst).filter
        (cycle_reported (registry classes).class_table n)).map
          (fun x => (⟨ErrorKind.inheritance_cycle, x⟩ : SemantError)) := by
    rw [hstream, hentries, ← hcyc]
    unfold errors_of_kind at hbuilt ⊢
    rw [List.filter_append, hbuilt, List.nil_append]
  have hnd : ((registry classes).class_table.entries.map Prod.fst).Nodup := by
    rw [hentries]
    exact hinv.nodup
  refine ⟨ct, hnew, htbl, hnd, hlist, ?_, ?_⟩
  · rw [hlist, List.length_map]
  · intro x
    have hinj : Function.Injective
        (fun x => (⟨ErrorKind.inheritance_cycle, x⟩ : SemantError)) := by
      intro a b hab
      exact congrArg SemantError.class_name hab
    have hcount : ct.error_stream.count ⟨ErrorKind.inheritance_cycle, x⟩ =
        (errors_of_kind ErrorKind.inheritance_cycle ct.error_stream).count
          ⟨ErrorKind.inheritance_cycle, x⟩ := by
      unfold errors_of_kind
      exact (List.count_filter (l := ct.error_stream)
        (p := fun e => decide (e.kind = ErrorKind.inheritance_cycle))
        (a := (⟨ErrorKind.inheritance_cycle, x⟩ : SemantError)) (by simp)).symm
    rw [hcount, hlist]
    have hmap := List.count_map_of_injective
      (((registry classes).class_table.entries.map Prod.fst).filter
        (cycle_reported (registry classes).class_table n))
      (fun x => (⟨ErrorKind.inheritance_cycle, x⟩ : SemantError)) hinj x
    rw [hmap]
    cases hc : cycle_reported (registry classes).class_table n x with
    | false =>
      simp only [Bool.false_eq_true, if_false]
      rw [List.count_eq_zero]
      intro hm
      have := (List.mem_filter.mp hm).2
      rw [hc] at this
      cases this
    | true =>
      simp only [if_true]
      have hreg : x ∈ (registry classes).class_table.entries.map Prod.fst := by
        rw [hentries, ← hinv.lookup_isSome x, htbl]
        unfold cycle_reported at hc
        cases hl : (registry classes).class_table.lookup x with
        | none => simp [hl] at hc
        | some c => rfl
      exact List.count_eq_one_of_mem (hnd.filter _) (List.mem_filter.mpr ⟨hreg, hc⟩)

/-- Witness of C28 (amended) on `class A inherits B`, `class B inherits A`,
`class C inherits A`: three cycle messages, one for each of `C`, `B`, `A`. -/
theorem cycle_errors_eq_witness :
    ∃ ct, ClassTable.new 9 [sample_A_inherits_B, sample_B_inherits_A, sample_C_inherits_A] =
        some ct ∧
      errors_of_kind ErrorKind.inheritance_cycle ct.error_stream =
        [⟨ErrorKind.inheritance_cycle, "C"⟩, ⟨ErrorKind.inheritance_cycle, "B"⟩,
         ⟨ErrorKind.inheritance_cycle, "A"⟩] ∧
      ct.error_stream.count ⟨ErrorKind.inheritance_cycle, "C"⟩ = 1 ∧
      ct.error_stream.count ⟨ErrorKind.inheritance_cycle, Object⟩ = 0 := by
  obtain ⟨ct, h1, _, _, h4, _, h6⟩ :=
    cycle_errors_eq 9 [sample_A_inherits_B, sample_B_inherits_A, sample_C_inherits_A]
      (by decide) 9 (by decide)
  exact ⟨ct, h1, h4.trans (by decide), (h6 "C").trans (by decide),
    (h6 Object).trans (by decide)⟩

/-- C28 fails as stated: with `class A inherits B`, `class B inherits A` and
`class C inherits A`, two registered classes lie on an inheritance cycle, `A`
and `B`, but three cycle errors are reported: the class `C`, which only descends
from the cycle, gets one too. -/
theorem cycle_errors_counterexample :
    ∃ ct, ClassTable.new 9 [sample_A_inherits_B, sample_B_inherits_A, sample_C_inherits_A] =
        some ct ∧
      (errors_of_kind ErrorKind.inheritance_cycle ct.error_stream).length = 3 ∧
      (ct.class_table.entries.map Prod.fst).filter (on_cycle ct.class_table 9) = ["B", "A"] ∧
      (ct.class_table.lookup "C").isSome = true ∧
      on_cycle ct.class_table 9 "C" = false ∧
      ancestors ct.class_table 4 "C" = ["A", "B", "A", "B"] ∧
      ct.error_stream.count ⟨ErrorKind.inheritance_cycle, "C"⟩ = 1 :=
  ⟨_, rfl, by decide, by decide, by decide, by decide, by decide, by decide⟩

/-! ## Termination of `check_inheritance` on every registry -/

theorem lookup_scopes_mem {α : Type} {s : Symbol} {v : α} :
    ∀ {scopes : List (List (Symbol × α))},
      SymbolTable.lookup_scopes s scopes = some v → (s, v) ∈ scopes.flatten
  | [], h => by simp [SymbolTable.lookup_scopes] at h
  | sc :: rest, h => by
    unfold SymbolTable.lookup_scopes at h
    rw [List.flatten_cons, List.mem_append]
    cases hf : SymbolTable.find_in_scope s sc with
    | some w =>
      rw [hf] at h
      cases h
      exact Or.inl (find_in_scope_mem hf)
    | none =>
      rw [hf] at h
      exact Or.inr (lookup_scopes_mem h)

/-- A name that is looked up successfully is among the entries of the table. -/
theorem lookup_mem_entries {α : Type} (t : SymbolTable α) {s : Symbol}
    (h : (t.lookup s).isSome = true) : s ∈ t.entries.map Prod.fst := by
  cases hl : t.lookup s with
  | none => rw [hl] at h; cases h
  | some v => exact List.mem_map_of_mem Prod.fst (lookup_scopes_mem hl)

/-- The walk of `check_inheritance` ends within as many steps as the registry
has entries, plus one, whatever the registry holds. -/
theorem cycle_walk_terminates (tbl : SymbolTable Class_) {fuel : Nat}
    (hf : tbl.entries.length < fuel) (visited : List Symbol) (current : Symbol) :
    ∃ b, cycle_walk tbl fuel visited current = some b := by
  have h := cycle_walk_isSome tbl (tbl.entries.map Prod.fst)
    (fun s hs => lookup_mem_entries tbl hs) fuel visited current
    (lt_of_le_of_lt ((List.length_filter_le _ _).trans (by simp)) hf)
  cases hc : cycle_walk tbl fuel visited current with
  | none => rw [hc] at h; cases h
  | some b => exact ⟨b, rfl⟩

theorem inheritance_error_terminates (tbl : SymbolTable Class_) {fuel : Nat}
    (hf : tbl.entries.length < fuel) (c : Class_) :
    ∃ r, inheritance_error fuel tbl c = some r := by
  unfold inheritance_error
  split
  · split
    · exact ⟨_, rfl⟩
    · split
      · exact ⟨_, rfl⟩
      · obtain ⟨b, hb⟩ := cycle_walk_terminates tbl hf [c.name] c.parent
        rw [hb]
        cases b <;> exact ⟨_, rfl⟩
  · exact ⟨_, rfl⟩

theorem inheritance_errors_terminates (tbl : SymbolTable Class_) {fuel : Nat}
    (hf : tbl.entries.length < fuel) :
    ∀ names : List Symbol, ∃ errs, inheritance_errors fuel tbl names = some errs
  | [] => ⟨[], rfl⟩
  | n :: rest => by
    obtain ⟨es, hes⟩ := inheritance_errors_terminates tbl hf rest
    have h1 : ∃ e, class_errors fuel tbl n = some e := by
      unfold class_errors
      cases tbl.lookup n with
      | none => exact ⟨_, rfl⟩
      | some c =>
        obtain ⟨r, hr⟩ := inheritance_error_terminates tbl hf c
        simp only [hr]
        cases r <;> exact ⟨_, rfl⟩
    obtain ⟨e, he⟩ := h1
    unfold inheritance_errors
    rw [he, hes]
    exact ⟨_, rfl⟩

/-- C32: `check_inheritance` terminates on every registry, whatever it holds
(inheritance cycles, dangling parents, any number of scopes): with a bound of
more iterations than the registry has entries it returns, leaving the registry
as it was; and the walk over the parent links of any class `c`, started with
the visited set holding the name of `c`, ends within (number of registered
classes + 1) iterations, whether by the no-parent sentinel, a revisited name or
a missing class. -/
theorem check_inheritance_terminates (ct : ClassTable) (fuel : Nat) (hfuel : ct.size < fuel) :
    (∃ ct', check_inheritance fuel ct = some ct' ∧ ct'.class_table = ct.class_table) ∧
    (∀ c : Class_, ∃ r, inheritance_error fuel ct.class_table c = some r) ∧
    (∀ (visited : List Symbol) (current : Symbol),
      ∃ b, cycle_walk ct.class_table fuel visited current = some b) ∧
    (∀ c : Class_, ∃ b, cycle_walk ct.class_table (ct.size + 1) [c.name] c.parent = some b) := by
  refine ⟨?_, fun c => inheritance_error_terminates ct.class_table hfuel c,
    fun visited current => cycle_walk_terminates ct.class_table hfuel visited current,
    fun c => cycle_walk_terminates ct.class_table (Nat.lt_succ_self _) [c.name] c.parent⟩
  obtain ⟨errs, he⟩ := inheritance_errors_terminates ct.class_table hfuel
    (ct.class_table.entries.map Prod.fst)
  unfold check_inheritance
  rw [check_inheritance_loop_eq, he]
  exact ⟨_, rfl, rfl⟩

/-- Witness of C32 on `class A inherits B`, `class B inherits A`, `class C
inherits A` (a cycle and a descendant of it) and on `class A inherits Zorp` (a
dangling parent): `check_inheritance` returns with 9 and with 7 iterations
allowed, and the walk of `C` ends with the cycle error. -/
theorem check_inheritance_terminates_witness :
    (∃ ct', check_inheritance 9
        (registry [sample_A_inherits_B, sample_B_inherits_A, sample_C_inherits_A]) = some ct') ∧
    (∃ ct', check_inheritance 7 (registry [sample_A_inherits_Zorp]) = some ct') ∧
    cycle_walk
        (registry [sample_A_inherits_B, sample_B_inherits_A, sample_C_inherits_A]).class_table
        9 ["C"] "A" = some true := by
  obtain ⟨ct1, h1, _⟩ := (check_inheritance_terminates
    (registry [sample_A_inherits_B, sample_B_inherits_A, sample_C_inherits_A]) 9 (by decide)).1
  obtain ⟨ct2, h2, _⟩ := (check_inheritance_terminates
    (registry [sample_A_inherits_Zorp]) 7 (by decide)).1
  exact ⟨⟨ct1, h1⟩, ⟨ct2, h2⟩, by decide⟩

/-! ## Commutativity of `lub` -/

/-- The vector built by the first loop of `lub` is the chain of its argument. -/
theorem lub_ancestors_chain {tbl : SymbolTable Class_} :
    ∀ (fuel : Nat) (x : Symbol) (l : List Symbol),
      lub_ancestors tbl fuel x = some l → l = parent_chain tbl fuel x := by
  intro fuel
  induction fuel with
  | zero =>
    intro x l h
    simp [lub_ancestors] at h
  | succ fuel ih =>
    intro x l h
    unfold lub_ancestors at h
    unfold parent_chain
    by_cases hx : x = No_class
    · rw [if_pos hx] at h ⊢
      cases h
      rfl
    · rw [if_neg hx] at h ⊢
      cases hl : tbl.lookup x with
      | none =>
        rw [hl] at h
        cases h
        rfl
      | some c =>
        rw [hl] at h
        simp only at h ⊢
        cases hr : lub_ancestors tbl fuel c.parent with
        | none => rw [hr] at h; cases h
        | some l' =>
          rw [hr] at h
          cases h
          rw [ih c.parent l' hr]

/-- The second loop of `lub` returns `Object` or a member of `type1_ancestors`
met on the chain of its argument. -/
theorem lub_search_result {tbl : SymbolTable Class_} (anc : List Symbol) :
    ∀ (fuel : Nat) (x r : Symbol), lub_search tbl anc fuel x = some r →
      r = Object ∨ (r ∈ anc ∧ r ∈ parent_chain tbl fuel x) := by
  intro fuel
  induction fuel with
  | zero =>
    intro x r h
    simp [lub_search] at h
  | succ fuel ih =>
    intro x r h
    unfold lub_search at h
    unfold parent_chain
    by_cases hx : x = No_class
    · rw [if_pos hx] at h
      cases h
      exact Or.inl rfl
    · rw [if_neg hx] at h
      rw [if_neg hx]
      cases hfind : anc.find? (fun ancestor => decide (x = ancestor)) with
      | some a =>
        rw [hfind] at h
        cases h
        have ha := List.find?_some hfind
        have hmem := List.mem_of_find?_eq_some hfind
        simp only [decide_eq_true_eq] at ha
        subst ha
        refine Or.inr ⟨hmem, ?_⟩
        cases tbl.lookup x <;> simp
      | none =>
        rw [hfind] at h
        simp only at h
        cases hl : tbl.lookup x with
        | none =>
          rw [hl] at h
          cases h
          exact Or.inl rfl
        | some c =>
          rw [hl] at h
          simp only at h ⊢
          rcases ih c.parent r h with h1 | h1
          · exact Or.inl h1
          · exact Or.inr ⟨h1.1, List.mem_cons_of_mem _ h1.2⟩

/-- The loop of `is_subtype` never answers true for the symbol `No_class`. -/
theorem is_subtype_walk_No_class {tbl : SymbolTable Class_} :
    ∀ (fuel : Nat) (x : Symbol) (r : Bool),
      is_subtype_walk tbl No_class fuel x = some r → r = false := by
  intro fuel
  induction fuel with
  | zero =>
    intro x r h
    simp [is_subtype_walk] at h
  | succ fuel ih =>
    intro x r h
    unfold is_subtype_walk at h
    by_cases hx : x = No_class
    · rw [if_pos hx] at h
      cases h
      rfl
    · rw [if_neg hx, if_neg hx] at h
      cases hl : tbl.lookup x with
      | none =>
        rw [hl] at h
        cases h
        rfl
      | some c =>
        rw [hl] at h
        exact ih c.parent r h

theorem Rooted.No_class_nil {tbl : SymbolTable Class_} {l : List Symbol}
    (h : Rooted tbl No_class l) : l = [] := by
  cases h with
  | root => rfl
  | step h1 _ _ => exact absurd rfl h1

/-- On a chain, nothing follows a class without parent. -/
theorem Rooted.not_before {tbl : SymbolTable Class_} {x o : Symbol} {co : Class_}
    (ho : tbl.lookup o = some co) (hp : co.parent = No_class)
    {q : List Symbol} {m : Symbol} {t : List Symbol} (h : Rooted tbl x (q ++ m :: t)) :
    o ∉ q := by
  intro hmem
  obtain ⟨u, v, huv⟩ := List.append_of_mem hmem
  subst huv
  rw [List.append_assoc, List.cons_append] at h
  have hs := h.suffix
  cases hs with
  | step _ hl hr =>
    rw [ho] at hl
    cases hl
    rw [hp] at hr
    have := hr.No_class_nil
    simp at this

theorem find?_getD_Object {l : List Symbol} {p : Symbol → Bool}
    (h : ∀ r, l.find? p = some r → r = Object) : (l.find? p).getD Object = Object := by
  cases hf : l.find? p with
  | none => rfl
  | some r => simp [h r hf]

/-- On two chains of one registry, the first member of the second chain that
belongs to the first chain is also the first member of the first chain that
belongs to the second, and adding `Object` to the chain searched for changes
neither. -/
theorem first_common_one_sided {tbl : SymbolTable Class_} {co : Class_}
    (ho : tbl.lookup Object = some co) (hp : co.parent = No_class)
    {a b : Symbol} {P Q : List Symbol} (hP : Rooted tbl a P) (hQ : Rooted tbl b Q)
    (hPn : P.Nodup) {m : Symbol}
    (hfind : Q.find? (fun y => decide (y ∈ P)) = some m) :
    Q.find? (fun y => decide (y ∈ P ++ [Object])) = some m ∧
      P.find? (fun y => decide (y ∈ Q ++ [Object])) = some m := by
  obtain ⟨hm, q1, t, hQs, hq1⟩ := List.find?_eq_some.mp hfind
  simp only [decide_eq_true_eq] at hm
  obtain ⟨p1, t', hPs⟩ := List.append_of_mem hm
  subst hQs
  subst hPs
  have ht : t' = t := by
    have h1 := hP.suffix
    have h2 := hQ.suffix
    have := h1.unique h2
    simpa using this
  subst ht
  have hq1' : ∀ y ∈ q1, y ∉ p1 ++ m :: t' := by
    intro y hy
    simpa using hq1 y hy
  constructor
  · rw [List.find?_eq_some]
    refine ⟨by simp, q1, t', rfl, ?_⟩
    intro y hy
    have hno : y ∉ (p1 ++ m :: t') ++ [Object] := by
      intro h
      rcases List.mem_append.mp h with h | h
      · exact hq1' y hy h
      · rw [List.mem_singleton.mp h] at hy
        exact Rooted.not_before ho hp hQ hy
    simpa using hno
  · rw [List.find?_eq_some]
    refine ⟨by simp, p1, t', rfl, ?_⟩
    intro y hy
    have hno : y ∉ (q1 ++ m :: t') ++ [Object] := by
      intro h
      rcases List.mem_append.mp h with h | h
      · rcases List.mem_append.mp h with h | h
        · exact hq1' y h (List.mem_append_left _ hy)
        · exact (List.nodup_append.mp hPn).2.2 hy h
      · rw [List.mem_singleton.mp h] at hy
        exact Rooted.not_before ho hp hP hy
    simpa using hno

theorem first_common_comm {tbl : SymbolTable Class_} {co : Class_}
    (ho : tbl.lookup Object = some co) (hp : co.parent = No_class)
    {a b : Symbol} {P Q : List Symbol} (hP : Rooted tbl a P) (hQ : Rooted tbl b Q)
    (hPn : P.Nodup) :
    (Q.find? (fun y => decide (y ∈ P ++ [Object]))).getD Object =
      (P.find? (fun y => decide (y ∈ Q ++ [Object]))).getD Object := by
  cases hfind : Q.find? (fun y => decide (y ∈ P)) with
  | some m =>
    obtain ⟨h1, h2⟩ := first_common_one_sided ho hp hP hQ hPn hfind
    rw [h1, h2]
  | none =>
    have hdis : ∀ y ∈ Q, y ∉ P := by
      intro y hy
      simpa using List.find?_eq_none.mp hfind y hy
    rw [find?_getD_Object, find?_getD_Object]
    · intro r hr
      have h1 := List.find?_some hr
      have h2 := List.mem_of_find?_eq_some hr
      simp only [decide_eq_true_eq, List.mem_append, List.mem_singleton] at h1
      rcases h1 with h1 | h1
      · exact absurd h2 (hdis r h1)
      · exact h1
    · intro r hr
      have h1 := List.find?_some hr
      have h2 := List.mem_of_find?_eq_some hr
      simp only [decide_eq_true_eq, List.mem_append, List.mem_singleton] at h1
      rcases h1 with h1 | h1
      · exact absurd h1 (hdis r h2)
      · exact h1

/-- With the symbol `No_class` on one side, `lub` is the other side when the
class registered under that symbol conforms to it, and `Object` otherwise, in
both orders. -/
theorem lub_No_class_comm {fuel0 : Nat} {classes : List Class_} {ct : ClassTable}
    (hnew : ClassTable.new fuel0 classes = some ct) (h0 : ct.semant_errors = 0)
    {fuel : Nat} (hfuel : ct.size < fuel) {b : Symbol} (hb : b ≠ SELF_TYPE)
    (hb' : b ≠ No_class) :
    ∃ r, lub fuel ct No_class b = some r ∧ lub fuel ct b No_class = some r := by
  have hT := terminating_of_validated hnew h0
  have hN : No_class ≠ SELF_TYPE := by decide
  obtain ⟨f, hf⟩ : ∃ f, fuel = f + 1 := ⟨fuel - 1, by omega⟩
  have hs2 : is_subtype fuel ct b No_class = some false := by
    obtain ⟨r, hr⟩ := is_subtype_isSome hT hfuel b No_class
    rw [hr]
    unfold is_subtype at hr
    rw [if_neg (fun h => hb h.1), if_neg hb, if_neg hN, if_neg hb'] at hr
    cases hl : ct.class_table.lookup b with
    | none =>
      rw [hl] at hr
      exact hr.symm
    | some cb =>
      rw [hl] at hr
      rw [is_subtype_walk_No_class fuel cb.parent r hr]
  obtain ⟨s1, hs1⟩ := is_subtype_isSome hT hfuel No_class b
  cases s1 with
  | true =>
    refine ⟨b, ?_, ?_⟩
    · unfold lub
      rw [if_neg (fun h => hN h.1), if_neg (fun h => h.elim hN hb), hs1]
    · unfold lub
      rw [if_neg (fun h => hb h.1), if_neg (fun h => h.elim hb hN), hs2]
      simp only
      rw [hs1]
  | false =>
    refine ⟨Object, ?_, ?_⟩
    · unfold lub
      rw [if_neg (fun h => hN h.1), if_neg (fun h => h.elim hN hb), hs1]
      simp only
      rw [hs2]
      simp only
      have ha : lub_ancestors ct.class_table fuel No_class = some [] := by
        rw [hf]
        simp [lub_ancestors]
      rw [ha]
      simp only
      obtain ⟨r, hr⟩ := lub_search_isSome hT hfuel ([] ++ [Object]) b
      rw [hr]
      rcases lub_search_result _ fuel b r hr with h | h
      · rw [h]
      · have := h.1
        simp only [List.nil_append, List.mem_singleton] at this
        rw [this]
    · unfold lub
      rw [if_neg (fun h => hb h.1), if_neg (fun h => h.elim hb hN), hs2]
      simp only
      rw [hs1]
      simp only
      obtain ⟨l, hl⟩ := lub_ancestors_isSome hT hfuel b
      rw [hl]
      simp only
      rw [hf]
      simp [lub_search]

/-- With an unregistered name on one side, `lub` is `Object` in both orders. -/
theorem lub_unregistered_comm {fuel0 : Nat} {classes : List Class_} {ct : ClassTable}
    (hnew : ClassTable.new fuel0 classes = some ct) (h0 : ct.semant_errors = 0)
    {fuel : Nat} (hfuel : ct.size < fuel) {a b : Symbol}
    (hla : ct.class_table.lookup a = none) (ha : a ≠ SELF_TYPE) (ha' : a ≠ No_class)
    (hb : b ≠ SELF_TYPE) (hb' : b ≠ No_class) (hab : a ≠ b) :
    lub fuel ct a b = some Object ∧ lub fuel ct b a = some Object := by
  have hT := terminating_of_validated hnew h0
  obtain ⟨f, hf⟩ : ∃ f, fuel = f + 1 := ⟨fuel - 1, by omega⟩
  have hba : ¬ b = a := fun h => hab h.symm
  have hao : a ≠ Object := by
    intro h
    rw [h, lookup_Object hnew] at hla
    cases hla
  have hchain : a ∉ parent_chain ct.class_table fuel b ∧
      is_subtype fuel ct b a = some false := by
    cases hlb : ct.class_table.lookup b with
    | none =>
      constructor
      · rw [hf]
        simp [parent_chain, hb', hlb, hab]
      · unfold is_subtype
        simp [hb, ha, hba, hlb]
    | some cb =>
      obtain ⟨lb, hrb, _, _, hlen⟩ := validated_chain hnew h0 hlb
      have hRb : Rooted ct.class_table b (b :: lb) := Rooted.step hb' hlb hrb
      have hmem : a ∉ b :: lb := by
        intro h
        rcases List.mem_cons.mp h with h | h
        · exact hab h
        · have := (hrb.mem_registered a h).2
          rw [hla] at this
          cases this
      constructor
      · rw [parent_chain_rooted hRb fuel (by simp only [List.length_cons]; omega)]
        exact hmem
      · rw [is_subtype_chain hnew hlb hrb (show lb.length < fuel by omega) a]
        simp only [Option.some.injEq, decide_eq_false_iff_not]
        exact fun h => hmem h.2
  have hsab : is_subtype fuel ct a b = some false := by
    unfold is_subtype
    simp [ha, hb, hab, hla]
  constructor
  · unfold lub
    rw [if_neg (fun h => ha h.1), if_neg (fun h => h.elim ha hb), hsab]
    simp only
    rw [hchain.2]
    simp only
    have hanc : lub_ancestors ct.class_table fuel a = some [a] := by
      rw [hf]
      simp [lub_ancestors, ha', hla]
    rw [hanc]
    simp only
    obtain ⟨r, hr⟩ := lub_search_isSome hT hfuel ([a] ++ [Object]) b
    rw [hr]
    rcases lub_search_result _ fuel b r hr with h | h
    · rw [h]
    · have h1 := h.1
      simp only [List.singleton_append, List.mem_cons, List.mem_singleton, List.not_mem_nil,
        or_false] at h1
      rcases h1 with h1 | h1
      · rw [h1] at h
        exact absurd h.2 hchain.1
      · rw [h1]
  · unfold lub
    rw [if_neg (fun h => hb h.1), if_neg (fun h => h.elim hb ha), hchain.2]
    simp only
    rw [hsab]
    simp only
    obtain ⟨l, hl⟩ := lub_ancestors_isSome hT hfuel b
    rw [hl]
    simp only
    have hl' := lub_ancestors_chain fuel b l hl
    have hnot : a ∉ l ++ [Object] := by
      intro h
      rcases List.mem_append.mp h with h | h
      · rw [hl'] at h
        exact hchain.1 h
      · exact hao (List.mem_singleton.mp h)
    have hfind : (l ++ [Object]).find? (fun ancestor => decide (a = ancestor)) = none := by
      rw [List.find?_eq_none]
      intro y hy
      simp only [decide_eq_true_eq]
      intro h
      rw [← h] at hy
      exact hnot hy
    rw [hf]
    unfold lub_search
    rw [if_neg ha', hfind, hla]

/-- For two registered classes `lub` is the same in both orders. -/
theorem lub_registered_comm {fuel0 : Nat} {classes : List Class_} {ct : ClassTable}
    (hnew : ClassTable.new fuel0 classes = some ct) (h0 : ct.semant_errors = 0)
    {fuel : Nat} (hfuel : ct.size < fuel) {a b : Symbol} {ca cb : Class_}
    (hla : ct.class_table.lookup a = some ca) (hlb : ct.class_table.lookup b = some cb)
    (ha' : a ≠ No_class) (hb' : b ≠ No_class) (hab : a ≠ b) :
    ∃ r, lub fuel ct a b = some r ∧ lub fuel ct b a = some r := by
  obtain ⟨la, hra, hala, hnda, hlena⟩ := validated_chain hnew h0 hla
  obtain ⟨lb, hrb, hblb, hndb, hlenb⟩ := validated_chain hnew h0 hlb
  have hRa : Rooted ct.class_table a (a :: la) := Rooted.step ha' hla hra
  have hRb : Rooted ct.class_table b (b :: lb) := Rooted.step hb' hlb hrb
  have hPn : (a :: la).Nodup := List.nodup_cons.mpr ⟨hala, hnda⟩
  have hQn : (b :: lb).Nodup := List.nodup_cons.mpr ⟨hblb, hndb⟩
  have sa := is_subtype_chain hnew hla hra (show la.length < fuel by omega)
  have sb := is_subtype_chain hnew hlb hrb (show lb.length < fuel by omega)
  have has : a ≠ SELF_TYPE := registered_ne_SELF_TYPE hnew (by rw [hla]; rfl)
  have hbs : b ≠ SELF_TYPE := registered_ne_SELF_TYPE hnew (by rw [hlb]; rfl)
  have hboth : b ∈ a :: la → a ∈ b :: lb → False := by
    intro h1 h2
    have h1' : b ∈ la := by
      rcases List.mem_cons.mp h1 with h | h
      · exact absurd h.symm hab
      · exact h
    have h2' : a ∈ lb := by
      rcases List.mem_cons.mp h2 with h | h
      · exact absurd h hab
      · exact h
    exact hala (hra.mem_chain h1' hlb hrb a h2')
  have eab : is_subtype fuel ct a b = some (decide (b ∈ a :: la)) := by
    rw [sa b]
    simp [hbs]
  have eba : is_subtype fuel ct b a = some (decide (a ∈ b :: lb)) := by
    rw [sb a]
    simp [has]
  have hlub : ∀ {x y : Symbol} {lx ly : List Symbol}, x ≠ SELF_TYPE → y ≠ SELF_TYPE →
      Rooted ct.class_table x (x :: lx) → Rooted ct.class_table y (y :: ly) →
      lx.length < ct.size → ly.length < ct.size →
      is_subtype fuel ct x y = some (decide (y ∈ x :: lx)) →
      is_subtype fuel ct y x = some (decide (x ∈ y :: ly)) →
      lub fuel ct x y =
        some (if y ∈ x :: lx then y else if x ∈ y :: ly then x
          else ((y :: ly).find? (fun z => decide (z ∈ (x :: lx) ++ [Object]))).getD Object) := by
    intro x y lx ly hx hy hRx hRy hlx hly exy eyx
    unfold lub
    rw [if_neg (fun h => hx h.1), if_neg (fun h => h.elim hx hy), exy]
    by_cases h1 : y ∈ x :: lx
    · simp [h1]
    · simp only [h1, decide_False, if_false]
      rw [eyx]
      by_cases h2 : x ∈ y :: ly
      · simp [h2]
      · simp only [h2, decide_False, if_false]
        rw [lub_ancestors_rooted hRx fuel (by simp only [List.length_cons]; omega)]
        simp only
        rw [lub_search_rooted _ hRy fuel (by simp only [List.length_cons]; omega)]
  have hab' := hlub has hbs hRa hRb hlena hlenb eab eba
  have hba' := hlub hbs has hRb hRa hlenb hlena eba eab
  rw [hab', hba']
  by_cases h1 : b ∈ a :: la
  · have h2 : a ∉ b :: lb := fun h2 => hboth h1 h2
    exact ⟨b, by simp [h1], by simp [h1, h2]⟩
  · by_cases h2 : a ∈ b :: lb
    · exact ⟨a, by simp [h1, h2], by simp [h2]⟩
    · refine ⟨((b :: lb).find? (fun z => decide (z ∈ (a :: la) ++ [Object]))).getD Object,
        by simp only [h1, h2, if_false], ?_⟩
      simp only [h1, h2, if_false, Option.some.injEq]
      exact (first_common_comm (lookup_Object hnew) rfl hRa hRb hPn).symm

/-- C31: on a registry built without error, `lub` is commutative over all
symbols, registered classes, `SELF_TYPE` and unregistered names alike: `lub(a,
b)` and `lub(b, a)` both return, and return the same type. -/
theorem lub_comm {fuel0 : Nat} {classes : List Class_} {ct : ClassTable}
    (hnew : ClassTable.new fuel0 classes = some ct) (h0 : ct.semant_errors = 0)
    (a b : Symbol) (fuel : Nat) (hfuel : ct.size < fuel) :
    ∃ r, lub fuel ct a b = some r ∧ lub fuel ct b a = some r := by
  by_cases hab : a = b
  · subst hab
    obtain ⟨r, hr⟩ := lub_isSome (terminating_of_validated hnew h0) hfuel a a
    exact ⟨r, hr, hr⟩
  by_cases ha : a = SELF_TYPE
  · subst ha
    have hb : b ≠ SELF_TYPE := fun h => hab h.symm
    exact ⟨Object, by simp [lub, hb], by simp [lub, hb]⟩
  by_cases hb : b = SELF_TYPE
  · subst hb
    exact ⟨Object, by simp [lub, ha], by simp [lub, ha]⟩
  by_cases ha' : a = No_class
  · subst ha'
    exact lub_No_class_comm hnew h0 hfuel hb (fun h => hab h.symm)
  by_cases hb' : b = No_class
  · subst hb'
    obtain ⟨r, h1, h2⟩ := lub_No_class_comm hnew h0 hfuel ha ha'
    exact ⟨r, h2, h1⟩
  cases hla : ct.class_table.lookup a with
  | none => exact ⟨Object, lub_unregistered_comm hnew h0 hfuel hla ha ha' hb hb' hab⟩
  | some ca =>
    cases hlb : ct.class_table.lookup b with
    | none =>
      have := lub_unregistered_comm hnew h0 hfuel hlb hb hb' ha ha' (fun h => hab h.symm)
      exact ⟨Object, this.2, this.1⟩
    | some cb => exact lub_registered_comm hnew h0 hfuel hla hlb ha' hb' hab

/-- Witness of C31 on `class A`, `class B inherits A`: `lub(B, Int)` and
`lub(Int, B)` are both `Object`, and `lub(Zorp, B)` equals `lub(B, Zorp)` for
the unregistered name `Zorp`. -/
theorem lub_comm_witness :
    ∃ ct, ClassTable.new 8 [sample_A, sample_B] = some ct ∧
      (∃ r, lub 8 ct "B" Int_ = some r ∧ lub 8 ct Int_ "B" = some r) ∧
      (∃ r, lub 8 ct "Zorp" "B" = some r ∧ lub 8 ct "B" "Zorp" = some r) ∧
      lub 8 ct "B" Int_ = some Object ∧ lub 8 ct "A" "B" = some "A" ∧
      lub 8 ct "B" "A" = some "A" :=
  ⟨_, rfl,
    @lub_comm 8 [sample_A, sample_B] _ rfl (by decide) "B" Int_ 8 (by decide),
    @lub_comm 8 [sample_A, sample_B] _ rfl (by decide) "Zorp" "B" 8 (by decide),
    by decide, by decide, by decide⟩

/-! ## The environment of a class: attributes in feature order -/

theorem attrs_bound_append (tbl : SymbolTable Class_) :
    ∀ (l1 l2 : List Feature),
      attrs_bound tbl (l1 ++ l2) = attrs_bound tbl l2 ++ attrs_bound tbl l1
  | [], l2 => by simp [attrs_bound]
  | Feature.attr name type_decl init :: l1, l2 => by
    show attrs_bound tbl (Feature.attr name type_decl init :: (l1 ++ l2)) = _
    simp only [attrs_bound, attrs_bound_append tbl l1 l2, List.append_assoc]
  | Feature.method name formals return_type expr :: l1, l2 => by
    show attrs_bound tbl (Feature.method name formals return_type expr :: (l1 ++ l2)) = _
    simp only [attrs_bound, attrs_bound_append tbl l1 l2]

theorem attrs_bound_keys (tbl : SymbolTable Class_) (y : Symbol) :
    ∀ (fs : List Feature), y ∈ (attrs_bound tbl fs).map Prod.fst ↔ y ∈ attr_names fs
  | [] => by simp [attrs_bound, attr_names]
  | Feature.attr name type_decl init :: fs => by
    have ih := attrs_bound_keys tbl y fs
    simp only [attrs_bound, attr_names, List.map_append, List.mem_append, ih, List.map_cons,
      List.map_nil, List.mem_singleton, List.mem_cons, List.not_mem_nil, or_false]
    exact or_comm
  | Feature.method name formals return_type expr :: fs => by
    have ih := attrs_bound_keys tbl y fs
    simp only [attrs_bound, attr_names, ih]

theorem find_in_scope_append {α : Type} {s : Symbol} :
    ∀ {l1 : List (Symbol × α)} (l2 : List (Symbol × α)), s ∉ l1.map Prod.fst →
      SymbolTable.find_in_scope s (l1 ++ l2) = SymbolTable.find_in_scope s l2
  | [], _, _ => rfl
  | (k, v) :: l1, l2, h => by
    simp only [List.map_cons, List.mem_cons, not_or] at h
    have hk : ¬ k = s := fun hk => h.1 hk.symm
    simp only [List.cons_append, SymbolTable.find_in_scope, if_neg hk]
    exact find_in_scope_append l2 h.2

/-- Binding the formals leaves every name that is not a formal as it was outside
the scope just entered. -/
theorem check_formals_lookup (c : Class_) (x : Symbol) :
    ∀ (formals : List Formal) (ct : ClassTable) (sc : List (Symbol × Symbol))
      (rest : List (List (Symbol × Symbol))),
      x ∉ sc.map Prod.fst → x ∉ formals.map Formal.name →
      (check_formals c ct ⟨sc :: rest⟩ formals).2.lookup x =
        SymbolTable.lookup_scopes x rest
  | [], ct, sc, rest, hsc, _ => by
    simp only [check_formals]
    show SymbolTable.lookup_scopes x (sc :: rest) = _
    simp only [SymbolTable.lookup_scopes, find_in_scope_eq_none.mpr hsc]
  | formal :: formals, ct, sc, rest, hsc, hf => by
    simp only [List.map_cons, List.mem_cons, not_or] at hf
    simp only [check_formals]
    cases hp : SymbolTable.probe (⟨sc :: rest⟩ : SymbolTable Symbol) formal.name with
    | some t => exact check_formals_lookup c x formals _ sc rest hsc hf.2
    | none =>
      refine check_formals_lookup c x formals _ _ rest ?_ hf.2
      simp only [List.map_cons, List.mem_cons, not_or]
      exact ⟨hf.1, hsc⟩

/-- The attribute branch of `type_check_class` on a registry whose walks
terminate: it returns, only adds messages, and binds the attribute in the
innermost scope. -/
theorem check_attr_total {fuel N : Nat} (c : Class_) {ct : ClassTable}
    (hT : Terminating ct.class_table N) (hf : N < fuel) (sc : List (Symbol × Symbol))
    (rest : List (List (Symbol × Symbol))) (name type_decl : Symbol) (init : Expression) :
    ∃ ct' init', check_attr fuel c ct ⟨sc :: rest⟩ name type_decl init =
        some (ct', ⟨((name, attr_type ct.class_table type_decl) :: sc) :: rest⟩,
          Feature.attr name type_decl init') ∧
      Extends ct ct' := by
  unfold check_attr
  simp only
  have hE1 : Extends ct
      (if (decide (type_decl ≠ SELF_TYPE) && (ct.class_table.lookup type_decl).isNone) = true
        then ct.report ErrorKind.attr_undefined c else ct) := by
    split
    · exact Extends.of_report _ _ _
    · exact Extends.refl ct
  cases hi : init.get_type with
  | none => exact ⟨_, _, rfl, hE1⟩
  | some slot =>
    simp only
    obtain ⟨r, hr, hE, henv⟩ := type_check_expression_total fuel N c.name hf init _
      ⟨sc :: rest⟩ (hE1.terminating hT)
    rw [hr]
    simp only
    obtain ⟨b, hb⟩ := is_subtype_isSome ((hE1.trans hE).terminating hT) hf r.type
      (if (decide (type_decl ≠ SELF_TYPE) && (ct.class_table.lookup type_decl).isNone) = true
        then Object else type_decl)
    rw [hb]
    simp only [henv]
    refine ⟨_, _, rfl, ?_⟩
    cases b with
    | true => exact hE1.trans hE
    | false => exact (hE1.trans hE).then_report _ _

/-- The method branch of `type_check_class` on a registry whose walks terminate:
it returns, the body is checked in `body_state`, the environment is left as it
was, and only messages are added. -/
theorem check_method_total {fuel N : Nat} (c : Class_) {ct : ClassTable}
    (hT : Terminating ct.class_table N) (hf : N < fuel) (env : SymbolTable Symbol)
    (m : method_class) :
    ∃ r ct3,
      type_check_expression fuel c.name (body_state c ct env m).1 (body_state c ct env m).2
        m.expr = some r ∧
      check_method fuel c ct env m =
        some (ct3, env, Feature.method m.name m.formals m.return_type r.expr) ∧
      Extends ct (body_state c ct env m).1 ∧ Extends r.ct ct3 := by
  have hE0 : Extends ct
      (if (decide (m.return_type ≠ SELF_TYPE) &&
          (ct.class_table.lookup m.return_type).isNone) = true
        then ct.report ErrorKind.return_undefined c else ct) := by
    split
    · exact Extends.of_report _ _ _
    · exact Extends.refl ct
  have hEb : Extends ct (body_state c ct env m).1 :=
    hE0.trans (check_formals_extends c m.formals _ env)
  obtain ⟨r, hr, hE, _⟩ := type_check_expression_total fuel N c.name hf m.expr
    (body_state c ct env m).1 (body_state c ct env m).2 (hEb.terminating hT)
  have hTr := (hEb.trans hE).terminating hT
  obtain ⟨ct2, h2, hE2⟩ := check_return_total c hTr hf
    (if (decide (m.return_type ≠ SELF_TYPE) &&
        (ct.class_table.lookup m.return_type).isNone) = true
      then Object else m.return_type) r.type
  obtain ⟨ct3, ov, h3, h3tbl, h3s, h3c, _⟩ := check_override_total c
    (((hEb.trans hE).trans hE2).terminating hT) hf m.name m.formals
    (if (decide (m.return_type ≠ SELF_TYPE) &&
        (ct.class_table.lookup m.return_type).isNone) = true
      then Object else m.return_type)
  have hcm : check_method fuel c ct env m =
      some (ct3, r.object_env.exitscope,
        Feature.method m.name m.formals m.return_type r.expr) := by
    unfold check_method
    unfold body_state at hr
    simp only
    rw [hr]
    simp only
    rw [h2]
    simp only
    rw [h3]
  have henv := check_method_env hcm
  simp only at henv
  rw [henv] at hcm
  exact ⟨r, ct3, hr, hcm, hEb, hE2.trans ⟨h3tbl, ov, h3s, h3c⟩⟩

/-- One turn of the loop of `type_check_class` over the features. -/
theorem check_features_cons (fuel : Nat) (c : Class_) (ct : ClassTable)
    (env : SymbolTable Symbol) (f : Feature) (fs : List Feature) :
    check_features fuel c ct env (f :: fs) =
      (match
        (match f with
          | Feature.attr attr_name type_decl init =>
            check_attr fuel c ct env attr_name type_decl init
          | Feature.method name formals return_type expr =>
            check_method fuel c ct env ⟨name, formals, return_type, expr⟩) with
      | none => none
      | some (ct1, env1, f1) =>
        match check_features fuel c ct1 env1 fs with
        | none => none
        | some (ct2, env2, rest) => some (ct2, env2, f1 :: rest)) := rfl

/-- The loop of `type_check_class` over the features on a registry whose walks
terminate: it returns, only adds messages, keeps the number of features, and
leaves the environment extended, in its innermost scope, by the attributes among
the features, in feature order. -/
theorem check_features_total {fuel N : Nat} (c : Class_) (hf : N < fuel) :
    ∀ (fs : List Feature) (ct : ClassTable) (sc : List (Symbol × Symbol))
      (rest : List (List (Symbol × Symbol))), Terminating ct.class_table N →
      ∃ ct' fs', check_features fuel c ct ⟨sc :: rest⟩ fs =
          some (ct', ⟨(attrs_bound ct.class_table fs ++ sc) :: rest⟩, fs') ∧
        Extends ct ct' ∧ fs'.length = fs.length
  | [], ct, sc, rest, _ => ⟨ct, [], rfl, Extends.refl ct, rfl⟩
  | Feature.attr name type_decl init :: fs, ct, sc, rest, hT => by
    obtain ⟨ct1, init', h1, hE1⟩ := check_attr_total c hT hf sc rest name type_decl init
    obtain ⟨ct2, fs', h2, hE2, hlen⟩ := check_features_total c hf fs ct1
      ((name, attr_type ct.class_table type_decl) :: sc) rest (hE1.terminating hT)
    rw [hE1.1] at h2
    refine ⟨ct2, Feature.attr name type_decl init' :: fs', ?_, hE1.trans hE2, by simp [hlen]⟩
    rw [check_features_cons]
    simp only [h1, h2, attrs_bound, List.append_assoc, List.singleton_append]
  | Feature.method name formals return_type expr :: fs, ct, sc, rest, hT => by
    obtain ⟨r, ct1, _, h1, hEb, hE1⟩ := check_method_total c hT hf ⟨sc :: rest⟩
      ⟨name, formals, return_type, expr⟩
    have hE : Extends ct ct1 := by
      obtain ⟨hEr, _⟩ := type_check_expression_frame fuel c.name expr _ _ r (by assumption)
      exact (hEb.trans hEr).trans hE1
    obtain ⟨ct2, fs', h2, hE2, hlen⟩ := check_features_total c hf fs ct1 sc rest
      (hE.terminating hT)
    rw [hE.1] at h2
    refine ⟨ct2, Feature.method name formals return_type r.expr :: fs', ?_, hE.trans hE2,
      by simp [hlen]⟩
    rw [check_features_cons]
    simp only [h1, h2, attrs_bound]

/-- The loop over the features of `pre ++ rest` is the loop over `pre` followed
by the loop over `rest`. -/
theorem check_features_append (fuel : Nat) (c : Class_) :
    ∀ (pre rest : List Feature) (ct : ClassTable) (env : SymbolTable Symbol)
      (ct1 : ClassTable) (env1 : SymbolTable Symbol) (pre' : List Feature),
      check_features fuel c ct env pre = some (ct1, env1, pre') →
      check_features fuel c ct env (pre ++ rest) =
        (check_features fuel c ct1 env1 rest).map
          (fun res => (res.1, res.2.1, pre' ++ res.2.2))
  | [], rest, ct, env, ct1, env1, pre', h => by
    have h' : some (ct, env, ([] : List Feature)) = some (ct1, env1, pre') := h
    simp only [Option.some.injEq, Prod.mk.injEq] at h'
    obtain ⟨h1, h2, h3⟩ := h'
    subst h1
    subst h2
    subst h3
    show check_features fuel c ct env rest = _
    cases check_features fuel c ct env rest with
    | none => rfl
    | some res => rfl
  | f :: pre, rest, ct, env, ct1, env1, pre', h => by
    show check_features fuel c ct env (f :: (pre ++ rest)) = _
    rw [check_features_cons] at h ⊢
    cases hone : (match f with
        | Feature.attr attr_name type_decl init =>
          check_attr fuel c ct env attr_name type_decl init
        | Feature.method name formals return_type expr =>
          check_method fuel c ct env ⟨name, formals, return_type, expr⟩) with
    | none =>
      rw [hone] at h
      cases h
    | some one =>
      obtain ⟨cta, enva, f1⟩ := one
      rw [hone] at h
      simp only at h ⊢
      cases hpre : check_features fuel c cta enva pre with
      | none =>
        rw [hpre] at h
        cases h
      | some p =>
        obtain ⟨ctp, envp, fsp⟩ := p
        rw [hpre] at h
        simp only [Option.some.injEq, Prod.mk.injEq] at h
        obtain ⟨h1, h2, h3⟩ := h
        subst h1
        subst h2
        subst h3
        rw [check_features_append fuel c pre rest cta enva ctp envp fsp hpre]
        cases check_features fuel c ctp envp rest with
        | none => rfl
        | some res => rfl

/-- C33 (amended): `type_check_class` binds the attributes of a class into its
environment in feature order, and only the attributes of the class itself.  On
a validated registry, for a method `m` of the class `c` that comes after the
features `pre` and whose body is a reference to `x`, `x` not being a formal of
`m`: the loop reaches `m` with the environment holding `self` and the attributes
among `pre`, the newest first, and nothing else; the body is checked with `x`
looked up there; the whole check of the class returns.  When `x` is not `self`
and no attribute among `pre` is named `x` (it is declared later in the class,
only in an ancestor, or nowhere), the reference adds exactly one message, the
undeclared-identifier one, and has the type `Object`.  When `x` is the name of
an attribute among `pre`, the reference adds no message and has the type bound
for the last such attribute: its declared type when that is `SELF_TYPE` or
registered, `Object` otherwise. -/
theorem attributes_bound_in_order {fuel0 : Nat} {classes : List Class_} {ct0 : ClassTable}
    (hnew : ClassTable.new fuel0 classes = some ct0) (h0 : ct0.semant_errors = 0)
    (ct : ClassTable) (htbl : ct.class_table = ct0.class_table)
    (fuel : Nat) (hfuel : ct0.size < fuel) (c : Class_) (pre post : List Feature)
    (m : method_class) (slot : Option Symbol) (x : Symbol)
    (hc : c.features = pre ++ Feature.method m.name m.formals m.return_type m.expr :: post)
    (hbody : m.expr = Expression.object slot x)
    (hformal : x ∉ m.formals.map Formal.name) :
    ∃ (ct1 : ClassTable) (pre' : List Feature) (env1 : SymbolTable Symbol) (r : Typed)
        (res : ClassTable × Class_),
      env1 = ⟨[attrs_bound ct.class_table pre ++ [(self, SELF_TYPE)]]⟩ ∧
      check_features fuel c ct class_env pre = some (ct1, env1, pre') ∧
      (body_state c ct1 env1 m).2.lookup x = env1.lookup x ∧
      type_check_expression fuel c.name (body_state c ct1 env1 m).1
        (body_state c ct1 env1 m).2 m.expr = some r ∧
      type_check_class fuel ct c = some res ∧
      res.2.features[pre.length]? =
        some (Feature.method m.name m.formals m.return_type r.expr) ∧
      Extends r.ct res.1 ∧
      (x ≠ self → x ∉ attr_names pre →
        r.type = Object ∧ r.expr = Expression.object (some Object) x ∧
        r.ct.error_stream =
          (body_state c ct1 env1 m).1.error_stream ++
            [⟨ErrorKind.undeclared_identifier, c.name⟩] ∧
        r.ct.semant_errors = (body_state c ct1 env1 m).1.semant_errors + 1) ∧
      (∀ p1 p2 T init, pre = p1 ++ Feature.attr x T init :: p2 → x ∉ attr_names p2 →
        r.type = attr_type ct.class_table T ∧
        r.expr = Expression.object (some (attr_type ct.class_table T)) x ∧
        r.ct = (body_state c ct1 env1 m).1 ∧
        (T = SELF_TYPE ∨ (ct.class_table.lookup T).isSome = true → r.type = T)) := by
  have hT : Terminating ct.class_table ct0.size := by
    rw [htbl]
    exact terminating_of_validated hnew h0
  obtain ⟨ct1, pre', h1, hE1, hlen1⟩ :=
    check_features_total c hfuel pre ct [(self, SELF_TYPE)] [] hT
  have hT1 := hE1.terminating hT
  obtain ⟨r, ct2, hr, hm, hEb, hE2⟩ := check_method_total c hT1 hfuel
    ⟨[attrs_bound ct.class_table pre ++ [(self, SELF_TYPE)]]⟩ m
  have hEr := (type_check_expression_frame fuel c.name m.expr _ _ r hr).1
  have hE12 : Extends ct1 ct2 := (hEb.trans hEr).trans hE2
  obtain ⟨ct3, post', h3, hE3, _⟩ := check_features_total c hfuel post ct2
    (attrs_bound ct.class_table pre ++ [(self, SELF_TYPE)]) [] (hE12.terminating hT1)
  have hm' : check_method fuel c ct1 ⟨[attrs_bound ct.class_table pre ++ [(self, SELF_TYPE)]]⟩
      ⟨m.name, m.formals, m.return_type, m.expr⟩ =
      some (ct2, ⟨[attrs_bound ct.class_table pre ++ [(self, SELF_TYPE)]]⟩,
        Feature.method m.name m.formals m.return_type r.expr) := hm
  have hfeat : check_features fuel c ct class_env c.features =
      some (ct3, ⟨[attrs_bound ct2.class_table post ++
          (attrs_bound ct.class_table pre ++ [(self, SELF_TYPE)])]⟩,
        pre' ++ Feature.method m.name m.formals m.return_type r.expr :: post') := by
    rw [hc, check_features_append fuel c pre _ ct class_env ct1 _ pre' h1, check_features_cons]
    simp only [hm', h3, Option.map_some']
  have hlk : (body_state c ct1 ⟨[attrs_bound ct.class_table pre ++ [(self, SELF_TYPE)]]⟩
      m).2.lookup x =
      SymbolTable.find_in_scope x (attrs_bound ct.class_table pre ++ [(self, SELF_TYPE)]) := by
    have := check_formals_lookup c x m.formals
      (if (decide (m.return_type ≠ SELF_TYPE) &&
          (ct1.class_table.lookup m.return_type).isNone) = true
        then ct1.report ErrorKind.return_undefined c else ct1) []
      [attrs_bound ct.class_table pre ++ [(self, SELF_TYPE)]] (by simp) hformal
    rw [show (body_state c ct1 ⟨[attrs_bound ct.class_table pre ++ [(self, SELF_TYPE)]]⟩
      m).2.lookup x = _ from this]
    simp only [SymbolTable.lookup_scopes]
    cases SymbolTable.find_in_scope x (attrs_bound ct.class_table pre ++ [(self, SELF_TYPE)])
      <;> rfl
  have hlk1 : (⟨[attrs_bound ct.class_table pre ++ [(self, SELF_TYPE)]]⟩ :
      SymbolTable Symbol).lookup x =
      SymbolTable.find_in_scope x (attrs_bound ct.class_table pre ++ [(self, SELF_TYPE)]) :=
    lookup_single rfl x
  refine ⟨ct1, pre', ⟨[attrs_bound ct.class_table pre ++ [(self, SELF_TYPE)]]⟩, r,
    (ct3, { c with features :=
      pre' ++ Feature.method m.name m.formals m.return_type r.expr :: post' }),
    rfl, h1, hlk.trans hlk1.symm, hr, ?_, ?_, hE2.trans hE3, ?_, ?_⟩
  · show (match check_features fuel c ct class_env c.features with
      | none => none
      | some (ct1, _, features) => some (ct1, { c with features := features })) = _
    rw [hfeat]
  · show (pre' ++ Feature.method m.name m.formals m.return_type r.expr :: post')[pre.length]? =
      _
    rw [← hlen1, List.getElem?_append_right (Nat.le_refl _)]
    simp
  · intro hself hx
    have hnone : SymbolTable.find_in_scope x
        (attrs_bound ct.class_table pre ++ [(self, SELF_TYPE)]) = none := by
      rw [find_in_scope_eq_none]
      simp only [List.map_append, List.map_cons, List.map_nil, List.mem_append,
        List.mem_singleton, not_or]
      exact ⟨fun h => hx ((attrs_bound_keys ct.class_table x pre).mp h), hself⟩
    rw [hbody] at hr
    simp only [type_check_expression, hlk, hnone, Option.some.injEq] at hr
    subst hr
    exact ⟨rfl, rfl, rfl, rfl⟩
  · intro p1 p2 T init hpre hx
    have hsome : SymbolTable.find_in_scope x
        (attrs_bound ct.class_table pre ++ [(self, SELF_TYPE)]) =
        some (attr_type ct.class_table T) := by
      rw [hpre, attrs_bound_append]
      simp only [attrs_bound, List.append_assoc]
      rw [find_in_scope_append _
        (fun h => hx ((attrs_bound_keys ct.class_table x p2).mp h))]
      simp [SymbolTable.find_in_scope]
    rw [hbody] at hr
    simp only [type_check_expression, hlk, hsome, Option.some.injEq] at hr
    subst hr
    refine ⟨rfl, rfl, rfl, ?_⟩
    intro hT'
    show attr_type ct.class_table T = T
    unfold attr_type
    rcases hT' with h | h
    · simp [h]
    · cases hl : ct.class_table.lookup T with
      | none => rw [hl] at h; cases h
      | some _ => simp

/-- Witness of C33 (amended).  In `class A { y : Int; foo() : Object { x }; x : Int; }` the
reference to the attribute `x`, declared after `foo`, has the type `Object` and
the class gets one message, the undeclared-identifier one; so does `class B
inherits A { foo() : Object { x }; }` for the attribute `x` of its parent; in
`class A { x : Int; foo() : Object { x }; }` the reference has the type `Int`
and there is no message. -/
theorem attributes_bound_in_order_witness :
    (∃ ct, ClassTable.new 8 [sample_A_attr_later] = some ct ∧
      (∃ (r : Typed) (res : ClassTable × Class_),
        type_check_class 8 ct sample_A_attr_later = some res ∧
        res.2.features[1]? = some (Feature.method "foo" [] Object r.expr) ∧
        r.type = Object ∧ r.expr = Expression.object (some Object) "x") ∧
      (type_check_class 8 ct sample_A_attr_later).map (fun res => res.1.error_stream) =
        some [⟨ErrorKind.undeclared_identifier, "A"⟩]) ∧
    (∃ ct, ClassTable.new 8 [sample_A_attr_earlier, sample_B_attr_inherited] = some ct ∧
      ct.semant_errors = 0 ∧
      (type_check_class 8 ct sample_B_attr_inherited).map
          (fun res => (res.1.error_stream, res.2.features.map (fun f =>
            match f with
            | Feature.attr _ _ init => init.get_type
            | Feature.method _ _ _ body => body.get_type))) =
        some ([⟨ErrorKind.undeclared_identifier, "B"⟩], [some Object]) ∧
      (type_check_class 8 ct sample_A_attr_earlier).map
          (fun res => (res.1.error_stream, res.2.features.map (fun f =>
            match f with
            | Feature.attr _ _ init => init.get_type
            | Feature.method _ _ _ body => body.get_type))) =
        some ([], [none, some Int_])) := by
  constructor
  · obtain ⟨_, _, _, r, res, _, _, _, _, h5, h6, _, h8, _⟩ :=
      @attributes_bound_in_order 8 [sample_A_attr_later] _ rfl (by decide) _ rfl 8 (by decide)
        sample_A_attr_later [Feature.attr "y" Int_ (Expression.no_expr none)]
        [Feature.attr "x" Int_ (Expression.no_expr none)]
        ⟨"foo", [], Object, Expression.object none "x"⟩ none "x" rfl rfl (by decide)
    obtain ⟨k1, k2, _⟩ := h8 (by decide) (by decide)
    exact ⟨_, rfl, ⟨r, res, h5, h6, k1, k2⟩, by decide⟩
  · exact ⟨_, rfl, by decide, by decide, by decide⟩

/-- C33 fails as stated.  In `class A { x : Zorp; foo() : Object { x }; }`, built
without error, the reference to the attribute `x`, declared before `foo`, has
the type `Object`, not its declared type `Zorp`: the only message is the one
about the attribute.  And in `class A { foo() : SELF_TYPE { self }; self : Int;
}` the attribute named `self` is declared after `foo`, yet the reference is
found, with the type `SELF_TYPE` and without any message. -/
theorem attribute_type_counterexample :
    (∃ ct, ClassTable.new 8 [sample_A_attr_Zorp] = some ct ∧ ct.semant_errors = 0 ∧
      (ct.class_table.lookup "Zorp").isNone = true ∧
      (type_check_class 8 ct sample_A_attr_Zorp).map
          (fun res => (res.1.error_stream, res.2.features.map (fun f =>
            match f with
            | Feature.attr _ _ init => init.get_type
            | Feature.method _ _ _ body => body.get_type))) =
        some ([⟨ErrorKind.attr_undefined, "A"⟩], [none, some Object])) ∧
    (∃ ct, ClassTable.new 8 [sample_A_attr_self] = some ct ∧ ct.semant_errors = 0 ∧
      (type_check_class 8 ct sample_A_attr_self).map
          (fun res => (res.1.error_stream, res.2.features.map (fun f =>
            match f with
            | Feature.attr _ _ init => init.get_type
            | Feature.method _ _ _ body => body.get_type))) =
        some ([], [some SELF_TYPE, none])) :=
  ⟨⟨_, rfl, by decide, by decide, by decide⟩, ⟨_, rfl, by decide, by decide⟩⟩

end Semant
